import Mathlib

/-!
# UniBase storage engine: record heap, B+-tree index and lock manager

A shallow embedding of `src/record/rm_file_handle.cpp`,
`src/index/ix_index_handle.cpp` and
`src/transaction/concurrency/lock_manager.cpp`.  Page numbers, slot numbers and
counters are C `int`s and are modelled as `Int`; no arithmetic in these files
comes near the 32-bit range.  A page handle of the program is a pointer into the
buffer pool; here it is the page number, and every write through a handle is a
write to the page table of the file state.
-/

namespace UniBase

/-! ## Record heap: data model -/

/-- Record identifier: `(page_no, slot_no)`. -/
structure Rid where
  page_no : Int
  slot_no : Int
deriving DecidableEq, Repr

/-- A record buffer: a sequence of bytes. -/
abbrev Record := List Nat

/-- Exceptions thrown by the heap operations.  `LoopForever` is not an exception
of the program: it marks a run of `insert_record` whose free-list walk comes
back to a page it has already visited, where the program never returns. -/
inductive RmError where
  | PageNotExistError (page_no : Int)
  | RecordNotFoundError (page_no : Int) (slot_no : Int)
  | LoopForever
deriving DecidableEq, Repr

instance instDecidableEqExcept {ε α : Type} [DecidableEq ε] [DecidableEq α] :
    DecidableEq (Except ε α)
  | .ok a, .ok b =>
    if h : a = b then isTrue (by rw [h]) else isFalse (fun h2 => h (by injection h2))
  | .error a, .error b =>
    if h : a = b then isTrue (by rw [h]) else isFalse (fun h2 => h (by injection h2))
  | .ok _, .error _ => isFalse (fun h => by cases h)
  | .error _, .ok _ => isFalse (fun h => by cases h)

/-- Heap file header (`file_hdr_`). -/
structure RmFileHdr where
  record_size : Nat
  num_pages : Int
  num_records_per_page : Int
  first_free_page_no : Int

/-- Heap page header (`page_hdr`). -/
structure RmPageHdr where
  next_free_page_no : Int
  num_records : Int

/-- Modelled from the spec: the page handle type is declared in a header that is
not under src/.  A heap page is a header, a bitmap of slot occupancy and a slot
array of records.  The three parts are separate arrays: a read or a write past the
end of one never lands in another. -/
structure RmPage where
  page_hdr : RmPageHdr
  bitmap : Int → Bool
  slots : Int → Record

/-- The heap file: its header and the pages the buffer pool serves for it. -/
structure RmFileHandle where
  file_hdr_ : RmFileHdr
  pages : Int → RmPage

namespace Bitmap

/-- Modelled from the spec: `Bitmap` is declared in a header that is not under
src/.  `is_set bm pos` reads the occupancy bit of slot `pos`. -/
def is_set (bm : Int → Bool) (pos : Int) : Bool := bm pos

/-- Modelled from the spec: sets the occupancy bit of slot `pos`. -/
def set (bm : Int → Bool) (pos : Int) : Int → Bool := Function.update bm pos true

/-- Modelled from the spec: clears the occupancy bit of slot `pos`. -/
def reset (bm : Int → Bool) (pos : Int) : Int → Bool := Function.update bm pos false

/-- Modelled from the spec: the first position in `[0, max_n)` whose bit equals
`bit`, or `max_n` when there is none. -/
def first_bit (bit : Bool) (bm : Int → Bool) (max_n : Int) : Int :=
  match (List.range max_n.toNat).find? (fun (i : Nat) => is_set bm (i : Int) == bit) with
  | some i => Int.ofNat i
  | none => max_n

end Bitmap

/-- Modelled from the spec: the buffer pool is an external collaborator; the page
it hands out for `new_page` is zero-filled. -/
def zeroPage : RmPage :=
  { page_hdr := { next_free_page_no := 0, num_records := 0 }
    bitmap := fun _ => false
    slots := fun _ => [] }

/-- The C `memcpy(dst, src, n)` on byte sequences. -/
def memcpy (dst src : Record) (n : Nat) : Record := src.take n ++ dst.drop n

/-- Write the header of page `p`. -/
def RmFileHandle.setPageHdr (s : RmFileHandle) (p : Int) (h : RmPageHdr) : RmFileHandle :=
  { s with pages := Function.update s.pages p { s.pages p with page_hdr := h } }

/-- Write `next_free_page_no` of page `p`. -/
def RmFileHandle.setNextFree (s : RmFileHandle) (p : Int) (v : Int) : RmFileHandle :=
  s.setPageHdr p { (s.pages p).page_hdr with next_free_page_no := v }

/-- Write `file_hdr_.first_free_page_no`. -/
def RmFileHandle.setFirstFree (s : RmFileHandle) (v : Int) : RmFileHandle :=
  { s with file_hdr_ := { s.file_hdr_ with first_free_page_no := v } }

/-! ## Record heap: operations -/

/-- Embedding of `RmFileHandle::fetch_page_handle`. -/
def fetch_page_handle (s : RmFileHandle) (page_no : Int) : Except RmError Int :=
  if page_no < 0 ∨ page_no ≥ s.file_hdr_.num_pages then
    .error (.PageNotExistError page_no)
  else .ok page_no

/-- Embedding of `RmFileHandle::get_record`. -/
def get_record (s : RmFileHandle) (rid : Rid) : Except RmError Record :=
  match fetch_page_handle s rid.page_no with
  | .error e => .error e
  | .ok ph =>
    if rid.slot_no < 0 ∨ ¬ Bitmap.is_set (s.pages ph).bitmap rid.slot_no = true then
      .error (.RecordNotFoundError rid.page_no rid.slot_no)
    else .ok (((s.pages ph).slots rid.slot_no).take s.file_hdr_.record_size)

/-- Embedding of `RmFileHandle::create_new_page_handle`.  Modelled from the spec:
the page number handed out by the buffer pool for a new page is the number of
pages the file had. -/
def create_new_page_handle (s : RmFileHandle) : RmFileHandle × Except RmError Int :=
  let page_no := s.file_hdr_.num_pages
  let s1 : RmFileHandle :=
    { file_hdr_ := { s.file_hdr_ with num_pages := s.file_hdr_.num_pages + 1 }
      pages := Function.update s.pages page_no zeroPage }
  if s1.file_hdr_.first_free_page_no = -1 then
    (s1.setFirstFree page_no, .ok page_no)
  else
    match fetch_page_handle s1 s1.file_hdr_.first_free_page_no with
    | .error e => (s1, .error e)
    | .ok ff => (s1.setNextFree ff page_no, .ok page_no)

/-- Embedding of `RmFileHandle::create_page_handle`. -/
def create_page_handle (s : RmFileHandle) : RmFileHandle × Except RmError Int :=
  if s.file_hdr_.first_free_page_no = -1 then
    match create_new_page_handle s with
    | (s1, .error e) => (s1, .error e)
    | (s1, .ok p) =>
      ((s1.setPageHdr p { next_free_page_no := -1, num_records := 0 }).setFirstFree p, .ok p)
  else (s, fetch_page_handle s s.file_hdr_.first_free_page_no)

/-- Embedding of `RmFileHandle::release_page_handle`. -/
def release_page_handle (s : RmFileHandle) (ph : Int) : RmFileHandle :=
  if s.file_hdr_.first_free_page_no = -1 then
    (s.setFirstFree ph).setNextFree ph (-1)
  else
    let oldFirstFreePage := s.file_hdr_.first_free_page_no
    (s.setFirstFree ph).setNextFree ph oldFirstFreePage

/-- The slot scan inside the loop of `insert_record`: the first slot in
`[0, num)` whose bit is clear. -/
def scan_free_slot (bm : Int → Bool) (num : Int) : Option Nat :=
  (List.range num.toNat).find? (fun slot_no => !Bitmap.is_set bm (slot_no : Int))

/-- The `while(true)` loop of `insert_record`, from page handle `ph`.  The result
is `(page_handle, page_no, free_slot)` at loop exit. -/
def insert_loop : Nat → RmFileHandle → Int → RmFileHandle × Except RmError (Int × Int × Int)
  | 0, s, _ => (s, .error .LoopForever)
  | fuel + 1, s, ph =>
    match scan_free_slot (s.pages ph).bitmap s.file_hdr_.num_records_per_page with
    | some slot_no => (s, .ok (ph, ph, (slot_no : Int)))
    | none =>
      let page_no := (s.pages ph).page_hdr.next_free_page_no
      let s1 := s.setFirstFree page_no
      if page_no = -1 then (s1, .ok (ph, page_no, -1))
      else
        match fetch_page_handle s1 page_no with
        | .error e => (s1, .error e)
        | .ok ph1 => insert_loop fuel s1 ph1

/-- Lines 74-85 of `insert_record`: copy the record into the slot, set the bit,
count it, and unlink the page from the free list when it became full. -/
def insert_finish (s : RmFileHandle) (ph page_no free_slot : Int) (buf : Record) :
    RmFileHandle × Except RmError Rid :=
  let pg := s.pages ph
  let pg1 : RmPage :=
    { page_hdr := { pg.page_hdr with num_records := pg.page_hdr.num_records + 1 }
      bitmap := Bitmap.set pg.bitmap free_slot
      slots := Function.update pg.slots free_slot
        (memcpy (pg.slots free_slot) buf s.file_hdr_.record_size) }
  let s1 : RmFileHandle := { s with pages := Function.update s.pages ph pg1 }
  let s2 :=
    if pg1.page_hdr.num_records = s1.file_hdr_.num_records_per_page then
      s1.setFirstFree pg1.page_hdr.next_free_page_no
    else s1
  (s2, .ok ⟨page_no, free_slot⟩)

/-- Embedding of `RmFileHandle::insert_record(char* buf, Context*)`. -/
def insert_record (s : RmFileHandle) (buf : Record) : RmFileHandle × Except RmError Rid :=
  match create_page_handle s with
  | (s1, .error e) => (s1, .error e)
  | (s1, .ok ph0) =>
    match insert_loop (s1.file_hdr_.num_pages.toNat + 1) s1 ph0 with
    | (s2, .error e) => (s2, .error e)
    | (s2, .ok (ph, page_no, free_slot)) =>
      if free_slot = -1 then
        match create_new_page_handle s2 with
        | (s3, .error e) => (s3, .error e)
        | (s3, .ok new_page) =>
          let s4 := (s3.setNextFree ph new_page).setFirstFree new_page
          insert_finish s4 new_page new_page 0 buf
      else insert_finish s2 ph page_no free_slot buf

/-- Embedding of `RmFileHandle::insert_record(const Rid& rid, char* buf)`. -/
def insert_record_rid (s : RmFileHandle) (_rid : Rid) (buf : Record) :
    RmFileHandle × Except RmError Unit :=
  match create_page_handle s with
  | (s1, .error e) => (s1, .error e)
  | (s1, .ok ph) =>
    let pg := s1.pages ph
    let free_slot_no := Bitmap.first_bit false pg.bitmap s1.file_hdr_.num_records_per_page
    let pg1 : RmPage :=
      { page_hdr := { pg.page_hdr with num_records := pg.page_hdr.num_records + 1 }
        bitmap := Bitmap.set pg.bitmap free_slot_no
        slots := Function.update pg.slots free_slot_no
          (memcpy (pg.slots free_slot_no) buf s1.file_hdr_.record_size) }
    let s2 : RmFileHandle := { s1 with pages := Function.update s1.pages ph pg1 }
    let s3 :=
      if pg1.page_hdr.num_records = s2.file_hdr_.num_records_per_page then
        s2.setFirstFree pg1.page_hdr.next_free_page_no
      else s2
    (s3, .ok ())

/-- Embedding of `RmFileHandle::delete_record`. -/
def delete_record (s : RmFileHandle) (rid : Rid) : RmFileHandle × Except RmError Unit :=
  match fetch_page_handle s rid.page_no with
  | .error e => (s, .error e)
  | .ok ph =>
    if rid.slot_no < 0 then (s, .error (.RecordNotFoundError rid.page_no rid.slot_no))
    else if ¬ Bitmap.is_set (s.pages ph).bitmap rid.slot_no = true then
      (s, .error (.RecordNotFoundError rid.page_no rid.slot_no))
    else
      let pg := s.pages ph
      let pg1 : RmPage :=
        { pg with
          page_hdr := { pg.page_hdr with num_records := pg.page_hdr.num_records - 1 }
          bitmap := Bitmap.reset pg.bitmap rid.slot_no }
      let s1 : RmFileHandle := { s with pages := Function.update s.pages ph pg1 }
      if pg1.page_hdr.num_records = s1.file_hdr_.num_records_per_page - 1 then
        (release_page_handle s1 ph, .ok ())
      else (s1, .ok ())

/-- Embedding of `RmFileHandle::update_record`. -/
def update_record (s : RmFileHandle) (rid : Rid) (buf : Record) :
    RmFileHandle × Except RmError Unit :=
  match fetch_page_handle s rid.page_no with
  | .error e => (s, .error e)
  | .ok ph =>
    if rid.slot_no < 0 ∨ ¬ Bitmap.is_set (s.pages ph).bitmap rid.slot_no = true then
      (s, .error (.RecordNotFoundError rid.page_no rid.slot_no))
    else
      let pg := s.pages ph
      let pg1 : RmPage :=
        { pg with
          slots := Function.update pg.slots rid.slot_no
            (memcpy (pg.slots rid.slot_no) buf s.file_hdr_.record_size) }
      ({ s with pages := Function.update s.pages ph pg1 }, .ok ())

/-- Modelled from the spec: the file manager that creates a heap file is not
under src/.  An empty heap file has its header on page 0, no data page and an
empty free list. -/
def emptyHeap (record_size : Nat) (records_per_page : Int) : RmFileHandle :=
  { file_hdr_ :=
      { record_size := record_size
        num_pages := 1
        num_records_per_page := records_per_page
        first_free_page_no := -1 }
    pages := fun _ => zeroPage }

/-- A call of one of the mutating heap operations. -/
inductive HeapOp where
  | insert (buf : Record)
  | insert_rid (rid : Rid) (buf : Record)
  | delete (rid : Rid)
  | update (rid : Rid) (buf : Record)

/-- The file state a call leaves behind, whether it returned or threw. -/
def HeapOp.step (s : RmFileHandle) : HeapOp → RmFileHandle
  | .insert buf => (insert_record s buf).1
  | .insert_rid rid buf => (insert_record_rid s rid buf).1
  | .delete rid => (delete_record s rid).1
  | .update rid buf => (update_record s rid buf).1

/-- The file state after a sequence of calls. -/
def runHeap (s : RmFileHandle) (ops : List HeapOp) : RmFileHandle :=
  ops.foldl HeapOp.step s

/-! ## Record heap: invariants -/

/-- Number of set bits among the slots `0 .. k-1` of a bitmap. -/
def popcount (bm : Int → Bool) : Nat → Nat
  | 0 => 0
  | k + 1 => popcount bm k + (if bm (k : Int) = true then 1 else 0)

/-- Walking `next_free_page_no` from page `head` visits the pages of `l` in order
and then reaches the no-page sentinel `-1`. -/
inductive FreeChain (pages : Int → RmPage) : Int → List Int → Prop where
  | nil : FreeChain pages (-1) []
  | cons (p : Int) (l : List Int) : p ≠ -1 →
      FreeChain pages (pages p).page_hdr.next_free_page_no l → FreeChain pages p (p :: l)

/-- Page `p` is a data page of the file (page 0 holds the file header). -/
def IsDataPage (s : RmFileHandle) (p : Int) : Prop :=
  1 ≤ p ∧ p < s.file_hdr_.num_pages

/-- Every data page counts exactly its set bits. -/
def CountInv (s : RmFileHandle) : Prop :=
  ∀ p, IsDataPage s p →
    (s.pages p).page_hdr.num_records =
      (popcount (s.pages p).bitmap s.file_hdr_.num_records_per_page.toNat : Int)

/-- The free list visits exactly the data pages that are not full, each once, and
ends at the sentinel. -/
def FreeListInv (s : RmFileHandle) : Prop :=
  ∃ l : List Int, FreeChain s.pages s.file_hdr_.first_free_page_no l ∧ l.Nodup ∧
    ∀ p, p ∈ l ↔ (IsDataPage s p ∧
      (s.pages p).page_hdr.num_records < s.file_hdr_.num_records_per_page)

/-- Well-formed heap file: a positive page capacity, bitmaps of exactly
`num_records_per_page` bits, no record on the header page, and the two invariants
of the data model. -/
structure HeapInv (s : RmFileHandle) : Prop where
  n_pos : 0 < s.file_hdr_.num_records_per_page
  pages_pos : 1 ≤ s.file_hdr_.num_pages
  bits : ∀ p i, (i < 0 ∨ s.file_hdr_.num_records_per_page ≤ i) → (s.pages p).bitmap i = false
  hdr_page : ∀ i, (s.pages 0).bitmap i = false
  count : CountInv s
  free_list : FreeListInv s

/-- The state `create_page_handle` builds when the free list is empty. -/
def freshHead (s : RmFileHandle) : RmFileHandle :=
  { file_hdr_ :=
      { s.file_hdr_ with
        num_pages := s.file_hdr_.num_pages + 1
        first_free_page_no := s.file_hdr_.num_pages }
    pages := Function.update s.pages s.file_hdr_.num_pages
      { zeroPage with page_hdr := { next_free_page_no := -1, num_records := 0 } } }

/-- The page `insert_finish` leaves at `ph`. -/
def placedPage (s : RmFileHandle) (ph free_slot : Int) (buf : Record) : RmPage :=
  { page_hdr := { (s.pages ph).page_hdr with
      num_records := (s.pages ph).page_hdr.num_records + 1 }
    bitmap := Function.update (s.pages ph).bitmap free_slot true
    slots := Function.update (s.pages ph).slots free_slot
      (memcpy ((s.pages ph).slots free_slot) buf s.file_hdr_.record_size) }

/-- What `insert_record` and `insert_record(rid, buf)` do on a well-formed file:
they place the record in slot `k` of the free-list head `p` of `s1`, the state
after `create_page_handle`. -/
structure InsertPlan (s s1 : RmFileHandle) (p k : Int) : Prop where
  inv : HeapInv s1
  head : s1.file_hdr_.first_free_page_no = p
  ne : p ≠ -1
  k0 : 0 ≤ k
  kn : k < s1.file_hdr_.num_records_per_page
  bit : (s1.pages p).bitmap k = false
  rs : s1.file_hdr_.record_size = s.file_hdr_.record_size
  n : s1.file_hdr_.num_records_per_page = s.file_hdr_.num_records_per_page
  np : s.file_hdr_.num_pages ≤ s1.file_hdr_.num_pages
  old : ∀ q, q < s.file_hdr_.num_pages → s1.pages q = s.pages q

/-- The page `delete_record` leaves at `rid.page_no` before the free list is
touched. -/
def deletedPage (s : RmFileHandle) (rid : Rid) : RmPage :=
  { (s.pages rid.page_no) with
    page_hdr := { (s.pages rid.page_no).page_hdr with
      num_records := (s.pages rid.page_no).page_hdr.num_records - 1 }
    bitmap := Function.update (s.pages rid.page_no).bitmap rid.slot_no false }

/-- A slot that `get_record`, `delete_record` and `update_record` accept. -/
def Occupied (s : RmFileHandle) (rid : Rid) : Prop :=
  0 ≤ rid.page_no ∧ rid.page_no < s.file_hdr_.num_pages ∧ 0 ≤ rid.slot_no ∧
    (s.pages rid.page_no).bitmap rid.slot_no = true

/-- The page `update_record` leaves at `rid.page_no`. -/
def updatedPage (s : RmFileHandle) (rid : Rid) (buf : Record) : RmPage :=
  { (s.pages rid.page_no) with
    slots := Function.update (s.pages rid.page_no).slots rid.slot_no
      (memcpy ((s.pages rid.page_no).slots rid.slot_no) buf s.file_hdr_.record_size) }

/-- The call deletes or overwrites the record at `rid`. -/
def HeapOp.touches (rid : Rid) : HeapOp → Prop
  | .insert _ => False
  | .insert_rid _ _ => False
  | .delete r => r = rid
  | .update r _ => r = rid

instance (s : RmFileHandle) (rid : Rid) : Decidable (Occupied s rid) := by
  unfold Occupied; infer_instance

/-- The file of scenario S1 after 121 inserts of a 64-byte record. -/
def heapS1 : RmFileHandle :=
  runHeap (emptyHeap 64 60) (List.replicate 121 (HeapOp.insert (List.replicate 64 7)))

/-- A file with three records on page 1 from which `(1,0)` and `(1,2)` were
deleted. -/
def heapC7 : RmFileHandle :=
  runHeap (emptyHeap 4 4)
    [.insert [1, 1, 1, 1], .insert [2, 2, 2, 2], .insert [3, 3, 3, 3],
     .delete ⟨1, 0⟩, .delete ⟨1, 2⟩]

/-- No data page has a bit set at or behind position `num_records_per_page`. -/
def NoBitBehind (s : RmFileHandle) : Prop :=
  ∀ p i, IsDataPage s p → s.file_hdr_.num_records_per_page ≤ i → (s.pages p).bitmap i = false

/-- The page `first_free_page_no` names, when it is a data page, is not full. -/
def HeadNotFull (s : RmFileHandle) : Prop :=
  IsDataPage s s.file_hdr_.first_free_page_no →
    (s.pages s.file_hdr_.first_free_page_no).page_hdr.num_records <
      s.file_hdr_.num_records_per_page

/-- A file with two records per page whose page 1 is full, and whose
`first_free_page_no` names that page. -/
def heapC3 : RmFileHandle :=
  (runHeap (emptyHeap 4 2) [.insert [1, 1, 1, 1], .insert [2, 2, 2, 2]]).setFirstFree 1

/-- A file with two records per page and one record, at (1,0), in which the bit at
position 2 of page 1, behind the two bits of its bitmap, is set. -/
def heapC4 : RmFileHandle :=
  { file_hdr_ := (insert_record (emptyHeap 4 2) [1, 2, 3, 4]).1.file_hdr_
    pages := Function.update (insert_record (emptyHeap 4 2) [1, 2, 3, 4]).1.pages 1
      { (insert_record (emptyHeap 4 2) [1, 2, 3, 4]).1.pages 1 with
        bitmap := Bitmap.set ((insert_record (emptyHeap 4 2) [1, 2, 3, 4]).1.pages 1).bitmap 2 } }

/-! ## B+-tree index: data model -/

/-- Modelled from the spec: the key layout and `ix_compare` are declared in a
header that is not under src/.  A key is its sequence of column values; the model
covers keys whose columns are all of type INT, compared by value. -/
abbrev Key := List Int

/-- The constant `INVALID_PAGE_ID`, the no-page sentinel; it is declared in a header that is not
under src/, and the heap code writes the same sentinel as the literal `-1`. -/
def INVALID_PAGE_ID : Int := -1

/-- The constant `IX_NO_PAGE`, the no-page sentinel of the index, declared in a header that is
not under src/. -/
def IX_NO_PAGE : Int := -1

/-- Modelled from the spec: `Rid` is a pair of 32-bit integers, so `sizeof(Rid)`
is 8. -/
def sizeof_Rid : Int := 8

/-- Index file header (`file_hdr_`).  `col_num_` is the number of key columns,
the length of `col_types_` and `col_lens_`. -/
structure IxFileHdr where
  num_pages_ : Int
  root_page_ : Int
  col_num_ : Nat
  btree_order_ : Int
  first_leaf_ : Int
  last_leaf_ : Int
deriving DecidableEq, Repr

/-- Index node page header (`page_hdr`). -/
structure IxPageHdr where
  parent : Int
  num_key : Int
  is_leaf : Bool
  prev_leaf : Int
  next_leaf : Int
deriving DecidableEq, Repr

/-- Modelled from the spec: the node handle type is declared in a header that is
not under src/.  A node page is a header, a key array and a Rid array; both
arrays are read and written by slot index, also past `num_key`, where they hold
whatever was left there. -/
structure IxPage where
  page_hdr : IxPageHdr
  keys : Int → Key
  rids : Int → Rid

/-- The index file: its header, the pages the buffer pool serves for it, and the
page number the next `new_page` hands out. -/
structure IxIndexHandle where
  file_hdr_ : IxFileHdr
  pages : Int → IxPage
  next_page_no : Int

/-- Modelled from the spec: the page the buffer pool hands out for `new_page` is
zero-filled. -/
def zeroNode : IxPage :=
  { page_hdr := { parent := 0, num_key := 0, is_leaf := false, prev_leaf := 0, next_leaf := 0 }
    keys := fun _ => []
    rids := fun _ => ⟨0, 0⟩ }

/-- Modelled from the spec: one INT column compared by value, giving -1, 0 or 1. -/
def ix_compare_col (a b : Int) : Int :=
  if a < b then -1 else if a > b then 1 else 0

/-- Modelled from the spec: `ix_compare(a, b, col_types, col_lens)`, the key
comparison: column by column in declared order, the first difference decides. -/
def ix_compare (a b : Key) (col_num : Nat) : Int :=
  (List.range col_num).foldl
    (fun res i => if res ≠ 0 then res else ix_compare_col (a.getD i 0) (b.getD i 0)) 0

/-- Modelled from the spec: `ix_compare(a, b, col_types_[i], col_lens_[i])`, the
comparison of one column value, called with the type and length of column `i`.
The pointers `a` and `b` point at the start of the keys, so it is their first
column that is compared, and every column of the model is INT.  `none` is the
read of `col_types_[i]` outside the vector, which has one entry per key column. -/
def ix_compare_one (h : IxFileHdr) (a b : Key) (i : Int) : Option Int :=
  if 0 ≤ i ∧ i < (h.col_num_ : Int) then some (ix_compare_col (a.getD 0 0) (b.getD 0 0))
  else none

/-- Modelled from the spec: `memcmp(a, b, col_tot_len_) == 0` on two keys. -/
def key_bytes_eq (a b : Key) (col_num : Nat) : Bool :=
  (List.range col_num).all (fun i => a.getD i 0 == b.getD i 0)

/-- Modelled from the spec: `get_max_size`, `max_size = btree_order`. -/
def get_max_size (h : IxFileHdr) : Int := h.btree_order_

/-- Modelled from the spec: `get_min_size`, `min_size = ⌈max_size / 2⌉`. -/
def get_min_size (h : IxFileHdr) : Int := Int.tdiv (get_max_size h + 1) 2

/-! ## B+-tree index: node operations -/

/-- The `while (left <= right)` loop of `IxNodeHandle::lower_bound`. -/
def lower_bound_loop (h : IxFileHdr) (nd : IxPage) (target : Key) : Nat → Int → Int → Int
  | 0, _, _ => nd.page_hdr.num_key
  | fuel + 1, left, right =>
    if left ≤ right then
      let mid := Int.tdiv (left + right) 2
      let cmp := ix_compare target (nd.keys mid) h.col_num_
      if cmp = 0 then mid
      else if cmp < 0 then lower_bound_loop h nd target fuel left (mid - 1)
      else lower_bound_loop h nd target fuel (mid + 1) right
    else nd.page_hdr.num_key

/-- Embedding of `IxNodeHandle::lower_bound`.  The interval `[left, right]` shrinks in every
round, so `num_key + 2` rounds are never used up. -/
def lower_bound (h : IxFileHdr) (nd : IxPage) (target : Key) : Int :=
  lower_bound_loop h nd target (nd.page_hdr.num_key.toNat + 2) 0 nd.page_hdr.num_key

/-- The `while (left <= right)` loop of `IxNodeHandle::upper_bound`. -/
def upper_bound_loop (h : IxFileHdr) (nd : IxPage) (target : Key) : Nat → Int → Int → Int
  | 0, _, _ => nd.page_hdr.num_key
  | fuel + 1, left, right =>
    if left ≤ right then
      let mid := Int.tdiv (left + right) 2
      let cmp := ix_compare target (nd.keys mid) h.col_num_
      if cmp = 0 then mid + 1
      else if cmp < 0 then upper_bound_loop h nd target fuel left (mid - 1)
      else upper_bound_loop h nd target fuel (mid + 1) right
    else nd.page_hdr.num_key

/-- Embedding of `IxNodeHandle::upper_bound`. -/
def upper_bound (h : IxFileHdr) (nd : IxPage) (target : Key) : Int :=
  upper_bound_loop h nd target (nd.page_hdr.num_key.toNat + 2) 0 nd.page_hdr.num_key

/-- Embedding of `IxNodeHandle::leaf_lookup`: the Rid written to `*value`, or `none` for
`false`. -/
def leaf_lookup (h : IxFileHdr) (nd : IxPage) (key : Key) : Option Rid :=
  let it := lower_bound h nd key
  if it ≠ nd.page_hdr.num_key then some (nd.rids it) else none

/-- The `for` loop of `IxNodeHandle::internal_lookup` from index `i`, with `cnt`
rounds left: the value of `child_index` at its end.  The comparison is the
one-column overload, called with the type and length stored at the key slot
index `i`. -/
def internal_lookup_scan (h : IxFileHdr) (nd : IxPage) (key : Key) : Nat → Int → Option Int
  | 0, _ => some (-1)
  | cnt + 1, i =>
    match ix_compare_one h key (nd.keys i) i with
    | none => none
    | some cmp =>
      if cmp < 0 then some (i - 1) else internal_lookup_scan h nd key cnt (i + 1)

/-- Embedding of `IxNodeHandle::internal_lookup`. -/
def internal_lookup (h : IxFileHdr) (nd : IxPage) (key : Key) : Option Int :=
  let num_key := nd.page_hdr.num_key
  match internal_lookup_scan h nd key (num_key - 1).toNat 1 with
  | none => none
  | some child_index =>
    let child_index := if child_index = -1 then num_key - 1 else child_index
    some (nd.rids child_index).page_no

/-- Embedding of `IxNodeHandle::insert_pairs`: `key i` and `rid i` are the `i`-th key and Rid
behind the two source pointers, which at every call site point into another page
or at a local.  `none` is the `memmove` of a negative length. -/
def insert_pairs (h : IxFileHdr) (nd : IxPage) (pos : Int) (key : Int → Key) (rid : Int → Rid)
    (n : Int) : Option IxPage :=
  if pos < 0 ∨ pos + n > get_max_size h then some nd
  else
    let cnt := nd.page_hdr.num_key - pos
    if cnt < 0 then none
    else
      some
        { page_hdr := { nd.page_hdr with num_key := nd.page_hdr.num_key + n }
          keys := fun i =>
            if pos ≤ i ∧ i < pos + n then key (i - pos)
            else if pos + n ≤ i ∧ i < pos + n + cnt then nd.keys (i - n)
            else nd.keys i
          rids := fun i =>
            if pos ≤ i ∧ i < pos + n then rid (i - pos)
            else if pos + n ≤ i ∧ i < pos + n + cnt then nd.rids (i - n)
            else nd.rids i }

/-- Modelled from the spec: `insert_pair`, the insertion of one pair, is declared
in the header as `insert_pairs` with `n = 1`. -/
def insert_pair (h : IxFileHdr) (nd : IxPage) (pos : Int) (key : Key) (rid : Rid) :
    Option IxPage :=
  insert_pairs h nd pos (fun _ => key) (fun _ => rid) 1

/-- Embedding of `IxNodeHandle::insert`: the node afterwards and the returned size. -/
def IxPage.insert (h : IxFileHdr) (nd : IxPage) (key : Key) (value : Rid) :
    Option (IxPage × Int) :=
  let pos := lower_bound h nd key
  let found :=
    if pos < nd.page_hdr.num_key then
      match ix_compare_one h key (nd.keys pos) pos with
      | none => none
      | some cmp => some (decide (cmp = 0))
    else some false
  match found with
  | none => none
  | some true => some (nd, nd.page_hdr.num_key)
  | some false =>
    match insert_pair h nd pos key value with
    | none => none
    | some nd1 => some (nd1, nd1.page_hdr.num_key)

/-- Embedding of `IxNodeHandle::erase_pair`.  The keys move through a `char*`; the Rids move
through a `Rid*`, so their source `rid_slot + len` is `sizeof(Rid)` slots away. -/
def erase_pair (nd : IxPage) (pos : Int) : IxPage :=
  if pos ≥ nd.page_hdr.num_key ∨ pos < 0 then nd
  else
    let mv_size := nd.page_hdr.num_key - pos - 1
    { page_hdr := { nd.page_hdr with num_key := nd.page_hdr.num_key - 1 }
      keys := fun i => if pos ≤ i ∧ i < pos + mv_size then nd.keys (i + 1) else nd.keys i
      rids := fun i =>
        if pos ≤ i ∧ i < pos + mv_size then nd.rids (i + sizeof_Rid) else nd.rids i }

/-- Embedding of `IxNodeHandle::remove`: the node afterwards and the returned size. -/
def IxPage.remove (h : IxFileHdr) (nd : IxPage) (key : Key) : Option (IxPage × Int) :=
  let index := lower_bound h nd key
  let found :=
    if index ≠ nd.page_hdr.num_key then
      match ix_compare_one h key (nd.keys index) index with
      | none => none
      | some cmp => some (decide (cmp = 0))
    else some false
  match found with
  | none => none
  | some true => some (erase_pair nd index, (erase_pair nd index).page_hdr.num_key)
  | some false => some (nd, nd.page_hdr.num_key)

/-- Modelled from the spec: `find_child` is declared in the header; it gives the
index of the child in its parent, the first Rid slot that names the child's page.
`none` is its failed assertion that there is one. -/
def find_child (parent : IxPage) (child_page_no : Int) : Option Int :=
  match (List.range parent.page_hdr.num_key.toNat).find?
      (fun i => decide ((parent.rids (i : Int)).page_no = child_page_no)) with
  | some i => some (i : Int)
  | none => none

/-! ## B+-tree index: tree operations

Every operation returns `none` where the program has no defined result: a fetch
of a page that was never allocated, a failed `assert`, a `memmove` of negative
length, a read of `col_types_` outside the vector, or a walk that comes back to
a page it has visited.  Latches and page
pins are not modelled. -/

/-- Write page `p`. -/
def IxIndexHandle.setPage (t : IxIndexHandle) (p : Int) (nd : IxPage) : IxIndexHandle :=
  { t with pages := Function.update t.pages p nd }

/-- Write the header of page `p`. -/
def IxIndexHandle.setHdr (t : IxIndexHandle) (p : Int) (h : IxPageHdr) : IxIndexHandle :=
  t.setPage p { t.pages p with page_hdr := h }

/-- The accessor `set_parent_page_no` on page `p`. -/
def IxIndexHandle.set_parent_page_no (t : IxIndexHandle) (p v : Int) : IxIndexHandle :=
  t.setHdr p { (t.pages p).page_hdr with parent := v }

/-- The accessor `set_next_leaf` on page `p`. -/
def IxIndexHandle.set_next_leaf (t : IxIndexHandle) (p v : Int) : IxIndexHandle :=
  t.setHdr p { (t.pages p).page_hdr with next_leaf := v }

/-- The accessor `set_prev_leaf` on page `p`. -/
def IxIndexHandle.set_prev_leaf (t : IxIndexHandle) (p v : Int) : IxIndexHandle :=
  t.setHdr p { (t.pages p).page_hdr with prev_leaf := v }

/-- The accessor `set_size` on page `p`. -/
def IxIndexHandle.set_size (t : IxIndexHandle) (p v : Int) : IxIndexHandle :=
  t.setHdr p { (t.pages p).page_hdr with num_key := v }

/-- Embedding of `IxIndexHandle::fetch_node`: the handle of page `page_no`, when the file has
that page. -/
def fetch_node (t : IxIndexHandle) (page_no : Int) : Option Int :=
  if 0 ≤ page_no ∧ page_no < t.next_page_no then some page_no else none

/-- Embedding of `IxIndexHandle::create_node`: the state with the new page and its handle. -/
def create_node (t : IxIndexHandle) : IxIndexHandle × Int :=
  ({ file_hdr_ := { t.file_hdr_ with num_pages_ := t.file_hdr_.num_pages_ + 1 }
     pages := Function.update t.pages t.next_page_no zeroNode
     next_page_no := t.next_page_no + 1 }, t.next_page_no)

/-- Embedding of `IxIndexHandle::release_node_handle`. -/
def release_node_handle (t : IxIndexHandle) : IxIndexHandle :=
  { t with file_hdr_ := { t.file_hdr_ with num_pages_ := t.file_hdr_.num_pages_ - 1 } }

/-- Embedding of `IxIndexHandle::maintain_child`. -/
def maintain_child (t : IxIndexHandle) (node : Int) (child_idx : Int) : Option IxIndexHandle :=
  if ¬ (t.pages node).page_hdr.is_leaf = true then
    let child_page_no := ((t.pages node).rids child_idx).page_no
    match fetch_node t child_page_no with
    | none => none
    | some child => some (t.set_parent_page_no child node)
  else some t

/-- The calls `maintain_child(node, i)` for `i = lo, lo + 1, ...`, `cnt` times. -/
def maintain_children (t : IxIndexHandle) (node : Int) (lo : Int) : Nat → Option IxIndexHandle
  | 0 => some t
  | cnt + 1 =>
    match maintain_child t node lo with
    | none => none
    | some t1 => maintain_children t1 node (lo + 1) cnt

/-- The `while` loop of `IxIndexHandle::maintain_parent`, from node `curr`. -/
def maintain_parent_loop : Nat → IxIndexHandle → Int → Option IxIndexHandle
  | 0, _, _ => none
  | fuel + 1, t, curr =>
    if (t.pages curr).page_hdr.parent ≠ IX_NO_PAGE then
      match fetch_node t (t.pages curr).page_hdr.parent with
      | none => none
      | some parent =>
        match find_child (t.pages parent) curr with
        | none => none
        | some rank =>
          let parent_key := (t.pages parent).keys rank
          let child_first_key := (t.pages curr).keys 0
          if key_bytes_eq parent_key child_first_key t.file_hdr_.col_num_ = true then some t
          else
            let pg := t.pages parent
            let t1 := t.setPage parent
              { pg with keys := Function.update pg.keys rank child_first_key }
            maintain_parent_loop fuel t1 parent
    else some t

/-- Embedding of `IxIndexHandle::maintain_parent`. -/
def maintain_parent (t : IxIndexHandle) (node : Int) : Option IxIndexHandle :=
  maintain_parent_loop (t.next_page_no.toNat + 1) t node

/-- Embedding of `IxIndexHandle::erase_leaf`. -/
def erase_leaf (t : IxIndexHandle) (leaf : Int) : Option IxIndexHandle :=
  if ¬ (t.pages leaf).page_hdr.is_leaf = true then none
  else
    match fetch_node t (t.pages leaf).page_hdr.prev_leaf with
    | none => none
    | some prev =>
      let t1 := t.set_next_leaf prev (t.pages leaf).page_hdr.next_leaf
      match fetch_node t1 (t1.pages leaf).page_hdr.next_leaf with
      | none => none
      | some next => some (t1.set_prev_leaf next (t1.pages leaf).page_hdr.prev_leaf)

/-- The `while` loop of `IxIndexHandle::find_leaf_page`, from node `node`. -/
def find_leaf_loop (t : IxIndexHandle) (key : Key) : Nat → Int → Option Int
  | 0, _ => none
  | fuel + 1, node =>
    if ¬ (t.pages node).page_hdr.is_leaf = true then
      match internal_lookup t.file_hdr_ (t.pages node) key with
      | none => none
      | some node_page =>
        match fetch_node t node_page with
        | none => none
        | some child => find_leaf_loop t key fuel child
    else some node

/-- Embedding of `IxIndexHandle::find_leaf_page`: the handle of the leaf. -/
def find_leaf_page (t : IxIndexHandle) (key : Key) : Option Int :=
  match fetch_node t t.file_hdr_.root_page_ with
  | none => none
  | some root => find_leaf_loop t key (t.next_page_no.toNat + 1) root

/-- Embedding of `IxIndexHandle::get_value`: the returned flag and the `result` vector
afterwards. -/
def get_value (t : IxIndexHandle) (key : Key) (result : List Rid) : Option (Bool × List Rid) :=
  match find_leaf_page t key with
  | none => none
  | some leaf =>
    match leaf_lookup t.file_hdr_ (t.pages leaf) key with
    | some rid => some (true, result ++ [rid])
    | none => some (false, result)

/-- The copy loop of `split`: `new_node->insert_pair(i - mid, node->get_key(i),
*node->get_rid(i))` for `i = mid + j`, `j = done, done + 1, ...`, `cnt` times. -/
def split_copy (t : IxIndexHandle) (node new_node : Int) (mid : Int) :
    Nat → Int → Option IxIndexHandle
  | 0, _ => some t
  | cnt + 1, done =>
    match insert_pair t.file_hdr_ (t.pages new_node) done
        ((t.pages node).keys (mid + done)) ((t.pages node).rids (mid + done)) with
    | none => none
    | some pg => split_copy (t.setPage new_node pg) node new_node mid cnt (done + 1)

/-- Embedding of `IxIndexHandle::split`: the state afterwards and the handle of the new node. -/
def split (t : IxIndexHandle) (node : Int) : Option (IxIndexHandle × Int) :=
  let total_keys := (t.pages node).page_hdr.num_key
  let mid := Int.tdiv total_keys 2
  let (t1, new_node) := create_node t
  let t2 :=
    if (t1.pages node).page_hdr.is_leaf = true then
      t1.setHdr new_node { (t1.pages new_node).page_hdr with is_leaf := true }
    else t1
  match split_copy t2 node new_node mid (total_keys - mid).toNat 0 with
  | none => none
  | some t3 =>
    let t4 := t3.set_size node mid
    let t5 := t4.set_parent_page_no new_node (t4.pages node).page_hdr.parent
    if (t5.pages new_node).page_hdr.is_leaf = true then
      let t6 := t5.set_prev_leaf new_node node
      let t7 := t6.set_next_leaf new_node (t6.pages node).page_hdr.next_leaf
      some (t7.set_next_leaf node new_node, new_node)
    else
      match maintain_children t5 new_node 0
          ((t5.pages new_node).page_hdr.num_key + 1).toNat with
      | none => none
      | some t6 => some (t6, new_node)

/-- Modelled from the spec: `is_root_page` is declared in the header; the root is
the node whose parent is the no-page sentinel. -/
def is_root_page (nd : IxPage) : Bool := decide (nd.page_hdr.parent = INVALID_PAGE_ID)

/-- Embedding of `IxIndexHandle::insert_into_parent`. -/
def insert_into_parent : Nat → IxIndexHandle → Int → Key → Int → Option IxIndexHandle
  | 0, _, _, _, _ => none
  | fuel + 1, t, old_node, key, new_node =>
    if is_root_page (t.pages old_node) = true then
      let (t1, new_root) := create_node t
      match insert_pair t1.file_hdr_ (t1.pages new_root) 0
          ((t1.pages old_node).keys 0) ⟨old_node, 0⟩ with
      | none => none
      | some pg1 =>
        let t2 := t1.setPage new_root pg1
        match insert_pair t2.file_hdr_ (t2.pages new_root) 1
            ((t2.pages new_node).keys 0) ⟨new_node, 0⟩ with
        | none => none
        | some pg2 =>
          let t3 := t2.setPage new_root pg2
          let t4 := t3.set_parent_page_no old_node new_root
          let t5 := t4.set_parent_page_no new_node new_root
          let t6 := t5.set_next_leaf new_root INVALID_PAGE_ID
          let t7 := t6.set_prev_leaf new_root INVALID_PAGE_ID
          let t8 := t7.set_parent_page_no new_root INVALID_PAGE_ID
          some { t8 with file_hdr_ := { t8.file_hdr_ with root_page_ := new_root } }
    else
      match fetch_node t (t.pages old_node).page_hdr.parent with
      | none => none
      | some parent_node =>
        let parent_insert_pos := upper_bound t.file_hdr_ (t.pages parent_node) key
        match insert_pair t.file_hdr_ (t.pages parent_node) parent_insert_pos
            ((t.pages new_node).keys 0) ⟨new_node, 0⟩ with
        | none => none
        | some pg =>
          let t1 := t.setPage parent_node pg
          if (t1.pages parent_node).page_hdr.num_key ≥ get_max_size t1.file_hdr_ then
            match split t1 parent_node with
            | none => none
            | some (t2, new_parent_node) =>
              insert_into_parent fuel t2 parent_node key new_parent_node
          else some t1

/-- Embedding of `IxIndexHandle::insert_entry`: the state afterwards and the returned page
number of the leaf. -/
def insert_entry (t : IxIndexHandle) (key : Key) (value : Rid) : Option (IxIndexHandle × Int) :=
  match find_leaf_page t key with
  | none => none
  | some leaf_node =>
    match (t.pages leaf_node).insert t.file_hdr_ key value with
    | none => none
    | some (pg, insert_result) =>
      let t1 := t.setPage leaf_node pg
      if insert_result = get_max_size t1.file_hdr_ then
        match split t1 leaf_node with
        | none => none
        | some (t2, new_node) =>
          match insert_into_parent (t2.next_page_no.toNat + 1) t2 leaf_node key new_node with
          | none => none
          | some t3 =>
            let t4 :=
              if t3.file_hdr_.last_leaf_ = leaf_node then
                { t3 with file_hdr_ := { t3.file_hdr_ with last_leaf_ := new_node } }
              else t3
            some (t4, leaf_node)
      else some (t1, leaf_node)

/-- Embedding of `IxIndexHandle::adjust_root`. -/
def adjust_root (t : IxIndexHandle) (old_root_node : Int) : Option (IxIndexHandle × Bool) :=
  let hdr := (t.pages old_root_node).page_hdr
  if ¬ hdr.is_leaf = true ∧ hdr.num_key = 1 then
    match fetch_node t ((t.pages old_root_node).rids 0).page_no with
    | none => none
    | some child =>
      let t1 := release_node_handle t
      let t2 : IxIndexHandle := { t1 with file_hdr_ := { t1.file_hdr_ with root_page_ := child } }
      some (t2.set_parent_page_no child IX_NO_PAGE, true)
  else if hdr.is_leaf = true ∧ hdr.num_key = 0 then
    let t1 := release_node_handle t
    some ({ t1 with file_hdr_ := { t1.file_hdr_ with root_page_ := INVALID_PAGE_ID } }, true)
  else some (t, false)

/-- Embedding of `IxIndexHandle::redistribute`. -/
def redistribute (t : IxIndexHandle) (neighbor_node node _parent : Int) (index : Int) :
    Option IxIndexHandle :=
  let erase_pos := if index ≠ 0 then (t.pages neighbor_node).page_hdr.num_key - 1 else 0
  let insert_pos := if index ≠ 0 then 0 else (t.pages node).page_hdr.num_key
  match insert_pair t.file_hdr_ (t.pages node) insert_pos
      ((t.pages neighbor_node).keys erase_pos) ((t.pages neighbor_node).rids erase_pos) with
  | none => none
  | some pg =>
    let t1 := t.setPage node pg
    let t2 := t1.setPage neighbor_node (erase_pair (t1.pages neighbor_node) erase_pos)
    match maintain_child t2 node insert_pos with
    | none => none
    | some t3 => maintain_parent t3 (if index ≠ 0 then node else neighbor_node)

/-- Embedding of `IxIndexHandle::coalesce`, with `recurse` standing for its closing call of
`coalesce_or_redistribute` on the parent. -/
def coalesce (recurse : IxIndexHandle → Int → Option (IxIndexHandle × Bool))
    (t : IxIndexHandle) (neighbor_node node parent : Int) (index : Int) :
    Option (IxIndexHandle × Bool) :=
  let (neighbor_node, node, index) :=
    if index = 0 then (node, neighbor_node, index + 1) else (neighbor_node, node, index)
  let t1 :=
    if (t.pages node).page_hdr.is_leaf = true ∧ node = t.file_hdr_.last_leaf_ then
      { t with file_hdr_ := { t.file_hdr_ with last_leaf_ := neighbor_node } }
    else t
  let insert_pos := (t1.pages neighbor_node).page_hdr.num_key
  match insert_pairs t1.file_hdr_ (t1.pages neighbor_node) insert_pos
      (fun i => (t1.pages node).keys i) (fun i => (t1.pages node).rids i)
      (t1.pages node).page_hdr.num_key with
  | none => none
  | some pg =>
    let t2 := t1.setPage neighbor_node pg
    match maintain_children t2 neighbor_node insert_pos
        (t2.pages node).page_hdr.num_key.toNat with
    | none => none
    | some t3 =>
      match erase_leaf t3 node with
      | none => none
      | some t4 =>
        let t5 := release_node_handle t4
        let t6 := t5.setPage parent (erase_pair (t5.pages parent) index)
        recurse t6 parent

/-- Embedding of `IxIndexHandle::coalesce_or_redistribute`. -/
def coalesce_or_redistribute : Nat → IxIndexHandle → Int → Option (IxIndexHandle × Bool)
  | 0, _, _ => none
  | fuel + 1, t, node =>
    if node = t.file_hdr_.root_page_ then adjust_root t node
    else if (t.pages node).page_hdr.num_key ≥ get_min_size t.file_hdr_ then
      match maintain_parent t node with
      | none => none
      | some t1 => some (t1, false)
    else
      match fetch_node t (t.pages node).page_hdr.parent with
      | none => none
      | some parent =>
        match find_child (t.pages parent) node with
        | none => none
        | some index =>
          match fetch_node t
              ((t.pages parent).rids (index + (if index ≠ 0 then -1 else 1))).page_no with
          | none => none
          | some neighbor =>
            if (t.pages node).page_hdr.num_key + (t.pages neighbor).page_hdr.num_key ≥
                get_min_size t.file_hdr_ * 2 then
              match redistribute t neighbor node parent index with
              | none => none
              | some t1 => some (t1, false)
            else
              match coalesce (coalesce_or_redistribute fuel) t neighbor node parent index with
              | none => none
              | some (t1, _) => some (t1, true)

/-- Embedding of `IxIndexHandle::delete_entry`: the state afterwards and the returned flag. -/
def delete_entry (t : IxIndexHandle) (key : Key) : Option (IxIndexHandle × Bool) :=
  match find_leaf_page t key with
  | none => none
  | some leaf =>
    let num := (t.pages leaf).page_hdr.num_key
    match (t.pages leaf).remove t.file_hdr_ key with
    | none => none
    | some (pg, size) =>
      let t1 := t.setPage leaf pg
      let res := decide (num ≠ size)
      if res = true then
        match coalesce_or_redistribute (t1.next_page_no.toNat + 1) t1 leaf with
        | none => none
        | some (t2, _) => some (t2, res)
      else some (t1, res)

/-- Modelled from the spec: the index manager that creates an index file is not
under src/.  An empty index has its file header on page 0 and an empty leaf as
root, which is also the first and the last leaf; its leaf links and its parent are
the no-page sentinel.  Node pages are handed out from page 3 on, as the comment
in `create_node` says, so the root is page 2. -/
def emptyIndex (col_num : Nat) (btree_order : Int) : IxIndexHandle :=
  { file_hdr_ :=
      { num_pages_ := 3
        root_page_ := 2
        col_num_ := col_num
        btree_order_ := btree_order
        first_leaf_ := 2
        last_leaf_ := 2 }
    pages := Function.update (fun _ => zeroNode) 2
      { zeroNode with
        page_hdr :=
          { parent := IX_NO_PAGE, num_key := 0, is_leaf := true,
            prev_leaf := INVALID_PAGE_ID, next_leaf := INVALID_PAGE_ID } }
    next_page_no := 3 }

/-- A call of `insert_entry` or `delete_entry`. -/
inductive IxOp where
  | insert (key : Key) (value : Rid)
  | delete (key : Key)

/-- The index state a call leaves behind, when it returns. -/
def IxOp.step (t : IxIndexHandle) : IxOp → Option IxIndexHandle
  | .insert key value => (insert_entry t key value).map Prod.fst
  | .delete key => (delete_entry t key).map Prod.fst

/-- The index state after a sequence of calls that all return. -/
def runIndex (t : IxIndexHandle) : List IxOp → Option IxIndexHandle
  | [] => some t
  | op :: ops =>
    match op.step t with
    | none => none
    | some t1 => runIndex t1 ops

/-- The keys a leaf holds at slots `0 .. num_key - 1`. -/
def leaf_keys (nd : IxPage) : List Key :=
  (List.range nd.page_hdr.num_key.toNat).map (fun i => nd.keys (i : Int))

/-- Walking the leaf list from `leaf` via `next_leaf`: the keys of every leaf in
turn, until the link names no page of the file. -/
def leaf_walk (t : IxIndexHandle) : Nat → Int → List Key
  | 0, _ => []
  | fuel + 1, leaf =>
    match fetch_node t leaf with
    | none => []
    | some p => leaf_keys (t.pages p) ++ leaf_walk t fuel (t.pages p).page_hdr.next_leaf

/-- The in-order traversal of the leaf list from `first_leaf_`. -/
def leaf_list_keys (t : IxIndexHandle) : List Key :=
  leaf_walk t (t.next_page_no.toNat + 1) t.file_hdr_.first_leaf_

/-- The index of order 4 on one INT column after `insert_entry` of the keys 10
and 30. -/
def ixC8 : Option IxIndexHandle :=
  runIndex (emptyIndex 1 4) [.insert [10] ⟨1, 0⟩, .insert [30] ⟨1, 1⟩]

/-- The index of order 4 on one INT column after `insert_entry` of the keys 10,
30 and 20, in that order. -/
def ixC9 : Option IxIndexHandle :=
  runIndex (emptyIndex 1 4) [.insert [10] ⟨1, 0⟩, .insert [30] ⟨1, 1⟩, .insert [20] ⟨1, 2⟩]

/-- The index of order 4 on one INT column after `insert_entry` of the keys 2
and 1, in that order. -/
def ixC10 : Option IxIndexHandle :=
  runIndex (emptyIndex 1 4) [.insert [2] ⟨1, 0⟩, .insert [1] ⟨1, 1⟩]

/-! ## B+-tree index: reference definitions and concrete inputs -/

/-- A node page that holds the given pairs at slots 0, 1, ... and zeros behind
them, as a page that was zero-filled before they were stored. -/
def nodeOf (is_leaf : Bool) (pairs : List (Key × Rid)) : IxPage :=
  { page_hdr :=
      { parent := IX_NO_PAGE, num_key := (pairs.length : Int), is_leaf := is_leaf,
        prev_leaf := INVALID_PAGE_ID, next_leaf := INVALID_PAGE_ID }
    keys := fun i => if 0 ≤ i then (pairs.getD i.toNat ([], ⟨0, 0⟩)).1 else []
    rids := fun i => if 0 ≤ i then (pairs.getD i.toNat ([], ⟨0, 0⟩)).2 else ⟨0, 0⟩ }

/-- The file header of an index of the given order on `col_num` INT columns. -/
def hdrOf (col_num : Nat) (btree_order : Int) : IxFileHdr :=
  (emptyIndex col_num btree_order).file_hdr_

/-- The Rids a node holds at slots `0 .. num_key - 1`. -/
def node_rids (nd : IxPage) : List Rid :=
  (List.range nd.page_hdr.num_key.toNat).map (fun (i : Nat) => nd.rids (i : Int))

/-- Reference definition of `lower_bound`, in the spec's words: the first index
`i` with `target ≤ key[i]`, in `[0, num_key]`. -/
def lower_bound_ref (h : IxFileHdr) (nd : IxPage) (target : Key) : Int :=
  match (List.range nd.page_hdr.num_key.toNat).find?
      (fun (i : Nat) => decide (ix_compare target (nd.keys (i : Int)) h.col_num_ ≤ 0)) with
  | some i => Int.ofNat i
  | none => nd.page_hdr.num_key

/-- Reference definition of `upper_bound`, in the spec's words: the first index
`i` with `target < key[i]`, in `[0, num_key]`. -/
def upper_bound_ref (h : IxFileHdr) (nd : IxPage) (target : Key) : Int :=
  match (List.range nd.page_hdr.num_key.toNat).find?
      (fun (i : Nat) => decide (ix_compare target (nd.keys (i : Int)) h.col_num_ < 0)) with
  | some i => Int.ofNat i
  | none => nd.page_hdr.num_key

/-- Reference definition of `internal_lookup`, in the spec's words: `value_at(i)`
for the largest `i` in `[0, num_key)` with `key[i] ≤ k` under the key comparison
on all columns, and `value_at(0)` when `k` is smaller than every key. -/
def internal_lookup_ref (h : IxFileHdr) (nd : IxPage) (k : Key) : Int :=
  let below := (List.range nd.page_hdr.num_key.toNat).filter
    (fun (i : Nat) => decide (ix_compare (nd.keys (i : Int)) k h.col_num_ ≤ 0))
  (nd.rids (Int.ofNat (below.getLast?.getD 0))).page_no

/-- The index of order 4 on two INT columns after `insert_entry` of the keys
(10,0), (20,0), (30,0), (40,0), which splits the root leaf, and then (5,0). -/
def ixC12 : Option IxIndexHandle :=
  runIndex (emptyIndex 2 4)
    [.insert [10, 0] ⟨1, 0⟩, .insert [20, 0] ⟨1, 1⟩, .insert [30, 0] ⟨1, 2⟩,
     .insert [40, 0] ⟨1, 3⟩, .insert [5, 0] ⟨1, 4⟩]

/-- The index of order 4 on four INT columns after `insert_entry` of the keys
10, 20, 30, 40, 50, 60 (first column, zeros behind), which leaves a root with the
three leaves 2, 3, 5, and then `delete_entry` of 30, which merges leaf 3 into
leaf 2. -/
def ixC12b : Option IxIndexHandle :=
  runIndex (emptyIndex 4 4)
    [.insert [10, 0, 0, 0] ⟨1, 0⟩, .insert [20, 0, 0, 0] ⟨1, 1⟩, .insert [30, 0, 0, 0] ⟨1, 2⟩,
     .insert [40, 0, 0, 0] ⟨1, 3⟩, .insert [50, 0, 0, 0] ⟨1, 4⟩, .insert [60, 0, 0, 0] ⟨1, 5⟩,
     .delete [30, 0, 0, 0]]

/-- The index of order 4 on two INT columns after `insert_entry` of the keys
(10,0), (20,0), (30,0), (40,0), which splits the root leaf into the leaves 2 and
3, and then (11,0): leaf 2 holds three keys and its `next_leaf` is leaf 3. -/
def ixC20 : Option IxIndexHandle :=
  runIndex (emptyIndex 2 4)
    [.insert [10, 0] ⟨1, 0⟩, .insert [20, 0] ⟨1, 1⟩, .insert [30, 0] ⟨1, 2⟩,
     .insert [40, 0] ⟨1, 3⟩, .insert [11, 0] ⟨1, 4⟩]

/-- The keys at slots `0 .. num_key - 1` are strictly ascending under the key
comparison. -/
def StrictAsc (h : IxFileHdr) (nd : IxPage) : Prop :=
  ∀ i j : Int, 0 ≤ i → i < j → j < nd.page_hdr.num_key →
    ix_compare (nd.keys i) (nd.keys j) h.col_num_ < 0

/-- The pairs a node holds at slots `0 .. num_key - 1`, in slot order. -/
def node_pairs (nd : IxPage) : List (Key × Rid) :=
  (List.range nd.page_hdr.num_key.toNat).map (fun (i : Nat) => (nd.keys (Int.ofNat i), nd.rids (Int.ofNat i)))

/-- The state `t1` differs from `t` in parent fields only. -/
def SameButParent (t t1 : IxIndexHandle) : Prop :=
  t1.file_hdr_ = t.file_hdr_ ∧ t1.next_page_no = t.next_page_no ∧
    ∀ p, (t1.pages p).keys = (t.pages p).keys ∧ (t1.pages p).rids = (t.pages p).rids ∧
      (t1.pages p).page_hdr =
        { (t.pages p).page_hdr with parent := (t1.pages p).page_hdr.parent }

/-- The state of `split` after `create_node` and the marking of the new node as a
leaf when `node` is one. -/
def split_fresh (t : IxIndexHandle) (node : Int) : IxIndexHandle :=
  if ((create_node t).1.pages node).page_hdr.is_leaf = true then
    (create_node t).1.setHdr (create_node t).2
      { ((create_node t).1.pages (create_node t).2).page_hdr with is_leaf := true }
  else (create_node t).1

/-- An index of order 4 on one INT column whose root, page 2, is an internal
node with the four entries 10, 20, 30, 40 naming the pages 3 to 6. -/
def ixC19 : IxIndexHandle :=
  { file_hdr_ := hdrOf 1 4
    pages := Function.update (fun _ => zeroNode) 2
      (nodeOf false [([10], ⟨3, 0⟩), ([20], ⟨4, 0⟩), ([30], ⟨5, 0⟩), ([40], ⟨6, 0⟩)])
    next_page_no := 7 }

/-- Six `insert_entry` calls on four INT columns, with the keys 10, 20, 30, 40,
50, 60 in the first column and zeros behind. -/
def opsC11 : List IxOp :=
  [.insert [10, 0, 0, 0] ⟨1, 0⟩, .insert [20, 0, 0, 0] ⟨1, 1⟩, .insert [30, 0, 0, 0] ⟨1, 2⟩,
   .insert [40, 0, 0, 0] ⟨1, 3⟩, .insert [50, 0, 0, 0] ⟨1, 4⟩, .insert [60, 0, 0, 0] ⟨1, 5⟩]

/-- The state of scenario S2 at the call of `insert_into_parent`: the index of
order 4 on one INT column after `insert_entry` of 10, 20, 30, then the insert of
40 into the root leaf, page 2, and the split of that leaf into the pages 2
and 3. -/
def ixS2_split : IxIndexHandle :=
  match runIndex (emptyIndex 1 4)
      [.insert [10] ⟨1, 0⟩, .insert [20] ⟨1, 1⟩, .insert [30] ⟨1, 2⟩] with
  | none => emptyIndex 1 4
  | some t =>
    match (t.pages 2).insert t.file_hdr_ [40] ⟨1, 3⟩ with
    | none => t
    | some (pg, _) =>
      match split (t.setPage 2 pg) 2 with
      | none => t
      | some (t2, _) => t2

/-- Scenario S2: the index of order 4 on one INT column after `insert_entry` of
10, 20, 30, 40. -/
def ixS2 : Option IxIndexHandle :=
  runIndex (emptyIndex 1 4)
    [.insert [10] ⟨1, 0⟩, .insert [20] ⟨1, 1⟩, .insert [30] ⟨1, 2⟩, .insert [40] ⟨1, 3⟩]

/-- Scenario S2 on two INT columns, followed by further calls: the index of
order 4 after `insert_entry` of (10,0), (20,0), (30,0), (40,0), which leaves the
root, page 4, over the leaves 2 and 3, and then the calls `ops`. -/
def ixS2_then (ops : List IxOp) : Option IxIndexHandle :=
  runIndex (emptyIndex 2 4)
    ([.insert [10, 0] ⟨1, 0⟩, .insert [20, 0] ⟨1, 1⟩, .insert [30, 0] ⟨1, 2⟩,
      .insert [40, 0] ⟨1, 3⟩] ++ ops)

/-! ## Lock manager: data model -/

/-- Modelled from the spec: the kind of a `LockDataId`, `kind ∈ {TABLE,
RECORD(rid)}`; the type is declared in a header that is not under src/. -/
inductive LockDataKind where
  | TABLE
  | RECORD (rid : Rid)
deriving DecidableEq

/-- Modelled from the spec: `LockDataId = (table_fd, kind)`, the key of a lock
table entry. -/
structure LockDataId where
  fd_ : Int
  kind_ : LockDataKind
deriving DecidableEq

/-- The enumeration `LockMode`, with the enumerators `lock_manager.cpp` names. -/
inductive LockMode where
  | SHARED
  | EXLUCSIVE
  | INTENTION_SHARED
  | INTENTION_EXCLUSIVE
  | S_IX
deriving DecidableEq

/-- The enumeration `GroupLockMode`, with the enumerators `lock_manager.cpp`
names. -/
inductive GroupLockMode where
  | NON_LOCK
  | IS
  | IX
  | S
  | X
  | SIX
deriving DecidableEq

/-- Modelled from the spec: `LockRequest{txn_id, mode, granted}`; the constructor
`LockRequest(txn_id, mode)` leaves `granted_` false. -/
structure LockRequest where
  txn_id_ : Int
  lock_mode_ : LockMode
  granted_ : Bool
deriving DecidableEq

/-- Modelled from the spec: a lock table entry `{group_mode, request_queue,
cv}`, with the counter `shared_lock_num_` the code increments.  The condition
variable is not part of the state. -/
structure LockRequestQueue where
  request_queue_ : List LockRequest
  group_lock_mode_ : GroupLockMode
  shared_lock_num_ : Int
deriving DecidableEq

/-- Modelled from the spec: the entry `lock_table_[id]` creates for an id that
has none: an empty queue with group mode `NON_LOCK`. -/
def emptyQueue : LockRequestQueue :=
  { request_queue_ := [], group_lock_mode_ := .NON_LOCK, shared_lock_num_ := 0 }

/-- The lock manager: its `lock_table_`.  An id without entry reads as
`emptyQueue`, which is what `lock_table_[id]` makes of it. -/
structure LockManager where
  lock_table_ : LockDataId → LockRequestQueue

/-- The lock manager with an empty lock table. -/
def emptyLockManager : LockManager := ⟨fun _ => emptyQueue⟩

/-- Modelled from the spec: the isolation levels; the code names
`READ_UNCOMMITTED` and `SERIALIZABLE`. -/
inductive IsolationLevel where
  | READ_UNCOMMITTED
  | REPEATABLE_READ
  | READ_COMMITTED
  | SERIALIZABLE
deriving DecidableEq

/-- Modelled from the spec: `state ∈ {DEFAULT, GROWING, SHRINKING, COMMITTED,
ABORTED}`. -/
inductive TransactionState where
  | DEFAULT
  | GROWING
  | SHRINKING
  | COMMITTED
  | ABORTED
deriving DecidableEq

/-- Modelled from the spec: the kind of a write record, `kind ∈ {INSERT, DELETE,
UPDATE}`, with the enumerators `transaction_manager.cpp` names. -/
inductive WType where
  | INSERT_TUPLE
  | DELETE_TUPLE
  | UPDATE_TUPLE
deriving DecidableEq

/-- Modelled from the spec: `WriteRecord = {kind, table, rid, before_image?}`, read
through `GetWriteType`, `GetTableName`, `GetRid` and `GetRecord`. -/
structure WriteRecord where
  wtype_ : WType
  tab_name_ : String
  rid_ : Rid
  record_ : Record
deriving DecidableEq

/-- Modelled from the spec: a `Transaction`, `{id, isolation_level, state,
lock_set, write_set}`.  The lock set is a set; the list holds each id once, in
the order of insertion.  The write set is a list in append order. -/
structure Transaction where
  txn_id_ : Int
  isolation_level_ : IsolationLevel
  state_ : TransactionState
  lock_set_ : List LockDataId
  write_set_ : List WriteRecord := []
deriving DecidableEq

/-- How a call of a lock function ends: it returns its flag, or it is suspended
in its `while (...) cv_.wait(lock)` loop, with the state it has built until
then. -/
inductive LockOutcome where
  | returned (b : Bool)
  | waiting
deriving DecidableEq

/-! ## Lock manager: operations

Every lock function runs under the latch of the lock manager, so a call is one
step, up to the point where it is suspended in its wait loop.  A fresh request
is made with `new LockRequest(...)` and `request_queue_.push_back(*newquest)`
puts a copy of it into the queue; the later `newquest->granted_ = true` writes
the object on the heap, not the copy, so it changes nothing of the state.
Notifications of the condition variable are not part of the state. -/

/-- The assignment `GroupMode(id) = m`. -/
def LockManager.set_group_mode (lm : LockManager) (id : LockDataId) (m : GroupLockMode) :
    LockManager :=
  ⟨Function.update lm.lock_table_ id { lm.lock_table_ id with group_lock_mode_ := m }⟩

/-- The statements `request_queue_.push_back(*newquest)` and
`shared_lock_num_++` on the entry of `id`. -/
def LockManager.push_request (lm : LockManager) (id : LockDataId) (r : LockRequest) :
    LockManager :=
  ⟨Function.update lm.lock_table_ id
    { lm.lock_table_ id with
      request_queue_ := (lm.lock_table_ id).request_queue_ ++ [r]
      shared_lock_num_ := (lm.lock_table_ id).shared_lock_num_ + 1 }⟩

/-- The loop over the request queue in the branch for an id the transaction
already has in its lock set: `body` is applied to the group mode once for every
request of the queue whose `txn_id_` is the transaction's. -/
def upgrade_loop (body : GroupLockMode → GroupLockMode) (lm : LockManager) (id : LockDataId)
    (txn_id : Int) : LockManager :=
  lm.set_group_mode id
    ((lm.lock_table_ id).request_queue_.foldl
      (fun g i => if i.txn_id_ = txn_id then body g else g)
      (lm.lock_table_ id).group_lock_mode_)

/-- The wait loop and the grant of `lock_shared_on_record`: the write
`newquest->granted_ = true` goes to the request object on the heap, of which the
queue holds a copy, and the group mode is not written. -/
def grant_shared_on_record (lm : LockManager) (newid : LockDataId) :
    LockManager × LockOutcome :=
  let g := (lm.lock_table_ newid).group_lock_mode_
  if g ≠ .S ∧ g ≠ .IS ∧ g ≠ .NON_LOCK then (lm, .waiting)
  else (lm, .returned true)

/-- Embedding of `LockManager::lock_shared_on_record`. -/
def lock_shared_on_record (lm : LockManager) (txn : Transaction) (rid : Rid) (tab_fd : Int) :
    LockManager × Transaction × LockOutcome :=
  let txn1 : Transaction :=
    if txn.isolation_level_ = .READ_UNCOMMITTED ∨ txn.state_ = .SHRINKING then
      { txn with state_ := .ABORTED }
    else txn
  if txn1.state_ = .ABORTED then (lm, txn1, .returned false)
  else
    let txn2 : Transaction := { txn1 with state_ := .GROWING }
    let newid : LockDataId := ⟨tab_fd, .RECORD rid⟩
    if newid ∈ txn2.lock_set_ then (lm, txn2, .returned true)
    else
      let txn3 : Transaction := { txn2 with lock_set_ := txn2.lock_set_ ++ [newid] }
      let lm1 := lm.push_request newid ⟨txn3.txn_id_, .SHARED, false⟩
      ((grant_shared_on_record lm1 newid).1, txn3, (grant_shared_on_record lm1 newid).2)

/-- The wait loop and the grant of `lock_exclusive_on_record` and of
`lock_exclusive_on_table`, which have the same text. -/
def grant_exclusive (lm : LockManager) (newid : LockDataId) : LockManager × LockOutcome :=
  let g := (lm.lock_table_ newid).group_lock_mode_
  if g ≠ .NON_LOCK then (lm, .waiting)
  else (lm.set_group_mode newid .X, .returned true)

/-- Embedding of `LockManager::lock_exclusive_on_record`. -/
def lock_exclusive_on_record (lm : LockManager) (txn : Transaction) (rid : Rid)
    (tab_fd : Int) : LockManager × Transaction × LockOutcome :=
  let txn1 : Transaction :=
    if txn.state_ = .SHRINKING then { txn with state_ := .ABORTED } else txn
  if txn1.state_ = .ABORTED then (lm, txn1, .returned false)
  else
    let txn2 : Transaction := { txn1 with state_ := .GROWING }
    let newid : LockDataId := ⟨tab_fd, .RECORD rid⟩
    if newid ∈ txn2.lock_set_ then
      (upgrade_loop (fun _ => .X) lm newid txn2.txn_id_, txn2, .returned true)
    else
      let txn3 : Transaction := { txn2 with lock_set_ := txn2.lock_set_ ++ [newid] }
      let lm1 := lm.push_request newid ⟨txn3.txn_id_, .SHARED, false⟩
      ((grant_exclusive lm1 newid).1, txn3, (grant_exclusive lm1 newid).2)

/-- The group mode `lock_shared_on_table` writes, in its upgrade loop and at its
grant. -/
def shared_on_table_mode (g : GroupLockMode) : GroupLockMode :=
  if g = .IX then .SIX
  else if g = .IS ∨ g = .NON_LOCK then .S
  else g

/-- The wait loop and the grant of `lock_shared_on_table`. -/
def grant_shared_on_table (lm : LockManager) (newid : LockDataId) :
    LockManager × LockOutcome :=
  let g := (lm.lock_table_ newid).group_lock_mode_
  if g ≠ .S ∧ g ≠ .IS ∧ g ≠ .NON_LOCK then (lm, .waiting)
  else (lm.set_group_mode newid (shared_on_table_mode g), .returned true)

/-- Embedding of `LockManager::lock_shared_on_table`. -/
def lock_shared_on_table (lm : LockManager) (txn : Transaction) (tab_fd : Int) :
    LockManager × Transaction × LockOutcome :=
  let txn1 : Transaction :=
    if txn.isolation_level_ = .READ_UNCOMMITTED ∨ txn.state_ = .SHRINKING then
      { txn with state_ := .ABORTED }
    else txn
  if txn1.state_ = .ABORTED then (lm, txn1, .returned false)
  else
    let txn2 : Transaction := { txn1 with state_ := .GROWING }
    let newid : LockDataId := ⟨tab_fd, .TABLE⟩
    if newid ∈ txn2.lock_set_ then
      (upgrade_loop shared_on_table_mode lm newid txn2.txn_id_, txn2, .returned true)
    else
      let txn3 : Transaction := { txn2 with lock_set_ := txn2.lock_set_ ++ [newid] }
      let lm1 := lm.push_request newid ⟨txn3.txn_id_, .SHARED, false⟩
      ((grant_shared_on_table lm1 newid).1, txn3, (grant_shared_on_table lm1 newid).2)

/-- Embedding of `LockManager::lock_exclusive_on_table`. -/
def lock_exclusive_on_table (lm : LockManager) (txn : Transaction) (tab_fd : Int) :
    LockManager × Transaction × LockOutcome :=
  let txn1 : Transaction :=
    if txn.state_ = .SHRINKING then { txn with state_ := .ABORTED } else txn
  if txn1.state_ = .ABORTED then (lm, txn1, .returned false)
  else
    let txn2 : Transaction := { txn1 with state_ := .GROWING }
    let newid : LockDataId := ⟨tab_fd, .TABLE⟩
    if newid ∈ txn2.lock_set_ then
      (upgrade_loop (fun _ => .X) lm newid txn2.txn_id_, txn2, .returned true)
    else
      let txn3 : Transaction := { txn2 with lock_set_ := txn2.lock_set_ ++ [newid] }
      let lm1 := lm.push_request newid ⟨txn3.txn_id_, .SHARED, false⟩
      ((grant_exclusive lm1 newid).1, txn3, (grant_exclusive lm1 newid).2)

/-- The group mode `lock_IS_on_table` writes, in its upgrade loop and at its
grant. -/
def IS_on_table_mode (g : GroupLockMode) : GroupLockMode :=
  if g = .NON_LOCK then .IS else g

/-- The wait loop and the grant of `lock_IS_on_table`. -/
def grant_IS_on_table (lm : LockManager) (newid : LockDataId) : LockManager × LockOutcome :=
  let g := (lm.lock_table_ newid).group_lock_mode_
  if g = .X then (lm, .waiting)
  else (lm.set_group_mode newid (IS_on_table_mode g), .returned true)

/-- Embedding of `LockManager::lock_IS_on_table`. -/
def lock_IS_on_table (lm : LockManager) (txn : Transaction) (tab_fd : Int) :
    LockManager × Transaction × LockOutcome :=
  let txn1 : Transaction :=
    if txn.isolation_level_ = .READ_UNCOMMITTED ∨ txn.state_ = .SHRINKING then
      { txn with state_ := .ABORTED }
    else txn
  if txn1.state_ = .ABORTED then (lm, txn1, .returned false)
  else
    let txn2 : Transaction := { txn1 with state_ := .GROWING }
    let newid : LockDataId := ⟨tab_fd, .TABLE⟩
    if newid ∈ txn2.lock_set_ then
      (upgrade_loop IS_on_table_mode lm newid txn2.txn_id_, txn2, .returned true)
    else
      let txn3 : Transaction := { txn2 with lock_set_ := txn2.lock_set_ ++ [newid] }
      let lm1 := lm.push_request newid ⟨txn3.txn_id_, .SHARED, false⟩
      ((grant_IS_on_table lm1 newid).1, txn3, (grant_IS_on_table lm1 newid).2)

/-- The group mode `lock_IX_on_table` writes, in its upgrade loop and at its
grant. -/
def IX_on_table_mode (g : GroupLockMode) : GroupLockMode :=
  if g = .S then .SIX
  else if g = .IS ∨ g = .NON_LOCK then .IX
  else g

/-- The wait loop and the grant of `lock_IX_on_table`: the loop condition is the
conjunction `g == X && g == S && g == SIX`. -/
def grant_IX_on_table (lm : LockManager) (newid : LockDataId) : LockManager × LockOutcome :=
  let g := (lm.lock_table_ newid).group_lock_mode_
  if g = .X ∧ g = .S ∧ g = .SIX then (lm, .waiting)
  else (lm.set_group_mode newid (IX_on_table_mode g), .returned true)

/-- Embedding of `LockManager::lock_IX_on_table`. -/
def lock_IX_on_table (lm : LockManager) (txn : Transaction) (tab_fd : Int) :
    LockManager × Transaction × LockOutcome :=
  let txn1 : Transaction :=
    if txn.state_ = .SHRINKING then { txn with state_ := .ABORTED } else txn
  if txn1.state_ = .ABORTED then (lm, txn1, .returned false)
  else
    let txn2 : Transaction := { txn1 with state_ := .GROWING }
    let newid : LockDataId := ⟨tab_fd, .TABLE⟩
    if newid ∈ txn2.lock_set_ then
      (upgrade_loop IX_on_table_mode lm newid txn2.txn_id_, txn2, .returned true)
    else
      let txn3 : Transaction := { txn2 with lock_set_ := txn2.lock_set_ ++ [newid] }
      let lm1 := lm.push_request newid ⟨txn3.txn_id_, .SHARED, false⟩
      ((grant_IX_on_table lm1 newid).1, txn3, (grant_IX_on_table lm1 newid).2)

/-- One round of the scan of `unlock` over the request queue: the value of
`mode` after the request `i`. -/
def unlock_scan_step (mode : GroupLockMode) (i : LockRequest) : GroupLockMode :=
  if i.granted_ = true then
    if i.lock_mode_ = .EXLUCSIVE then .X
    else if i.lock_mode_ = .SHARED ∧ mode ≠ .SIX then
      (if mode = .IX then .SIX else .S)
    else if i.lock_mode_ = .S_IX then .SIX
    else if i.lock_mode_ = .INTENTION_EXCLUSIVE ∧ mode ≠ .SIX then
      (if mode = .S then .SIX else .IX)
    else if i.lock_mode_ = .INTENTION_SHARED then
      (if mode = .NON_LOCK then .IS else if mode = .IS then .IS else mode)
    else mode
  else mode

/-- Embedding of `LockManager::unlock`: the state afterwards and the returned
flag.  The request stays in the queue and the id in the lock set. -/
def unlock (lm : LockManager) (txn : Transaction) (lock_data_id : LockDataId) :
    LockManager × Transaction × Bool :=
  let txn1 : Transaction := { txn with state_ := .SHRINKING }
  if lock_data_id ∈ txn1.lock_set_ then
    (lm.set_group_mode lock_data_id
      ((lm.lock_table_ lock_data_id).request_queue_.foldl unlock_scan_step .NON_LOCK),
      txn1, true)
  else (lm, txn1, false)

/-- A call of one of the six lock functions. -/
inductive LockCall where
  | shared_on_record (rid : Rid) (tab_fd : Int)
  | exclusive_on_record (rid : Rid) (tab_fd : Int)
  | shared_on_table (tab_fd : Int)
  | exclusive_on_table (tab_fd : Int)
  | IS_on_table (tab_fd : Int)
  | IX_on_table (tab_fd : Int)

/-- The call `c` made by transaction `txn` on the lock manager `lm`. -/
def LockCall.run (lm : LockManager) (txn : Transaction) :
    LockCall → LockManager × Transaction × LockOutcome
  | .shared_on_record rid tab_fd => lock_shared_on_record lm txn rid tab_fd
  | .exclusive_on_record rid tab_fd => lock_exclusive_on_record lm txn rid tab_fd
  | .shared_on_table tab_fd => lock_shared_on_table lm txn tab_fd
  | .exclusive_on_table tab_fd => lock_exclusive_on_table lm txn tab_fd
  | .IS_on_table tab_fd => lock_IS_on_table lm txn tab_fd
  | .IX_on_table tab_fd => lock_IX_on_table lm txn tab_fd

/-- A call a transaction makes to the lock manager: one of the lock functions, or
`unlock`. -/
inductive TxnCall where
  | lock (c : LockCall)
  | unlock (id : LockDataId)

/-- The transaction after it has made the call on the lock manager `lm`. -/
def TxnCall.txn_after (lm : LockManager) (txn : Transaction) : TxnCall → Transaction
  | .lock c => (c.run lm txn).2.1
  | .unlock id => (UniBase.unlock lm txn id).2.1

/-! ## Lock manager: reference definitions and concrete inputs -/

/-- Reference definition, in the spec's words: the compatibility matrix, granted
mode (rows) against requested mode (columns); `NON_LOCK` is no grant and is
compatible with every request. -/
def compatible_ref : GroupLockMode → GroupLockMode → Bool
  | .NON_LOCK, _ => true
  | _, .NON_LOCK => true
  | .IS, .X => false
  | .IS, _ => true
  | .IX, .IS => true
  | .IX, .IX => true
  | .IX, _ => false
  | .S, .IS => true
  | .S, .S => true
  | .S, _ => false
  | .SIX, .IS => true
  | .SIX, _ => false
  | .X, _ => false

/-- Reference definition, in the spec's words: the lattice join of two modes,
with `NL` below `IS`, `IS` below `IX` and `S`, `IX` and `S` below `SIX`, and
`SIX` below `X`. -/
def join_ref : GroupLockMode → GroupLockMode → GroupLockMode
  | .NON_LOCK, m => m
  | m, .NON_LOCK => m
  | .X, _ => .X
  | _, .X => .X
  | .SIX, _ => .SIX
  | _, .SIX => .SIX
  | .IS, m => m
  | m, .IS => m
  | .IX, .IX => .IX
  | .S, .S => .S
  | .IX, .S => .SIX
  | .S, .IX => .SIX

/-- A lock manager whose entry for table `tab_fd` has group mode `g` and the
requests `queue`, and whose other entries are empty. -/
def lmTable (tab_fd : Int) (g : GroupLockMode) (queue : List LockRequest) : LockManager :=
  ⟨Function.update (fun _ => emptyQueue) ⟨tab_fd, .TABLE⟩
    { request_queue_ := queue, group_lock_mode_ := g, shared_lock_num_ := (queue.length : Int) }⟩

/-- A transaction at level SERIALIZABLE in state DEFAULT that holds no lock. -/
def newTxn (txn_id : Int) : Transaction :=
  { txn_id_ := txn_id, isolation_level_ := .SERIALIZABLE, state_ := .DEFAULT, lock_set_ := [] }
/-- Scenario S4, first call: transaction 1 takes S on table 7 of the empty lock
table. -/
def lockS4a : LockManager × Transaction × LockOutcome :=
  lock_shared_on_table emptyLockManager (newTxn 1) 7

/-- Scenario S4, second call: transaction 1 unlocks table 7. -/
def lockS4b : LockManager × Transaction × Bool :=
  unlock lockS4a.1 lockS4a.2.1 ⟨7, .TABLE⟩

/-- Scenario S4, third call: transaction 1 asks for S on record (0,0) of
table 7. -/
def lockS4c : LockManager × Transaction × LockOutcome :=
  lock_shared_on_record lockS4b.1 lockS4b.2.1 ⟨0, 0⟩ 7

/-- Scenario S5, first call: transaction 1 takes S on record (0,0) of table 7 of
the empty lock table. -/
def lockS5a : LockManager × Transaction × LockOutcome :=
  lock_shared_on_record emptyLockManager (newTxn 1) ⟨0, 0⟩ 7

/-- Scenario S5, second call: transaction 2 asks for S on the same record. -/
def lockS5b : LockManager × Transaction × LockOutcome :=
  lock_shared_on_record lockS5a.1 (newTxn 2) ⟨0, 0⟩ 7

/-- Scenario S5, third call: transaction 3 asks for X on the same record, while
transactions 1 and 2 have not unlocked. -/
def lockS5c : LockManager × Transaction × LockOutcome :=
  lock_exclusive_on_record lockS5b.1 (newTxn 3) ⟨0, 0⟩ 7

/-- Transactions 1 and 2 take S on table 7 of the empty lock table, then
transaction 1 unlocks it. -/
def lockS5t : LockManager × Transaction × Bool :=
  unlock
    (lock_shared_on_table (lock_shared_on_table emptyLockManager (newTxn 1) 7).1
      (newTxn 2) 7).1
    (lock_shared_on_table emptyLockManager (newTxn 1) 7).2.1 ⟨7, .TABLE⟩

/-- Transaction 1 takes IS on table 7 of the empty lock table. -/
def lockC30a : LockManager × Transaction × LockOutcome :=
  lock_IS_on_table emptyLockManager (newTxn 1) 7

/-! ## Lock manager: further definitions and concrete inputs -/

/-- The lock table after the call. -/
def TxnCall.lm_after (lm : LockManager) (txn : Transaction) : TxnCall → LockManager
  | .lock c => (c.run lm txn).1
  | .unlock id => (UniBase.unlock lm txn id).1

/-- The lock table after a sequence of calls, each made by the transaction given
with it. -/
def lm_after_calls (lm : LockManager) : List (Transaction × TxnCall) → LockManager
  | [] => lm
  | (txn, c) :: rest => lm_after_calls (c.lm_after lm txn) rest

/-- No request in any queue of the lock table has `granted_` set. -/
def NoGrant (lm : LockManager) : Prop :=
  ∀ (id : LockDataId), ∀ r ∈ (lm.lock_table_ id).request_queue_, r.granted_ = false

/-- Transaction 1 takes IS and transaction 2 takes IX on table 7 of the empty lock
table. -/
def lockC32a : LockManager × Transaction × LockOutcome :=
  lock_IX_on_table lockC30a.1 (newTxn 2) 7

/-- After `lockC32a`, transaction 1 unlocks table 7. -/
def lockC32b : LockManager × Transaction × Bool :=
  unlock lockC32a.1 lockC30a.2.1 ⟨7, .TABLE⟩

/-! ## Transaction manager: data model and operations -/

/-- The transaction manager: the counter `next_txn_id_`, the global map `txn_map`,
and the lock manager and the system manager it points to; `σ` is the state of the
system manager.  The map holds pointers: the model holds, for an id, the
transaction the pointer names when it is registered. -/
structure TransactionManager (σ : Type) where
  next_txn_id_ : Int
  txn_map : Int → Option Transaction
  lock_manager_ : LockManager
  sm_manager_ : σ

/-- Embedding of `TransactionManager::begin`; the argument `none` is the null
pointer.  In the branch for the null pointer the declaration
`Transaction *txn = new Transaction(...)` makes a local of the block, which hides
the parameter until the block ends; the statements behind the block read the
parameter.  The result `none` is the call `txn->get_transaction_id()` on the null
pointer. -/
def begin {σ : Type} (tm : TransactionManager σ) (txn : Option Transaction) :
    Option (TransactionManager σ × Transaction) :=
  let tm1 : TransactionManager σ :=
    match txn with
    | none =>
      let _txn : Transaction :=
        { txn_id_ := tm.next_txn_id_, isolation_level_ := .SERIALIZABLE, state_ := .DEFAULT,
          lock_set_ := [], write_set_ := [] }
      { tm with next_txn_id_ := tm.next_txn_id_ + 1 }
    | some _ => tm
  match txn with
  | none => none
  | some t => some ({ tm1 with txn_map := Function.update tm1.txn_map t.txn_id_ (some t) }, t)

/-- The loop `while (!wset->empty()) wset->pop_back()` of `commit`, for at most
`fuel` rounds. -/
def pop_all : Nat → List WriteRecord → List WriteRecord
  | 0, wset => wset
  | fuel + 1, wset => if wset.isEmpty then wset else pop_all fuel wset.dropLast

/-- The loop of `commit` and of `abort` over the lock set: `unlock(txn, *i)` for
every id `i` of the set, which `unlock` does not change. -/
def release_locks (lm : LockManager) (txn : Transaction) : LockManager × Transaction :=
  txn.lock_set_.foldl (fun s i => ((unlock s.1 s.2 i).1, (unlock s.1 s.2 i).2.1)) (lm, txn)

/-- Embedding of `TransactionManager::commit`. -/
def commit {σ : Type} (tm : TransactionManager σ) (txn : Transaction) :
    TransactionManager σ × Transaction :=
  let txn1 : Transaction :=
    { txn with write_set_ := pop_all txn.write_set_.length txn.write_set_ }
  let s := release_locks tm.lock_manager_ txn1
  ({ tm with lock_manager_ := s.1 }, { s.2 with lock_set_ := [], state_ := .COMMITTED })

/-- Modelled from the spec: the three rollback functions of the system manager,
which `abort` calls with the table name and the Rid, the record, or both, of a
write record.  Their definitions are not under src/ (`sm_manager.cpp` holds them
in comments only), so they are parameters; `none` is a call that does not
return. -/
structure Rollback (σ : Type) where
  rollback_insert : σ → String → Rid → Option σ
  rollback_delete : σ → String → Record → Option σ
  rollback_update : σ → String → Rid → Record → Option σ

/-- The body of the loop of `abort` for the write record `wset->back()`: the
rollback function chosen by its write type, with the arguments `abort` passes. -/
def undo {σ : Type} (rb : Rollback σ) (sm : σ) (w : WriteRecord) : Option σ :=
  if w.wtype_ = .INSERT_TUPLE then rb.rollback_insert sm w.tab_name_ w.rid_
  else if w.wtype_ = .DELETE_TUPLE then rb.rollback_delete sm w.tab_name_ w.record_
  else if w.wtype_ = .UPDATE_TUPLE then rb.rollback_update sm w.tab_name_ w.rid_ w.record_
  else some sm

/-- The loop `while (!wset->empty()) { ...; wset->pop_back(); }` of `abort`, for at
most `fuel` rounds: the state of the system manager and the write set at its
end. -/
def abort_loop {σ : Type} (rb : Rollback σ) : Nat → σ → List WriteRecord →
    Option (σ × List WriteRecord)
  | 0, sm, wset => if wset.isEmpty then some (sm, wset) else none
  | fuel + 1, sm, wset =>
    match wset.getLast? with
    | none => some (sm, wset)
    | some w =>
      match undo rb sm w with
      | none => none
      | some sm1 => abort_loop rb fuel sm1 wset.dropLast

/-- Embedding of `TransactionManager::abort`. -/
def abort {σ : Type} (rb : Rollback σ) (tm : TransactionManager σ) (txn : Transaction) :
    Option (TransactionManager σ × Transaction) :=
  match abort_loop rb txn.write_set_.length tm.sm_manager_ txn.write_set_ with
  | none => none
  | some (sm1, wset1) =>
    let txn1 : Transaction := { txn with write_set_ := wset1 }
    let s := release_locks tm.lock_manager_ txn1
    some ({ tm with sm_manager_ := sm1, lock_manager_ := s.1 },
      { s.2 with lock_set_ := [], state_ := .ABORTED })

/-- The undo actions for the write records of a list, one after the other in the
order of the list, as long as they return. -/
def undo_all {σ : Type} (rb : Rollback σ) : σ → List WriteRecord → Option σ
  | sm, [] => some sm
  | sm, w :: ws =>
    match undo rb sm w with
    | none => none
    | some sm1 => undo_all rb sm1 ws

/-- What `unlock` makes of the lock table entry of an id in the lock set: the
group mode is the result of its scan over the queue of the entry. -/
def unlocked_entry (q : LockRequestQueue) : LockRequestQueue :=
  { q with group_lock_mode_ := q.request_queue_.foldl unlock_scan_step .NON_LOCK }

/-- A transaction manager with next id `n`, an empty map and an empty lock
table. -/
def newTm {σ : Type} (n : Int) (sm : σ) : TransactionManager σ :=
  { next_txn_id_ := n, txn_map := fun _ => none, lock_manager_ := emptyLockManager,
    sm_manager_ := sm }

/-- A call of one of the three rollback functions, with its arguments. -/
inductive UndoCall where
  | rollback_insert (tab_name : String) (rid : Rid)
  | rollback_delete (tab_name : String) (record : Record)
  | rollback_update (tab_name : String) (rid : Rid) (record : Record)
deriving DecidableEq

/-- Rollback functions that do nothing but record their call: the state is the
list of the calls made so far, in their order. -/
def rbTrace : Rollback (List UndoCall) :=
  { rollback_insert := fun sm tab_name rid => some (sm ++ [.rollback_insert tab_name rid])
    rollback_delete := fun sm tab_name record => some (sm ++ [.rollback_delete tab_name record])
    rollback_update := fun sm tab_name rid record =>
      some (sm ++ [.rollback_update tab_name rid record]) }

/-- Transaction 1 with the locks on table 7 and on record (1,0) of it, and with
the write set: insert at (1,0), delete of the record 5 at (1,1), update at (1,2)
of the record 6. -/
def txnC35 : Transaction :=
  { txn_id_ := 1, isolation_level_ := .SERIALIZABLE, state_ := .GROWING,
    lock_set_ := [⟨7, .TABLE⟩, ⟨7, .RECORD ⟨1, 0⟩⟩],
    write_set_ :=
      [⟨.INSERT_TUPLE, "t", ⟨1, 0⟩, []⟩, ⟨.DELETE_TUPLE, "t", ⟨1, 1⟩, [5]⟩,
       ⟨.UPDATE_TUPLE, "t", ⟨1, 2⟩, [6]⟩] }

/-- A call that reads or writes a transaction between two of its calls to the
lock functions: a call of the transaction to the lock manager, on the lock table
it finds, or a call of `begin`, `commit` or `abort` of a transaction manager for
it.  Nothing else under src/ writes the state of a transaction. -/
inductive TxnEvent (σ : Type) where
  | call (lm : LockManager) (c : TxnCall)
  | begin (tm : TransactionManager σ)
  | commit (tm : TransactionManager σ)
  | abort (rb : Rollback σ) (tm : TransactionManager σ)

/-- The transaction after the call, when the call returns. -/
def TxnEvent.txn_after {σ : Type} (txn : Transaction) : TxnEvent σ → Option Transaction
  | .call lm c => some (c.txn_after lm txn)
  | .begin tm => (UniBase.begin tm (some txn)).map Prod.snd
  | .commit tm => some (UniBase.commit tm txn).2
  | .abort rb tm => (UniBase.abort rb tm txn).map Prod.snd

/-- The call is a call of `commit`. -/
def TxnEvent.is_commit {σ : Type} : TxnEvent σ → Bool
  | .commit _ => true
  | _ => false

/-- The transaction after a sequence of calls that all return. -/
def txn_after_events {σ : Type} : Transaction → List (TxnEvent σ) → Option Transaction
  | txn, [] => some txn
  | txn, e :: rest =>
    match e.txn_after txn with
    | none => none
    | some t => txn_after_events t rest

/-- A transaction manager with next id 2 whose lock manager has the lock table
that scenario S4 leaves after the `unlock` of transaction 1. -/
def tmS4 : TransactionManager Unit :=
  { next_txn_id_ := 2, txn_map := fun _ => none, lock_manager_ := lockS4b.1, sm_manager_ := () }

/-! ## System manager: data model -/

/-- Modelled from the spec: the column types, `type ∈ {INT32, FLOAT32,
STRING(n)}`; they are declared in a header that is not under src/. -/
inductive ColType where
  | TYPE_INT
  | TYPE_FLOAT
  | TYPE_STRING
deriving DecidableEq

/-- Modelled from the spec: a column definition as `create_table` reads it:
`name`, `type` and `len`. -/
structure ColDef where
  name : String
  type : ColType
  len : Int
deriving DecidableEq

/-- Modelled from the spec: `ColMeta`, `{table, name, type, len, offset,
indexed}`, with the field names `create_table` writes. -/
structure ColMeta where
  tab_name : String
  name : String
  type : ColType
  len : Int
  offset : Int
  index : Bool
deriving DecidableEq

/-- Modelled from the spec: `IndexMeta`, the ordered sequence of column names
that form the composite key, and the total key width. -/
structure IndexMeta where
  col_names : List String
  col_tot_len : Int
deriving DecidableEq

/-- Modelled from the spec: `TabMeta`, the ordered sequence of the columns and
the `IndexMeta` entries of a table. -/
structure TabMeta where
  name : String
  cols : List ColMeta
  indexes : List IndexMeta
deriving DecidableEq

/-- Modelled from the spec: the catalog `db_`: the name of the database and the
map `tabs_` from table names to table metadata. -/
structure DbMeta where
  name_ : String
  tabs_ : String → Option TabMeta

/-- The system manager: the catalog `db_`, the heap file handles `fhs_` by table
name and the index handles `ihs_` by index name. -/
structure SmManager where
  db_ : DbMeta
  fhs_ : String → Option RmFileHandle
  ihs_ : String → Option IxIndexHandle

/-- The exceptions the functions of the system manager throw or let through.
`out_of_range` is the exception of `std::map::at` for a missing key;
`FileError` stands for the exceptions of the file managers. -/
inductive SmError where
  | TableExistsError (tab_name : String)
  | TableNotFoundError (tab_name : String)
  | ColumnNotFoundError (col_name : String)
  | IndexExistsError (tab_name : String) (col_names : List String)
  | IndexNotFoundError (tab_name : String) (col_names : List String)
  | RecordError (e : RmError)
  | FileError (code : Nat)
  | out_of_range
deriving DecidableEq

/-! ## System manager: operations -/

/-- The sum of two C++ `int`s as the machine computes it, in 32-bit two's
complement.  Where the exact sum leaves the range of `int`, C++ defines no result
for the addition; the model takes the wrapped value. -/
def int_add (a b : Int) : Int := (a + b + 2147483648) % 4294967296 - 2147483648

/-- The loop of `create_table` over the column definitions, from the columns
`s.1` made so far and the offset `s.2`: it ends with all columns and with
`curr_offset`, an `int` to which `curr_offset += col_def.len` adds. -/
def create_table_cols (tab_name : String) (col_defs : List ColDef) (s : List ColMeta × Int) :
    List ColMeta × Int :=
  col_defs.foldl (fun s col_def =>
    (s.1 ++ [{ tab_name := tab_name, name := col_def.name, type := col_def.type,
               len := col_def.len, offset := s.2, index := false }],
      int_add s.2 col_def.len)) s

/-- Modelled from the spec: the file manager of the record heap is not under
src/.  `create_file tab_name record_size` makes the heap file of a table and
`open_file tab_name` gives the handle of the heap file of a table; either may
throw. -/
structure RmManager where
  create_file : String → Int → Except SmError Unit
  open_file : String → Except SmError RmFileHandle

/-- Embedding of `SmManager::create_table`.  The table is put into the catalog
after `create_file` has returned and before `open_file` is called.
`fhs_.emplace` leaves an entry that is already there.  `flush_meta` writes the
catalog to disk. -/
def create_table (rm_manager_ : RmManager) (sm : SmManager)
    (tab_name : String) (col_defs : List ColDef) : SmManager × Except SmError Unit :=
  if (sm.db_.tabs_ tab_name).isSome = true then (sm, .error (.TableExistsError tab_name))
  else
    let s := create_table_cols tab_name col_defs ([], 0)
    let tab : TabMeta := { name := tab_name, cols := s.1, indexes := [] }
    let record_size := s.2
    match rm_manager_.create_file tab_name record_size with
    | .error e => (sm, .error e)
    | .ok _ =>
      let sm1 : SmManager :=
        { sm with db_ := { sm.db_ with tabs_ := Function.update sm.db_.tabs_ tab_name (some tab) } }
      match rm_manager_.open_file tab_name with
      | .error e => (sm1, .error e)
      | .ok fh =>
        ({ sm1 with
            fhs_ :=
              if (sm1.fhs_ tab_name).isSome = true then sm1.fhs_
              else Function.update sm1.fhs_ tab_name (some fh) },
          .ok ())

/-- Modelled from the spec: `TabMeta::get_col` is declared in a header that is not
under src/: the first column of the table with the given name, or
`ColumnNotFoundError`. -/
def TabMeta.get_col (tab : TabMeta) (col_name : String) : Except SmError ColMeta :=
  match tab.cols.find? (fun col => decide (col.name = col_name)) with
  | some col => .ok col
  | none => .error (.ColumnNotFoundError col_name)

/-- The first loop of `create_index` (`present = true`) and of `drop_index`
(`present = false`) over the column names: the copies `cols` of the columns, or
the exception for the first column whose `index` flag is `present`. -/
def verify_cols (present : Bool) (tab_name : String) (tab : TabMeta) :
    List String → Except SmError (List ColMeta)
  | [] => .ok []
  | col_name :: rest =>
    match tab.get_col col_name with
    | .error e => .error e
    | .ok col =>
      if col.index = present then
        .error (if present = true then .IndexExistsError tab_name [col_name]
          else .IndexNotFoundError tab_name [col_name])
      else
        match verify_cols present tab_name tab rest with
        | .error e => .error e
        | .ok cols => .ok (col :: cols)

/-- Modelled from the spec: the name of an index file, the table name, the column
names joined by underscores, and `.idx`. -/
def get_index_name (tab_name : String) (col_names : List String) : String :=
  tab_name ++ "." ++ "_".intercalate col_names ++ ".idx"

/-- Modelled from the spec: the scan over a heap file is not under src/: it yields
the Rids of the occupied slots, page by page from page 1 and slot by slot. -/
def scan_rids (fh : RmFileHandle) : List Rid :=
  ((List.range fh.file_hdr_.num_pages.toNat).drop 1).flatMap (fun (p : Nat) =>
    (List.range fh.file_hdr_.num_records_per_page.toNat).filterMap (fun (i : Nat) =>
      if Bitmap.is_set (fh.pages (p : Int)).bitmap (i : Int) = true then
        some (⟨(p : Int), (i : Int)⟩ : Rid)
      else none))

/-- The value of a byte sequence read as a little-endian two's complement
integer. -/
def int_of_bytes (bs : List Nat) : Int :=
  let u : Nat := bs.foldr (fun b acc => b + 256 * acc) 0
  if 2 * u < 256 ^ bs.length then (u : Int) else (u : Int) - ((256 ^ bs.length : Nat) : Int)

/-- The composite key of a record for the columns `cols`: the bytes
`rec->data + col.offset` of length `col.len` of every column, each read as the INT
value the index compares. -/
def composite_key (rec : Record) (cols : List ColMeta) : Key :=
  cols.map (fun col => int_of_bytes ((rec.drop col.offset.toNat).take col.len.toNat))

/-- The loop of `create_index` over the records of the table: every record is read
and its key inserted into the new index with its Rid.  `none` is an
`insert_entry` without result. -/
def index_records (fh : RmFileHandle) (cols : List ColMeta) :
    List Rid → IxIndexHandle → Option (Except SmError IxIndexHandle)
  | [], ih => some (.ok ih)
  | rid :: rest, ih =>
    match get_record fh rid with
    | .error e => some (.error (.RecordError e))
    | .ok rec =>
      match insert_entry ih (composite_key rec cols) rid with
      | none => none
      | some (ih1, _) => index_records fh cols rest ih1

/-- Embedding of `SmManager::create_index`.  The index manager is not under src/:
`ix_manager_ tab_name cols` is the outcome of `create_index(tab_name, cols)`
followed by `open_index`, the handle of the new index or an exception.
`ihs_.emplace` leaves an entry that is already there.  The closing loop
`for (auto col : cols) col.index = true;` writes the loop variable, a copy of an
element of the local `cols`: the list it would make is dropped. -/
def create_index (ix_manager_ : String → List ColMeta → Except SmError IxIndexHandle)
    (sm : SmManager) (tab_name : String) (col_names : List String) :
    Option (SmManager × Except SmError Unit) :=
  match sm.db_.tabs_ tab_name with
  | none => some (sm, .error (.TableNotFoundError tab_name))
  | some tab =>
    match verify_cols true tab_name tab col_names with
    | .error e => some (sm, .error e)
    | .ok cols =>
      let index_name := get_index_name tab_name col_names
      match ix_manager_ tab_name cols with
      | .error e => some (sm, .error e)
      | .ok ih =>
        match sm.fhs_ tab_name with
        | none => some (sm, .error .out_of_range)
        | some file_handle =>
          match index_records file_handle cols (scan_rids file_handle) ih with
          | none => none
          | some (.error e) => some (sm, .error e)
          | some (.ok ih1) =>
            let _marked := cols.map (fun col => { col with index := true })
            some ({ sm with
                ihs_ :=
                  if (sm.ihs_ index_name).isSome = true then sm.ihs_
                  else Function.update sm.ihs_ index_name (some ih1) },
              .ok ())

/-- Embedding of `SmManager::drop_index`.  `db_.get_table` throws
`TableNotFoundError` for a name that is not in the catalog; `close_index` and
`destroy_index` work on the index file.  The closing loop
`for (auto col : cols) col.index = false;` writes the loop variable, a copy: the
list it would make is dropped. -/
def drop_index (sm : SmManager) (tab_name : String) (col_names : List String) :
    SmManager × Except SmError Unit :=
  match sm.db_.tabs_ tab_name with
  | none => (sm, .error (.TableNotFoundError tab_name))
  | some tab =>
    match verify_cols false tab_name tab col_names with
    | .error e => (sm, .error e)
    | .ok cols =>
      let index_name := get_index_name tab_name col_names
      match sm.ihs_ index_name with
      | none => (sm, .error .out_of_range)
      | some _ =>
        let _marked := cols.map (fun col => { col with index := false })
        ({ sm with ihs_ := Function.update sm.ihs_ index_name none }, .ok ())

/-- Modelled from the spec: the key of a record for an index of the table, from
the columns the index names; `none` when the table has no such column. -/
def index_key (tab : TabMeta) (rec : Record) : List String → Option Key
  | [] => some []
  | col_name :: rest =>
    match tab.get_col col_name, index_key tab rec rest with
    | .ok col, some key => some (composite_key rec [col] ++ key)
    | _, _ => none

/-- Modelled from the spec: the index entries of a record: `f` is applied to the
handle of every index of the table, with the key of the record for that index.
`none` when an index has no handle or `f` has no result. -/
def for_indexes (f : IxIndexHandle → Key → Option IxIndexHandle) (tab : TabMeta)
    (rec : Record) : List IndexMeta → SmManager → Option SmManager
  | [], sm => some sm
  | im :: rest, sm =>
    match sm.ihs_ (get_index_name tab.name im.col_names), index_key tab rec im.col_names with
    | some ih, some key =>
      match f ih key with
      | none => none
      | some ih1 =>
        for_indexes f tab rec rest
          { sm with
            ihs_ := Function.update sm.ihs_ (get_index_name tab.name im.col_names) (some ih1) }
    | _, _ => none

/-- Modelled from the spec: `rollback_insert` is not under src/.  In the spec's
words the undo of an INSERT deletes the row and its index entries at the recorded
Rid.  `none` is a call that throws or has no result. -/
def rollback_insert (sm : SmManager) (tab_name : String) (rid : Rid) : Option SmManager :=
  match sm.db_.tabs_ tab_name, sm.fhs_ tab_name with
  | some tab, some fh =>
    match get_record fh rid with
    | .error _ => none
    | .ok rec =>
      match for_indexes (fun ih key => (delete_entry ih key).map Prod.fst) tab rec
          tab.indexes sm with
      | none => none
      | some sm1 =>
        match delete_record fh rid with
        | (_, .error _) => none
        | (fh1, .ok _) => some { sm1 with fhs_ := Function.update sm1.fhs_ tab_name (some fh1) }
  | _, _ => none

/-- Modelled from the spec: `rollback_delete` is not under src/.  In the spec's
words the undo of a DELETE reinserts the saved before-image and its index
entries.  `abort` passes the table name and the record, not the Rid, so the row
is put back with `insert_record(buf)`, which returns the Rid the index entries
get.  `none` is a call that throws or has no result. -/
def rollback_delete (sm : SmManager) (tab_name : String) (record : Record) :
    Option SmManager :=
  match sm.db_.tabs_ tab_name, sm.fhs_ tab_name with
  | some tab, some fh =>
    match insert_record fh record with
    | (_, .error _) => none
    | (fh1, .ok rid) =>
      for_indexes (fun ih key => (insert_entry ih key rid).map Prod.fst) tab record
        tab.indexes { sm with fhs_ := Function.update sm.fhs_ tab_name (some fh1) }
  | _, _ => none

/-- Modelled from the spec: `rollback_update` is not under src/.  In the spec's
words the undo of an UPDATE overwrites the row with the before-image and refreshes
the index entries: it deletes the entry of the current value and inserts the entry
of the before-image.  `none` is a call that throws or has no result. -/
def rollback_update (sm : SmManager) (tab_name : String) (rid : Rid) (record : Record) :
    Option SmManager :=
  match sm.db_.tabs_ tab_name, sm.fhs_ tab_name with
  | some tab, some fh =>
    match get_record fh rid with
    | .error _ => none
    | .ok old =>
      match for_indexes (fun ih key => (delete_entry ih key).map Prod.fst) tab old
          tab.indexes sm with
      | none => none
      | some sm1 =>
        match update_record fh rid record with
        | (_, .error _) => none
        | (fh1, .ok _) =>
          for_indexes (fun ih key => (insert_entry ih key rid).map Prod.fst) tab record
            tab.indexes { sm1 with fhs_ := Function.update sm1.fhs_ tab_name (some fh1) }
  | _, _ => none

/-- The rollback functions of the system manager. -/
def smRollback : Rollback SmManager :=
  { rollback_insert := rollback_insert
    rollback_delete := rollback_delete
    rollback_update := rollback_update }

/-! ## System manager: reference definitions and concrete inputs -/

/-- The catalog entry of table `t`, with the INT column `a` of length 4 at offset
0, and with the given index entries. -/
def tabT (indexes : List IndexMeta) : TabMeta :=
  { name := "t"
    cols := [{ tab_name := "t", name := "a", type := .TYPE_INT, len := 4, offset := 0,
               index := false }]
    indexes := indexes }

/-- A system manager whose only table is `t`, with the heap file `fh`, without
index. -/
def smHeap (fh : RmFileHandle) : SmManager :=
  { db_ := { name_ := "db", tabs_ := Function.update (fun _ => none) "t" (some (tabT [])) }
    fhs_ := Function.update (fun _ => none) "t" (some fh)
    ihs_ := fun _ => none }

/-- A system manager whose only table is `t`, with the heap file `fh` and with
the index `ih` on its column `a`. -/
def smIndexed (fh : RmFileHandle) (ih : IxIndexHandle) : SmManager :=
  { db_ :=
      { name_ := "db"
        tabs_ := Function.update (fun _ => none) "t" (some (tabT [⟨["a"], 4⟩])) }
    fhs_ := Function.update (fun _ => none) "t" (some fh)
    ihs_ := Function.update (fun _ => none) (get_index_name "t" ["a"]) (some ih) }

/-- The rows of table `t` of a system manager, as a scan and `get_record` show
them: the Rids of the occupied slots with their records. -/
def table_rows (sm : SmManager) : List (Rid × Except RmError Record) :=
  match sm.fhs_ "t" with
  | none => []
  | some fh => (scan_rids fh).map (fun rid => (rid, get_record fh rid))

/-- The heap file of table `t` with the three rows 1, 2, 3 at (1,0), (1,1),
(1,2). -/
def heapC36 : RmFileHandle :=
  runHeap (emptyHeap 4 4) [.insert [1, 0, 0, 0], .insert [2, 0, 0, 0], .insert [3, 0, 0, 0]]

/-- A transaction that has deleted the rows at (1,0) and (1,2) of table `t`, in
this order, with the before-images in its write set. -/
def txnC36 : Transaction :=
  { txn_id_ := 1, isolation_level_ := .SERIALIZABLE, state_ := .GROWING, lock_set_ := [],
    write_set_ :=
      [⟨.DELETE_TUPLE, "t", ⟨1, 0⟩, [1, 0, 0, 0]⟩, ⟨.DELETE_TUPLE, "t", ⟨1, 2⟩, [3, 0, 0, 0]⟩] }

/-- Scenario S6: on the empty table `t` with its empty index on `a`, a
transaction has inserted the row 7: the record is in the heap file at the Rid
`insert_record` returned and its key is in the index with that Rid. -/
def smS6 : Option SmManager :=
  match insert_record (emptyHeap 4 4) [7, 0, 0, 0] with
  | (_, .error _) => none
  | (fh, .ok rid) =>
    match insert_entry (emptyIndex 1 4) [7] rid with
    | none => none
    | some (ih, _) => some (smIndexed fh ih)

/-- The transaction of scenario S6, with the insert at (1,0) in its write set. -/
def txnS6 : Transaction :=
  { txn_id_ := 1, isolation_level_ := .SERIALIZABLE, state_ := .GROWING, lock_set_ := [],
    write_set_ := [⟨.INSERT_TUPLE, "t", ⟨1, 0⟩, [7, 0, 0, 0]⟩] }

/-- The keys in the leaves of the index of table `t` on column `a`, with their
Rids. -/
def index_entries (sm : SmManager) : List (Key × Rid) :=
  match sm.ihs_ (get_index_name "t" ["a"]) with
  | none => []
  | some ih => node_pairs (ih.pages 2)

/-- Reference definition, in the spec's words: the columns of a table laid out
packed from offset `off` on: each column has the name, type and length of its
definition, the offset where the one before it ends, and `index = false`. -/
def packed_cols (tab_name : String) : Int → List ColDef → List ColMeta
  | _, [] => []
  | off, d :: ds =>
    { tab_name := tab_name, name := d.name, type := d.type, len := d.len, offset := off,
      index := false } :: packed_cols tab_name (off + d.len) ds

/-- A system manager with an empty catalog and no handle. -/
def emptySm : SmManager :=
  { db_ := { name_ := "db", tabs_ := fun _ => none }
    fhs_ := fun _ => none
    ihs_ := fun _ => none }

/-- The sums `l0 + ... + l(i-1)` of the lengths of the first `i` column
definitions, for `i` from 0 to their number, all lie in the range of a 32-bit
`int`. -/
def OffsetsFit (col_defs : List ColDef) : Prop :=
  ∀ i : Nat, i ≤ col_defs.length →
    -2147483648 ≤ ((col_defs.take i).map (fun d => d.len)).sum ∧
      ((col_defs.take i).map (fun d => d.len)).sum < 2147483648

/-- A file manager that makes a heap file of record size 18, refuses every other
record size, and opens a file as an empty heap file of record size 18 with four
records per page. -/
def rmC37 : RmManager :=
  { create_file := fun _ record_size =>
      if record_size = 18 then .ok () else .error (.FileError 0)
    open_file := fun _ => .ok (emptyHeap 18 4) }

/-- A file manager that makes and opens every file. -/
def rmAny : RmManager :=
  { create_file := fun _ _ => .ok ()
    open_file := fun _ => .ok (emptyHeap 4 4) }

/-- A file manager that makes no file. -/
def rmNone : RmManager :=
  { create_file := fun _ _ => .error (.FileError 1)
    open_file := fun _ => .error (.FileError 2) }

/-- Three column definitions of type CHAR with the lengths 2147483647, 1
and 1. -/
def colsBig : List ColDef :=
  [⟨"a", .TYPE_STRING, 2147483647⟩, ⟨"b", .TYPE_STRING, 1⟩, ⟨"c", .TYPE_STRING, 1⟩]

/-- The column definitions `a INT`, `b CHAR(10)`, `c FLOAT`. -/
def colsC37 : List ColDef :=
  [⟨"a", .TYPE_INT, 4⟩, ⟨"b", .TYPE_STRING, 10⟩, ⟨"c", .TYPE_FLOAT, 4⟩]

/-- An index manager that makes an empty index of order 4 on one INT column. -/
def ixC39 : String → List ColMeta → Except SmError IxIndexHandle :=
  fun _ _ => .ok (emptyIndex 1 4)

/-! ## B+-tree index: further concrete inputs -/

/-- The index of order 4 on four INT columns after `insert_entry` of the keys 10,
20, ..., 80 (first column, zeros behind): the root, page 8, is over the internal
nodes 4 and 7; node 4 is over the leaves 2 and 3, node 7 over the leaves 5
and 6. -/
def ixC40 : Option IxIndexHandle :=
  runIndex (emptyIndex 4 4)
    (opsC11 ++ [.insert [70, 0, 0, 0] ⟨1, 6⟩, .insert [80, 0, 0, 0] ⟨1, 7⟩])

/-- A node of ten pairs with the keys 1 to 10 and the Rids (1,0) to (1,9). -/
def nodeC38 : IxPage :=
  nodeOf true ((List.range 10).map (fun (i : Nat) => ([(i : Int) + 1], ⟨1, (i : Int)⟩)))

/-! ## Record heap: lemmas -/

theorem popcount_le (bm : Int → Bool) (k : Nat) : popcount bm k ≤ k := by
  induction k with
  | zero => simp [popcount]
  | succ k ih => simp only [popcount]; split <;> omega

theorem popcount_zero (k : Nat) : popcount (fun _ => false) k = 0 := by
  induction k with
  | zero => rfl
  | succ k ih => simp [popcount, ih]

theorem popcount_update_out (bm : Int → Bool) (i : Int) (v : Bool) (k : Nat)
    (h : i < 0 ∨ (k : Int) ≤ i) : popcount (Function.update bm i v) k = popcount bm k := by
  induction k with
  | zero => rfl
  | succ k ih =>
    have hne : (k : Int) ≠ i := by omega
    have hk : i < 0 ∨ (k : Int) ≤ i := by omega
    simp only [popcount, ih hk, Function.update_noteq hne]

theorem popcount_set (bm : Int → Bool) (i : Int) (k : Nat) (h0 : 0 ≤ i) (hk : i < (k : Int))
    (hb : bm i = false) : popcount (Function.update bm i true) k = popcount bm k + 1 := by
  induction k with
  | zero => omega
  | succ k ih =>
    by_cases hik : i = (k : Int)
    · subst hik
      have := popcount_update_out bm (k : Int) true k (Or.inr le_rfl)
      simp [popcount, this, hb]
    · have hne : (k : Int) ≠ i := fun h => hik h.symm
      have hlt : i < (k : Int) := by omega
      simp only [popcount, ih hlt, Function.update_noteq hne]
      omega

theorem popcount_reset (bm : Int → Bool) (i : Int) (k : Nat) (h0 : 0 ≤ i) (hk : i < (k : Int))
    (hb : bm i = true) : popcount (Function.update bm i false) k + 1 = popcount bm k := by
  induction k with
  | zero => omega
  | succ k ih =>
    by_cases hik : i = (k : Int)
    · subst hik
      have := popcount_update_out bm (k : Int) false k (Or.inr le_rfl)
      simp [popcount, this, hb]
    · have hne : (k : Int) ≠ i := fun h => hik h.symm
      have hlt : i < (k : Int) := by omega
      simp only [popcount, ← ih hlt, Function.update_noteq hne]
      omega

theorem popcount_full (bm : Int → Bool) (k : Nat)
    (h : ∀ i : Nat, i < k → bm (i : Int) = true) : popcount bm k = k := by
  induction k with
  | zero => rfl
  | succ k ih =>
    have h1 := ih (fun i hi => h i (by omega))
    have h2 := h k (by omega)
    simp [popcount, h1, h2]

theorem scan_free_slot_some {bm : Int → Bool} {num : Int} {k : Nat}
    (h : scan_free_slot bm num = some k) : k < num.toNat ∧ bm (k : Int) = false := by
  unfold scan_free_slot at h
  have h1 := List.find?_some h
  have h2 := List.mem_of_find?_eq_some h
  simp only [Bitmap.is_set, Bool.not_eq_true', List.mem_range] at h1 h2
  exact ⟨h2, h1⟩

theorem scan_free_slot_none {bm : Int → Bool} {num : Int}
    (h : scan_free_slot bm num = none) : popcount bm num.toNat = num.toNat := by
  unfold scan_free_slot at h
  rw [List.find?_eq_none] at h
  apply popcount_full
  intro i hi
  have := h i (List.mem_range.mpr hi)
  simpa [Bitmap.is_set] using this

theorem first_bit_false_eq (bm : Int → Bool) (n : Int) :
    Bitmap.first_bit false bm n =
      (match scan_free_slot bm n with | some i => Int.ofNat i | none => n) := by
  unfold Bitmap.first_bit scan_free_slot
  have : (fun i : Nat => Bitmap.is_set bm (i : Int) == false) =
      (fun slot_no : Nat => !Bitmap.is_set bm (slot_no : Int)) := by
    funext i; cases Bitmap.is_set bm (i : Int) <;> rfl
  rw [this]

theorem FreeChain.congr {pages pages2 : Int → RmPage} {h : Int} {l : List Int}
    (hc : FreeChain pages h l)
    (hq : ∀ q ∈ l, (pages2 q).page_hdr.next_free_page_no = (pages q).page_hdr.next_free_page_no) :
    FreeChain pages2 h l := by
  induction hc with
  | nil => exact FreeChain.nil
  | cons p l hp _ ih =>
    refine FreeChain.cons p l hp ?_
    rw [hq p (List.mem_cons_self p l)]
    exact ih (fun q hqm => hq q (List.mem_cons_of_mem p hqm))

theorem FreeChain.head_eq {pages : Int → RmPage} {h : Int} {l : List Int}
    (hc : FreeChain pages h l) : (h = -1 ∧ l = []) ∨ (h ≠ -1 ∧ ∃ t, l = h :: t ∧
      FreeChain pages (pages h).page_hdr.next_free_page_no t) := by
  cases hc with
  | nil => exact Or.inl ⟨rfl, rfl⟩
  | cons p l hp ht => exact Or.inr ⟨hp, l, rfl, ht⟩

theorem get_record_ok_iff (s : RmFileHandle) (rid : Rid) (b : Record) :
    get_record s rid = .ok b ↔
      (0 ≤ rid.page_no ∧ rid.page_no < s.file_hdr_.num_pages ∧ 0 ≤ rid.slot_no ∧
        (s.pages rid.page_no).bitmap rid.slot_no = true ∧
        b = ((s.pages rid.page_no).slots rid.slot_no).take s.file_hdr_.record_size) := by
  unfold get_record fetch_page_handle Bitmap.is_set
  by_cases hp : rid.page_no < 0 ∨ rid.page_no ≥ s.file_hdr_.num_pages
  · simp only [hp, if_true]
    constructor
    · intro h; cases h
    · rintro ⟨h1, h2, -⟩; omega
  · simp only [hp, if_false]
    by_cases hs : rid.slot_no < 0 ∨ ¬ (s.pages rid.page_no).bitmap rid.slot_no = true
    · simp only [hs, if_true]
      constructor
      · intro h; cases h
      · rintro ⟨-, -, h3, h4, -⟩
        rcases hs with hs | hs
        · omega
        · exact absurd h4 hs
    · simp only [hs, if_false]
      push_neg at hp hs
      constructor
      · intro h
        injection h with h
        exact ⟨hp.1, hp.2, hs.1, hs.2, h.symm⟩
      · rintro ⟨-, -, -, -, h5⟩
        rw [h5]

/-- The head of a non-empty free list is a data page with a free slot. -/
theorem HeapInv.head_free {s : RmFileHandle} (hs : HeapInv s)
    (hne : s.file_hdr_.first_free_page_no ≠ -1) :
    IsDataPage s s.file_hdr_.first_free_page_no ∧
      ∃ k : Nat, scan_free_slot (s.pages s.file_hdr_.first_free_page_no).bitmap
          s.file_hdr_.num_records_per_page = some k := by
  obtain ⟨l, hc, -, hm⟩ := hs.free_list
  rcases hc.head_eq with ⟨h, -⟩ | ⟨-, t, hl, -⟩
  · exact absurd h hne
  · have hmem : s.file_hdr_.first_free_page_no ∈ l := by rw [hl]; exact List.mem_cons_self _ _
    have hd := (hm _).1 hmem
    refine ⟨hd.1, ?_⟩
    cases hsc : scan_free_slot (s.pages s.file_hdr_.first_free_page_no).bitmap
        s.file_hdr_.num_records_per_page with
    | some k => exact ⟨k, rfl⟩
    | none =>
      have h1 := scan_free_slot_none hsc
      have h2 := hs.count _ hd.1
      have h3 := hd.2
      have h4 := hs.n_pos
      rw [h2, h1] at h3
      omega

theorem create_page_handle_empty (s : RmFileHandle) (h : s.file_hdr_.first_free_page_no = -1) :
    create_page_handle s = (freshHead s, .ok s.file_hdr_.num_pages) := by
  simp [create_page_handle, create_new_page_handle, h, freshHead, RmFileHandle.setFirstFree,
    RmFileHandle.setPageHdr]

theorem create_page_handle_head (s : RmFileHandle) (hs : HeapInv s)
    (h : s.file_hdr_.first_free_page_no ≠ -1) :
    create_page_handle s = (s, .ok s.file_hdr_.first_free_page_no) := by
  have hd := (hs.head_free h).1
  unfold IsDataPage at hd
  have hn : ¬ (s.file_hdr_.first_free_page_no < 0 ∨
      s.file_hdr_.first_free_page_no ≥ s.file_hdr_.num_pages) := by omega
  simp [create_page_handle, h, fetch_page_handle, hn]

theorem freshHead_inv (s : RmFileHandle) (hs : HeapInv s)
    (h : s.file_hdr_.first_free_page_no = -1) : HeapInv (freshHead s) := by
  have hp := hs.pages_pos
  obtain ⟨l, hc, -, hm⟩ := hs.free_list
  have hl : l = [] := by
    rcases hc.head_eq with ⟨-, hl⟩ | ⟨hne, -⟩
    · exact hl
    · exact absurd h hne
  subst hl
  refine ⟨hs.n_pos, ?_, ?_, ?_, ?_, ?_⟩
  · simp only [freshHead]; omega
  · intro p i hi
    simp only [freshHead, Function.update_apply]
    split
    · rfl
    · exact hs.bits p i hi
  · intro i
    have : (0 : Int) ≠ s.file_hdr_.num_pages := by omega
    simp only [freshHead, Function.update_noteq this]
    exact hs.hdr_page i
  · intro p hpd
    simp only [IsDataPage, freshHead] at hpd
    simp only [freshHead, Function.update_apply]
    split
    · simp [zeroPage, popcount_zero]
    · next hne => exact hs.count p ⟨hpd.1, by omega⟩
  · refine ⟨[s.file_hdr_.num_pages], ?_, List.nodup_singleton _, ?_⟩
    · show FreeChain _ s.file_hdr_.num_pages _
      refine FreeChain.cons _ _ (by omega) ?_
      simp only [freshHead, Function.update_same]
      exact FreeChain.nil
    · intro p
      simp only [List.mem_singleton, IsDataPage, freshHead, Function.update_apply]
      constructor
      · intro hpe
        subst hpe
        simp only [if_true]
        exact ⟨⟨hp, by omega⟩, hs.n_pos⟩
      · rintro ⟨⟨h1, h2⟩, h3⟩
        by_contra hne
        simp only [hne, if_false] at h3
        have := (hm p).2 ⟨⟨h1, by omega⟩, h3⟩
        simp at this

theorem insert_finish_pages (s : RmFileHandle) (ph pn k : Int) (buf : Record) :
    (insert_finish s ph pn k buf).1.pages =
      Function.update s.pages ph (placedPage s ph k buf) := by
  unfold insert_finish
  simp only [Bitmap.set]
  split <;> rfl

theorem insert_finish_hdr (s : RmFileHandle) (ph pn k : Int) (buf : Record) :
    (insert_finish s ph pn k buf).1.file_hdr_ =
      { s.file_hdr_ with
        first_free_page_no :=
          if (s.pages ph).page_hdr.num_records + 1 = s.file_hdr_.num_records_per_page then
            (s.pages ph).page_hdr.next_free_page_no
          else s.file_hdr_.first_free_page_no } := by
  unfold insert_finish
  simp only []
  split <;> rfl

theorem insert_finish_result (s : RmFileHandle) (ph pn k : Int) (buf : Record) :
    (insert_finish s ph pn k buf).2 = .ok ⟨pn, k⟩ := rfl

theorem insert_finish_inv (s : RmFileHandle) (p k : Int) (buf : Record) (hs : HeapInv s)
    (hff : s.file_hdr_.first_free_page_no = p) (hp : p ≠ -1) (hk0 : 0 ≤ k)
    (hkn : k < s.file_hdr_.num_records_per_page) (hbit : (s.pages p).bitmap k = false) :
    HeapInv (insert_finish s p p k buf).1 := by
  obtain ⟨l, hc, hnd, hm⟩ := hs.free_list
  rw [hff] at hc
  obtain ⟨t, hl, hct⟩ : ∃ t, l = p :: t ∧
      FreeChain s.pages (s.pages p).page_hdr.next_free_page_no t := by
    rcases hc.head_eq with ⟨h, -⟩ | ⟨-, t, hl, ht⟩
    · exact absurd h hp
    · exact ⟨t, hl, ht⟩
  subst hl
  have hpt : p ∉ t := (List.nodup_cons.mp hnd).1
  have hpd : IsDataPage s p ∧ (s.pages p).page_hdr.num_records <
      s.file_hdr_.num_records_per_page := (hm p).1 (List.mem_cons_self _ _)
  have hcnt := hs.count p hpd.1
  have hkn2 : k < ((s.file_hdr_.num_records_per_page.toNat : Nat) : Int) := by
    have := hs.n_pos; omega
  have hpc := popcount_set (s.pages p).bitmap k _ hk0 hkn2 hbit
  have hP := insert_finish_pages s p p k buf
  have hH := insert_finish_hdr s p p k buf
  have hct2 : FreeChain (insert_finish s p p k buf).1.pages
      (s.pages p).page_hdr.next_free_page_no t := by
    refine hct.congr (fun q hq => ?_)
    have hqp : q ≠ p := fun h => hpt (h ▸ hq)
    rw [hP, Function.update_noteq hqp]
  refine ⟨?_, ?_, ?_, ?_, ?_, ?_⟩
  · rw [hH]; exact hs.n_pos
  · rw [hH]; exact hs.pages_pos
  · intro q i hi
    rw [hH] at hi
    rw [hP]
    simp only [Function.update_apply]
    split
    · next hq =>
      subst hq
      simp only [placedPage, Function.update_apply]
      split
      · next hik => subst hik; simp only [] at hi; omega
      · exact hs.bits _ i hi
    · exact hs.bits q i hi
  · intro i
    have : (0 : Int) ≠ p := by have := hpd.1.1; omega
    rw [hP, Function.update_noteq this]
    exact hs.hdr_page i
  · intro q hq
    have hq2 : IsDataPage s q := by
      unfold IsDataPage at hq ⊢; rw [hH] at hq; exact hq
    rw [hP, hH]
    simp only [Function.update_apply]
    split
    · next hqp =>
      subst hqp
      simp only [placedPage]
      rw [hpc, hcnt]
      push_cast; rfl
    · exact hs.count q hq2
  · unfold FreeListInv
    rw [hH]
    by_cases hfull : (s.pages p).page_hdr.num_records + 1 = s.file_hdr_.num_records_per_page
    · refine ⟨t, ?_, (List.nodup_cons.mp hnd).2, ?_⟩
      · simp only [hfull, if_true]; exact hct2
      · intro q
        unfold IsDataPage
        rw [hH, hP]
        simp only [Function.update_apply]
        by_cases hqp : q = p
        · subst hqp
          simp only [if_true, placedPage]
          constructor
          · intro h; exact absurd h hpt
          · rintro ⟨-, h⟩; omega
        · simp only [hqp, if_false]
          have := hm q
          unfold IsDataPage at this
          rw [← this]
          simp [hqp]
    · refine ⟨p :: t, ?_, hnd, ?_⟩
      · simp only [hfull, if_false, hff]
        refine FreeChain.cons p t hp ?_
        have : ((insert_finish s p p k buf).1.pages p).page_hdr.next_free_page_no =
            (s.pages p).page_hdr.next_free_page_no := by
          rw [hP, Function.update_same]; rfl
        rw [this]; exact hct2
      · intro q
        unfold IsDataPage
        rw [hH, hP]
        simp only [Function.update_apply]
        by_cases hqp : q = p
        · subst hqp
          simp only [if_true, placedPage, List.mem_cons, true_or, true_iff]
          refine ⟨hpd.1, ?_⟩
          have := hpd.2
          omega
        · simp only [hqp, if_false]
          have := hm q
          unfold IsDataPage at this
          exact this

theorem insert_record_of_head (s s1 : RmFileHandle) (p : Int) (k : Nat) (buf : Record)
    (h : create_page_handle s = (s1, .ok p))
    (hsc : scan_free_slot (s1.pages p).bitmap s1.file_hdr_.num_records_per_page = some k) :
    insert_record s buf = insert_finish s1 p p (k : Int) buf := by
  unfold insert_record
  rw [h]
  simp only [insert_loop, hsc]
  have : ¬ ((k : Int) = -1) := by omega
  simp only [this, if_false]

theorem insert_record_rid_of_head (s s1 : RmFileHandle) (p : Int) (k : Nat) (rid : Rid)
    (buf : Record) (h : create_page_handle s = (s1, .ok p))
    (hsc : scan_free_slot (s1.pages p).bitmap s1.file_hdr_.num_records_per_page = some k) :
    insert_record_rid s rid buf = ((insert_finish s1 p p (k : Int) buf).1, .ok ()) := by
  unfold insert_record_rid
  rw [h]
  simp only [first_bit_false_eq, hsc, insert_finish, Int.ofNat_eq_coe]

theorem insert_plan (s : RmFileHandle) (hs : HeapInv s) :
    ∃ s1 p k, InsertPlan s s1 p k ∧
      (∀ buf, insert_record s buf = insert_finish s1 p p k buf) ∧
      (∀ rid buf, insert_record_rid s rid buf = ((insert_finish s1 p p k buf).1, .ok ())) := by
  by_cases hff : s.file_hdr_.first_free_page_no = -1
  · have hinv := freshHead_inv s hs hff
    have hne : (freshHead s).file_hdr_.first_free_page_no ≠ -1 := by
      have := hs.pages_pos
      simp only [freshHead]; omega
    obtain ⟨-, k, hk⟩ := hinv.head_free hne
    have hk2 := scan_free_slot_some hk
    have hn := hinv.n_pos
    refine ⟨freshHead s, s.file_hdr_.num_pages, (k : Int), ⟨hinv, rfl, ?_, by omega, by omega,
      hk2.2, rfl, rfl, ?_, ?_⟩, ?_, ?_⟩
    · have := hs.pages_pos; omega
    · simp only [freshHead]; omega
    · intro q hq
      have : q ≠ s.file_hdr_.num_pages := by omega
      simp only [freshHead, Function.update_noteq this]
    · intro buf
      exact insert_record_of_head s _ _ k buf (create_page_handle_empty s hff) hk
    · intro rid buf
      exact insert_record_rid_of_head s _ _ k rid buf (create_page_handle_empty s hff) hk
  · obtain ⟨-, k, hk⟩ := hs.head_free hff
    have hk2 := scan_free_slot_some hk
    have hn := hs.n_pos
    refine ⟨s, s.file_hdr_.first_free_page_no, (k : Int), ⟨hs, rfl, hff, by omega, by omega,
      hk2.2, rfl, rfl, le_rfl, fun _ _ => rfl⟩, ?_, ?_⟩
    · intro buf
      exact insert_record_of_head s _ _ k buf (create_page_handle_head s hs hff) hk
    · intro rid buf
      exact insert_record_rid_of_head s _ _ k rid buf (create_page_handle_head s hs hff) hk

theorem release_page_handle_eq (s : RmFileHandle) (ph : Int) :
    release_page_handle s ph =
      (s.setFirstFree ph).setNextFree ph s.file_hdr_.first_free_page_no := by
  unfold release_page_handle
  split
  · next h => rw [h]
  · rfl

theorem delete_record_occupied (s : RmFileHandle) (rid : Rid) (h : Occupied s rid) :
    delete_record s rid =
      (if (s.pages rid.page_no).page_hdr.num_records - 1 =
          s.file_hdr_.num_records_per_page - 1 then
        release_page_handle
          { s with pages := Function.update s.pages rid.page_no (deletedPage s rid) }
          rid.page_no
      else { s with pages := Function.update s.pages rid.page_no (deletedPage s rid) },
      .ok ()) := by
  obtain ⟨h1, h2, h3, h4⟩ := h
  have hp : ¬ (rid.page_no < 0 ∨ rid.page_no ≥ s.file_hdr_.num_pages) := by omega
  have hs : ¬ rid.slot_no < 0 := by omega
  unfold delete_record fetch_page_handle
  simp only [hp, hs, if_false, Bitmap.is_set, h4, not_true_eq_false, Bitmap.reset, deletedPage]
  split <;> rfl

theorem delete_record_not_occupied (s : RmFileHandle) (rid : Rid)
    (h1 : 0 ≤ rid.page_no) (h2 : rid.page_no < s.file_hdr_.num_pages)
    (h : rid.slot_no < 0 ∨ (s.pages rid.page_no).bitmap rid.slot_no = false) :
    delete_record s rid = (s, .error (.RecordNotFoundError rid.page_no rid.slot_no)) := by
  have hp : ¬ (rid.page_no < 0 ∨ rid.page_no ≥ s.file_hdr_.num_pages) := by omega
  unfold delete_record fetch_page_handle
  simp only [hp, if_false, Bitmap.is_set]
  rcases h with h | h
  · simp only [h, if_true]
  · simp only [h, Bool.false_eq_true, not_false_eq_true, if_true, ite_self]

theorem delete_record_bad_page (s : RmFileHandle) (rid : Rid)
    (h : rid.page_no < 0 ∨ rid.page_no ≥ s.file_hdr_.num_pages) :
    delete_record s rid = (s, .error (.PageNotExistError rid.page_no)) := by
  unfold delete_record fetch_page_handle
  simp only [h, if_true]

/-- On a well-formed file an occupied slot lies on a data page, inside the slot
array. -/
theorem HeapInv.occupied_range {s : RmFileHandle} (hs : HeapInv s) {rid : Rid}
    (h : Occupied s rid) :
    IsDataPage s rid.page_no ∧ rid.slot_no < s.file_hdr_.num_records_per_page := by
  obtain ⟨h1, h2, h3, h4⟩ := h
  refine ⟨⟨?_, h2⟩, ?_⟩
  · by_contra hlt
    have h0 : rid.page_no = 0 := by omega
    rw [h0, hs.hdr_page] at h4
    cases h4
  · by_contra hge
    rw [hs.bits _ _ (Or.inr (by omega))] at h4
    cases h4

theorem delete_record_inv (s : RmFileHandle) (rid : Rid) (hs : HeapInv s) :
    HeapInv (delete_record s rid).1 := by
  by_cases hocc : Occupied s rid
  swap
  · by_cases hp : rid.page_no < 0 ∨ rid.page_no ≥ s.file_hdr_.num_pages
    · rw [delete_record_bad_page s rid hp]; exact hs
    · have hno : rid.slot_no < 0 ∨ (s.pages rid.page_no).bitmap rid.slot_no = false := by
        by_contra hc
        push_neg at hc
        apply hocc
        refine ⟨by omega, by omega, hc.1, ?_⟩
        simpa using hc.2
      rw [delete_record_not_occupied s rid (by omega) (by omega) hno]; exact hs
  obtain ⟨hdp, hsn⟩ := hs.occupied_range hocc
  obtain ⟨h1, h2, h3, h4⟩ := hocc
  rw [delete_record_occupied s rid ⟨h1, h2, h3, h4⟩]
  obtain ⟨l, hc, hnd, hm⟩ := hs.free_list
  have hn := hs.n_pos
  have hcnt := hs.count _ hdp
  have hsn2 : rid.slot_no < ((s.file_hdr_.num_records_per_page.toNat : Nat) : Int) := by omega
  have hpc := popcount_reset (s.pages rid.page_no).bitmap rid.slot_no _ h3 hsn2 h4
  have hle := popcount_le (s.pages rid.page_no).bitmap s.file_hdr_.num_records_per_page.toNat
  have hbits : ∀ q i, (i < 0 ∨ s.file_hdr_.num_records_per_page ≤ i) →
      ((Function.update s.pages rid.page_no (deletedPage s rid)) q).bitmap i = false := by
    intro q i hi
    simp only [Function.update_apply]
    split
    · simp only [deletedPage, Function.update_apply]
      split
      · rfl
      · exact hs.bits _ i hi
    · exact hs.bits q i hi
  have hcount : ∀ q, IsDataPage s q →
      ((Function.update s.pages rid.page_no (deletedPage s rid)) q).page_hdr.num_records =
        (popcount ((Function.update s.pages rid.page_no (deletedPage s rid)) q).bitmap
          s.file_hdr_.num_records_per_page.toNat : Int) := by
    intro q hq
    simp only [Function.update_apply]
    split
    · simp only [deletedPage]
      rw [hcnt, ← hpc]; push_cast; ring
    · exact hs.count q hq
  have h0 : (0 : Int) ≠ rid.page_no := by have := hdp.1; omega
  split
  · next hfull =>
    have hnum : (s.pages rid.page_no).page_hdr.num_records =
        s.file_hdr_.num_records_per_page := by omega
    have hnl : rid.page_no ∉ l := by
      intro hmem
      have := ((hm _).1 hmem).2
      omega
    rw [release_page_handle_eq]
    refine ⟨hs.n_pos, hs.pages_pos, ?_, ?_, ?_, ?_⟩
    · intro q i hi
      simp only [RmFileHandle.setNextFree, RmFileHandle.setPageHdr, RmFileHandle.setFirstFree,
        Function.update_apply]
      split
      · have := hbits rid.page_no i hi
        simpa using this
      · have := hbits q i hi
        simpa [Function.update_apply, *] using this
    · intro i
      simp only [RmFileHandle.setNextFree, RmFileHandle.setPageHdr, RmFileHandle.setFirstFree,
        Function.update_noteq h0]
      exact hs.hdr_page i
    · intro q hq
      have := hcount q hq
      simp only [RmFileHandle.setNextFree, RmFileHandle.setPageHdr, RmFileHandle.setFirstFree,
        Function.update_apply] at this ⊢
      split
      · next hqp => subst hqp; simpa using this
      · next hqp => simpa [hqp] using this
    · refine ⟨rid.page_no :: l, ?_, List.nodup_cons.mpr ⟨hnl, hnd⟩, ?_⟩
      · show FreeChain _ rid.page_no _
        refine FreeChain.cons _ _ (by have := hdp.1; omega) ?_
        simp only [RmFileHandle.setNextFree, RmFileHandle.setPageHdr, RmFileHandle.setFirstFree,
          Function.update_same]
        refine hc.congr (fun q hq => ?_)
        have hqp : q ≠ rid.page_no := fun h => hnl (h ▸ hq)
        simp only [Function.update_noteq hqp]
      · intro q
        simp only [IsDataPage, RmFileHandle.setNextFree, RmFileHandle.setPageHdr,
          RmFileHandle.setFirstFree, Function.update_apply, List.mem_cons]
        by_cases hqp : q = rid.page_no
        · subst hqp
          simp only [if_true, deletedPage, true_or, true_iff]
          exact ⟨hdp, by omega⟩
        · simp only [hqp, if_false, false_or]
          exact hm q
  · next hnf =>
    have hnum : (s.pages rid.page_no).page_hdr.num_records <
        s.file_hdr_.num_records_per_page := by omega
    refine ⟨hs.n_pos, hs.pages_pos, hbits, ?_, hcount, ?_⟩
    · intro i
      simp only [Function.update_noteq h0]
      exact hs.hdr_page i
    · refine ⟨l, ?_, hnd, ?_⟩
      · refine hc.congr (fun q _ => ?_)
        simp only [Function.update_apply]
        split
        · next hqp => subst hqp; rfl
        · rfl
      · intro q
        simp only [IsDataPage, Function.update_apply]
        by_cases hqp : q = rid.page_no
        · subst hqp
          simp only [if_true, deletedPage]
          constructor
          · intro _; exact ⟨hdp, by omega⟩
          · intro _; exact (hm _).2 ⟨hdp, hnum⟩
        · simp only [hqp, if_false]
          exact hm q

theorem update_record_occupied (s : RmFileHandle) (rid : Rid) (buf : Record)
    (h : Occupied s rid) :
    update_record s rid buf =
      ({ s with pages := Function.update s.pages rid.page_no (updatedPage s rid buf) },
        .ok ()) := by
  obtain ⟨h1, h2, h3, h4⟩ := h
  have hp : ¬ (rid.page_no < 0 ∨ rid.page_no ≥ s.file_hdr_.num_pages) := by omega
  have hs : ¬ (rid.slot_no < 0 ∨ ¬ (s.pages rid.page_no).bitmap rid.slot_no = true) := by
    rw [h4]; simp; omega
  unfold update_record fetch_page_handle
  simp only [hp, if_false, Bitmap.is_set, hs, updatedPage]

theorem update_record_not_occupied (s : RmFileHandle) (rid : Rid) (buf : Record)
    (h1 : 0 ≤ rid.page_no) (h2 : rid.page_no < s.file_hdr_.num_pages)
    (h : rid.slot_no < 0 ∨ (s.pages rid.page_no).bitmap rid.slot_no = false) :
    update_record s rid buf = (s, .error (.RecordNotFoundError rid.page_no rid.slot_no)) := by
  have hp : ¬ (rid.page_no < 0 ∨ rid.page_no ≥ s.file_hdr_.num_pages) := by omega
  have hs : rid.slot_no < 0 ∨ ¬ (s.pages rid.page_no).bitmap rid.slot_no = true := by
    rcases h with h | h
    · exact Or.inl h
    · right; rw [h]; simp
  unfold update_record fetch_page_handle
  simp only [hp, if_false, Bitmap.is_set, hs, if_true]

theorem update_record_bad_page (s : RmFileHandle) (rid : Rid) (buf : Record)
    (h : rid.page_no < 0 ∨ rid.page_no ≥ s.file_hdr_.num_pages) :
    update_record s rid buf = (s, .error (.PageNotExistError rid.page_no)) := by
  unfold update_record fetch_page_handle
  simp only [h, if_true]

/-- Either the slot is occupied, or the page exists and the slot is free, or the
page does not exist. -/
theorem occupied_cases (s : RmFileHandle) (rid : Rid) :
    Occupied s rid ∨
    ((0 ≤ rid.page_no ∧ rid.page_no < s.file_hdr_.num_pages) ∧
      (rid.slot_no < 0 ∨ (s.pages rid.page_no).bitmap rid.slot_no = false)) ∨
    (rid.page_no < 0 ∨ rid.page_no ≥ s.file_hdr_.num_pages) := by
  by_cases hp : rid.page_no < 0 ∨ rid.page_no ≥ s.file_hdr_.num_pages
  · exact Or.inr (Or.inr hp)
  · by_cases hsl : rid.slot_no < 0
    · exact Or.inr (Or.inl ⟨by omega, Or.inl hsl⟩)
    · cases hb : (s.pages rid.page_no).bitmap rid.slot_no
      · exact Or.inr (Or.inl ⟨by omega, Or.inr rfl⟩)
      · exact Or.inl ⟨by omega, by omega, by omega, hb⟩

theorem update_record_inv (s : RmFileHandle) (rid : Rid) (buf : Record) (hs : HeapInv s) :
    HeapInv (update_record s rid buf).1 := by
  rcases occupied_cases s rid with hocc | ⟨⟨h1, h2⟩, hno⟩ | hbad
  · rw [update_record_occupied s rid buf hocc]
    obtain ⟨l, hc, hnd, hm⟩ := hs.free_list
    have hpg : ∀ q, ((Function.update s.pages rid.page_no (updatedPage s rid buf)) q).page_hdr =
        (s.pages q).page_hdr ∧
        ((Function.update s.pages rid.page_no (updatedPage s rid buf)) q).bitmap =
        (s.pages q).bitmap := by
      intro q
      simp only [Function.update_apply]
      split
      · next hq => subst hq; exact ⟨rfl, rfl⟩
      · exact ⟨rfl, rfl⟩
    refine ⟨hs.n_pos, hs.pages_pos, ?_, ?_, ?_, ?_⟩
    · intro q i hi; rw [(hpg q).2]; exact hs.bits q i hi
    · intro i; rw [(hpg 0).2]; exact hs.hdr_page i
    · intro q hq; rw [(hpg q).1, (hpg q).2]; exact hs.count q hq
    · refine ⟨l, hc.congr (fun q _ => by rw [(hpg q).1]), hnd, ?_⟩
      intro q
      rw [(hpg q).1]
      exact hm q
  · rw [update_record_not_occupied s rid buf h1 h2 hno]; exact hs
  · rw [update_record_bad_page s rid buf hbad]; exact hs

theorem insert_record_inv (s : RmFileHandle) (buf : Record) (hs : HeapInv s) :
    HeapInv (insert_record s buf).1 := by
  obtain ⟨s1, p, k, hpl, hi, -⟩ := insert_plan s hs
  rw [hi buf]
  exact insert_finish_inv s1 p k buf hpl.inv hpl.head hpl.ne hpl.k0 hpl.kn hpl.bit

theorem insert_record_rid_inv (s : RmFileHandle) (rid : Rid) (buf : Record) (hs : HeapInv s) :
    HeapInv (insert_record_rid s rid buf).1 := by
  obtain ⟨s1, p, k, hpl, -, hi⟩ := insert_plan s hs
  rw [hi rid buf]
  exact insert_finish_inv s1 p k buf hpl.inv hpl.head hpl.ne hpl.k0 hpl.kn hpl.bit

theorem step_inv (s : RmFileHandle) (op : HeapOp) (hs : HeapInv s) : HeapInv (op.step s) := by
  cases op with
  | insert buf => exact insert_record_inv s buf hs
  | insert_rid rid buf => exact insert_record_rid_inv s rid buf hs
  | delete rid => exact delete_record_inv s rid hs
  | update rid buf => exact update_record_inv s rid buf hs

theorem runHeap_inv (ops : List HeapOp) (s : RmFileHandle) (hs : HeapInv s) :
    HeapInv (runHeap s ops) := by
  induction ops generalizing s with
  | nil => exact hs
  | cons op ops ih => exact ih (op.step s) (step_inv s op hs)

theorem emptyHeap_inv (record_size : Nat) (n : Int) (hn : 0 < n) :
    HeapInv (emptyHeap record_size n) := by
  refine ⟨hn, le_rfl, fun _ _ _ => rfl, fun _ => rfl, ?_, ⟨[], FreeChain.nil, List.nodup_nil, ?_⟩⟩
  · intro p hp
    simp only [IsDataPage, emptyHeap] at hp
    omega
  · intro p
    simp only [IsDataPage, emptyHeap, List.not_mem_nil, false_iff]
    omega

/-- What `get_record` reads: the page count, the record size, and one bit and one slot. -/
theorem get_record_congr (s s2 : RmFileHandle) (rid : Rid)
    (h1 : s2.file_hdr_.num_pages = s.file_hdr_.num_pages)
    (h2 : s2.file_hdr_.record_size = s.file_hdr_.record_size)
    (h3 : (s2.pages rid.page_no).bitmap rid.slot_no = (s.pages rid.page_no).bitmap rid.slot_no)
    (h4 : (s2.pages rid.page_no).slots rid.slot_no = (s.pages rid.page_no).slots rid.slot_no) :
    get_record s2 rid = get_record s rid := by
  unfold get_record fetch_page_handle Bitmap.is_set
  rw [h1]
  by_cases hp : rid.page_no < 0 ∨ rid.page_no ≥ s.file_hdr_.num_pages
  · simp only [hp, if_true]
  · simp only [hp, if_false, h2, h3, h4]

theorem take_memcpy (dst src : Record) (n : Nat) (h : src.length = n) :
    (memcpy dst src n).take n = src := by
  unfold memcpy
  rw [List.take_of_length_le (le_of_eq h)]
  rw [List.take_append_of_le_length (le_of_eq h.symm), List.take_of_length_le (le_of_eq h)]

theorem insert_finish_get_self (s : RmFileHandle) (p k : Int) (buf : Record)
    (hp0 : 0 ≤ p) (hp : p < s.file_hdr_.num_pages) (hk : 0 ≤ k)
    (hb : buf.length = s.file_hdr_.record_size) :
    get_record (insert_finish s p p k buf).1 ⟨p, k⟩ = .ok buf := by
  rw [get_record_ok_iff, insert_finish_pages, insert_finish_hdr]
  refine ⟨hp0, hp, hk, ?_, ?_⟩
  · simp only [Function.update_same, placedPage]
  · simp only [Function.update_same, placedPage]
    exact (take_memcpy _ buf _ hb).symm

theorem insert_finish_get_other (s : RmFileHandle) (p pn k : Int) (buf : Record) (rid : Rid)
    (b : Record) (hbit : (s.pages p).bitmap k = false) (h : get_record s rid = .ok b) :
    get_record (insert_finish s p pn k buf).1 rid = .ok b := by
  rw [get_record_ok_iff] at h ⊢
  obtain ⟨h1, h2, h3, h4, h5⟩ := h
  rw [insert_finish_pages, insert_finish_hdr]
  simp only [Function.update_apply]
  refine ⟨h1, h2, h3, ?_, ?_⟩
  · split
    · next hq =>
      simp only [placedPage, Function.update_apply]
      split
      · rfl
      · rw [← hq]; exact h4
    · exact h4
  · split
    · next hq =>
      have hne : rid.slot_no ≠ k := by
        intro hk
        rw [hq, hk, hbit] at h4
        cases h4
      simp only [placedPage, Function.update_noteq hne]
      rw [← hq]; exact h5
    · exact h5

theorem InsertPlan.get {s s1 : RmFileHandle} {p k : Int} (hpl : InsertPlan s s1 p k)
    {rid : Rid} {b : Record} (h : get_record s rid = .ok b) : get_record s1 rid = .ok b := by
  rw [get_record_ok_iff] at h ⊢
  obtain ⟨h1, h2, h3, h4, h5⟩ := h
  rw [hpl.old _ h2, hpl.rs]
  exact ⟨h1, lt_of_lt_of_le h2 hpl.np, h3, h4, h5⟩

theorem Rid.ne_slot {r rid : Rid} (hne : r ≠ rid) (hp : r.page_no = rid.page_no) :
    r.slot_no ≠ rid.slot_no := by
  intro hsl
  apply hne
  cases r; cases rid; simp_all

/-- What an accepted `delete_record` leaves: only the header of `file_hdr_`'s free
list, the page header and the bitmap of the page change. -/
theorem delete_record_frame (s : RmFileHandle) (rid : Rid) (h : Occupied s rid) :
    (delete_record s rid).2 = .ok () ∧
    (delete_record s rid).1.file_hdr_.num_pages = s.file_hdr_.num_pages ∧
    (delete_record s rid).1.file_hdr_.record_size = s.file_hdr_.record_size ∧
    (delete_record s rid).1.file_hdr_.num_records_per_page =
      s.file_hdr_.num_records_per_page ∧
    (∀ q, ((delete_record s rid).1.pages q).page_hdr.num_records =
      ((Function.update s.pages rid.page_no (deletedPage s rid)) q).page_hdr.num_records) ∧
    (∀ q, ((delete_record s rid).1.pages q).bitmap =
      ((Function.update s.pages rid.page_no (deletedPage s rid)) q).bitmap) ∧
    (∀ q, ((delete_record s rid).1.pages q).slots = (s.pages q).slots) := by
  rw [delete_record_occupied s rid h]
  split
  · rw [release_page_handle_eq]
    refine ⟨rfl, rfl, rfl, rfl, ?_, ?_, ?_⟩ <;> intro q <;>
      by_cases hq : q = rid.page_no
    all_goals first
      | (subst hq
         simp [RmFileHandle.setNextFree, RmFileHandle.setPageHdr, RmFileHandle.setFirstFree,
           deletedPage])
      | simp [RmFileHandle.setNextFree, RmFileHandle.setPageHdr, RmFileHandle.setFirstFree, hq,
          deletedPage]
  · refine ⟨rfl, rfl, rfl, rfl, fun _ => rfl, fun _ => rfl, ?_⟩
    intro q
    by_cases hq : q = rid.page_no
    · subst hq; simp [deletedPage]
    · simp [hq]

theorem delete_record_get_other (s : RmFileHandle) (rid r : Rid) (hne : r ≠ rid) :
    get_record (delete_record s rid).1 r = get_record s r := by
  rcases occupied_cases s rid with hocc | ⟨⟨h1, h2⟩, hno⟩ | hbad
  · obtain ⟨-, f1, f2, -, -, f5, f6⟩ := delete_record_frame s rid hocc
    refine get_record_congr _ _ _ f1 f2 ?_ ?_
    · rw [f5]
      by_cases hp : r.page_no = rid.page_no
      · have hsl := Rid.ne_slot hne hp
        rw [hp, Function.update_same]
        simp [deletedPage, Function.update_noteq hsl]
      · simp [hp]
    · rw [f6]
  · rw [delete_record_not_occupied s rid h1 h2 hno]
  · rw [delete_record_bad_page s rid hbad]

theorem update_record_get_other (s : RmFileHandle) (rid r : Rid) (buf : Record) (hne : r ≠ rid) :
    get_record (update_record s rid buf).1 r = get_record s r := by
  rcases occupied_cases s rid with hocc | ⟨⟨h1, h2⟩, hno⟩ | hbad
  · rw [update_record_occupied s rid buf hocc]
    dsimp only
    refine get_record_congr _ _ _ rfl rfl ?_ ?_
    · by_cases hp : r.page_no = rid.page_no
      · rw [hp]; dsimp only; rw [Function.update_same]; rfl
      · simp [hp]
    · by_cases hp : r.page_no = rid.page_no
      · have hsl := Rid.ne_slot hne hp
        rw [hp]; dsimp only; rw [Function.update_same]
        simp [updatedPage, Function.update_noteq hsl]
      · simp [hp]
  · rw [update_record_not_occupied s rid buf h1 h2 hno]
  · rw [update_record_bad_page s rid buf hbad]

theorem step_get (s : RmFileHandle) (op : HeapOp) (rid : Rid) (b : Record) (hs : HeapInv s)
    (hop : ¬ op.touches rid) (h : get_record s rid = .ok b) :
    get_record (op.step s) rid = .ok b := by
  cases op with
  | insert buf =>
    obtain ⟨s1, p, k, hpl, hi, -⟩ := insert_plan s hs
    show get_record (insert_record s buf).1 rid = .ok b
    rw [hi buf]
    exact insert_finish_get_other s1 p p k buf rid b hpl.bit (hpl.get h)
  | insert_rid r buf =>
    obtain ⟨s1, p, k, hpl, -, hi⟩ := insert_plan s hs
    show get_record (insert_record_rid s r buf).1 rid = .ok b
    rw [hi r buf]
    exact insert_finish_get_other s1 p p k buf rid b hpl.bit (hpl.get h)
  | delete r =>
    show get_record (delete_record s r).1 rid = .ok b
    rw [delete_record_get_other s r rid (fun e => hop e.symm)]; exact h
  | update r buf =>
    show get_record (update_record s r buf).1 rid = .ok b
    rw [update_record_get_other s r rid buf (fun e => hop e.symm)]; exact h

theorem runHeap_get (ops : List HeapOp) (s : RmFileHandle) (rid : Rid) (b : Record)
    (hs : HeapInv s) (hops : ∀ op ∈ ops, ¬ op.touches rid) (h : get_record s rid = .ok b) :
    get_record (runHeap s ops) rid = .ok b := by
  induction ops generalizing s with
  | nil => exact h
  | cons op ops ih =>
    exact ih (op.step s) (step_inv s op hs)
      (fun o ho => hops o (List.mem_cons_of_mem _ ho))
      (step_get s op rid b hs (hops op (List.mem_cons_self _ _)) h)

/-- The count invariant reads the page capacity, the number of pages, and the
record counts and bitmaps of the data pages. -/
theorem CountInv.of_same_pages {s s2 : RmFileHandle} (hc : CountInv s)
    (hn : s2.file_hdr_.num_records_per_page = s.file_hdr_.num_records_per_page)
    (hp : s2.file_hdr_.num_pages = s.file_hdr_.num_pages)
    (h : ∀ p, IsDataPage s p →
      (s2.pages p).page_hdr.num_records = (s.pages p).page_hdr.num_records ∧
        (s2.pages p).bitmap = (s.pages p).bitmap) : CountInv s2 := by
  intro p hp2
  have hd : IsDataPage s p := by
    unfold IsDataPage at hp2 ⊢
    rw [hp] at hp2
    exact hp2
  rw [(h p hd).1, (h p hd).2, hn]
  exact hc p hd

theorem CountInv.setFirstFree {s : RmFileHandle} (hc : CountInv s) (v : Int) :
    CountInv (s.setFirstFree v) :=
  hc.of_same_pages rfl rfl (fun _ _ => ⟨rfl, rfl⟩)

theorem CountInv.setNextFree {s : RmFileHandle} (hc : CountInv s) (p v : Int) :
    CountInv (s.setNextFree p v) := by
  refine hc.of_same_pages rfl rfl (fun q _ => ?_)
  unfold RmFileHandle.setNextFree RmFileHandle.setPageHdr
  by_cases hq : q = p
  · subst hq
    simp
  · simp [Function.update_noteq hq]

/-- A new page without record, appended to the file, keeps the count invariant. -/
theorem CountInv.new_page {s : RmFileHandle} (hc : CountInv s) (hdr : RmFileHdr)
    (pg : RmPage) (hn : hdr.num_records_per_page = s.file_hdr_.num_records_per_page)
    (hp : hdr.num_pages = s.file_hdr_.num_pages + 1)
    (h0 : pg.page_hdr.num_records = 0) (hb : pg.bitmap = fun _ => false) :
    CountInv { file_hdr_ := hdr, pages := Function.update s.pages s.file_hdr_.num_pages pg } := by
  intro p hp2
  unfold IsDataPage at hp2
  simp only at hp2 ⊢
  rw [hp] at hp2
  by_cases hq : p = s.file_hdr_.num_pages
  · subst hq
    simp only [Function.update_same, h0, hb, popcount_zero]
    rfl
  · rw [Function.update_noteq hq, hn]
    exact hc p ⟨hp2.1, by omega⟩

theorem create_new_page_handle_count (s : RmFileHandle) (hc : CountInv s) :
    CountInv (create_new_page_handle s).1 := by
  have h1 : CountInv
      { file_hdr_ := { s.file_hdr_ with num_pages := s.file_hdr_.num_pages + 1 }
        pages := Function.update s.pages s.file_hdr_.num_pages zeroPage } :=
    hc.new_page _ _ rfl rfl rfl rfl
  unfold create_new_page_handle
  simp only
  split
  · exact h1.setFirstFree _
  · split
    · exact h1
    · exact h1.setNextFree _ _

theorem freshHead_count (s : RmFileHandle) (hc : CountInv s) : CountInv (freshHead s) :=
  hc.new_page _ _ rfl rfl rfl rfl

/-- What `create_page_handle` returns: with an empty free list the new page of
`freshHead`, which holds no record; otherwise the page `first_free_page_no`
names, in the file as it is. -/
theorem create_page_handle_cases (s : RmFileHandle) :
    (s.file_hdr_.first_free_page_no = -1 ∧
      create_page_handle s = (freshHead s, .ok s.file_hdr_.num_pages)) ∨
    (s.file_hdr_.first_free_page_no ≠ -1 ∧
      ((∃ e, create_page_handle s = (s, .error e)) ∨
        create_page_handle s = (s, .ok s.file_hdr_.first_free_page_no))) := by
  by_cases h : s.file_hdr_.first_free_page_no = -1
  · exact Or.inl ⟨h, create_page_handle_empty s h⟩
  · refine Or.inr ⟨h, ?_⟩
    unfold create_page_handle fetch_page_handle
    simp only [h, if_false]
    split
    · exact Or.inl ⟨_, rfl⟩
    · exact Or.inr rfl

/-- A page that counts its set bits and is not full has a clear bit among its
slots. -/
theorem scan_free_slot_of_not_full (bm : Int → Bool) (n : Int) (num_records : Int)
    (hc : num_records = (popcount bm n.toNat : Int)) (hlt : num_records < n) :
    ∃ k : Nat, scan_free_slot bm n = some k := by
  cases hsc : scan_free_slot bm n with
  | some k => exact ⟨k, rfl⟩
  | none =>
    have h1 := scan_free_slot_none hsc
    rw [hc, h1] at hlt
    omega

/-- Storing a record in a slot of a data page whose bit was clear keeps the count
invariant; on a page that is no data page every slot does. -/
theorem insert_finish_count (s : RmFileHandle) (ph pn k : Int) (buf : Record)
    (hc : CountInv s)
    (hk : IsDataPage s ph →
      0 ≤ k ∧ k < s.file_hdr_.num_records_per_page ∧ (s.pages ph).bitmap k = false) :
    CountInv (insert_finish s ph pn k buf).1 := by
  intro p hp
  have hh := insert_finish_hdr s ph pn k buf
  have hpg := insert_finish_pages s ph pn k buf
  have hnp : (insert_finish s ph pn k buf).1.file_hdr_.num_pages = s.file_hdr_.num_pages := by
    rw [hh]
  have hn : (insert_finish s ph pn k buf).1.file_hdr_.num_records_per_page =
      s.file_hdr_.num_records_per_page := by
    rw [hh]
  have hd : IsDataPage s p := by
    unfold IsDataPage at hp ⊢
    rw [hnp] at hp
    exact hp
  rw [hpg, hn]
  by_cases hq : p = ph
  · subst hq
    obtain ⟨h0, h1, h2⟩ := hk hd
    simp only [Function.update_same, placedPage]
    rw [popcount_set _ k _ h0 (by omega) h2, hc p hd]
    push_cast
    rfl
  · rw [Function.update_noteq hq]
    exact hc p hd

/-- The loop of `insert_record` writes `first_free_page_no` only, and when it ends
with a slot, the slot is one of the page it ends on, with its bit clear. -/
theorem insert_loop_spec : ∀ (fuel : Nat) (s : RmFileHandle) (ph : Int),
    (insert_loop fuel s ph).1.pages = s.pages ∧
    (insert_loop fuel s ph).1.file_hdr_.num_records_per_page =
      s.file_hdr_.num_records_per_page ∧
    (insert_loop fuel s ph).1.file_hdr_.num_pages = s.file_hdr_.num_pages ∧
    (∀ ph1 pn fs, (insert_loop fuel s ph).2 = .ok (ph1, pn, fs) →
      fs = -1 ∨ (0 ≤ fs ∧ fs < s.file_hdr_.num_records_per_page ∧
        (s.pages ph1).bitmap fs = false)) := by
  intro fuel
  induction fuel with
  | zero =>
    intro s ph
    refine ⟨rfl, rfl, rfl, ?_⟩
    intro ph1 pn fs h
    simp [insert_loop] at h
  | succ fuel ih =>
    intro s ph
    unfold insert_loop
    cases hsc : scan_free_slot (s.pages ph).bitmap s.file_hdr_.num_records_per_page with
    | some k =>
      simp only
      refine ⟨by trivial, by trivial, by trivial, ?_⟩
      intro ph1 pn fs h
      injection h with h
      simp only [Prod.mk.injEq] at h
      obtain ⟨h1, -, h3⟩ := h
      subst h1
      subst h3
      have hk := scan_free_slot_some hsc
      right
      refine ⟨by omega, by omega, hk.2⟩
    | none =>
      simp only
      split
      · refine ⟨rfl, rfl, rfl, ?_⟩
        intro ph1 pn fs h
        injection h with h
        simp only [Prod.mk.injEq] at h
        exact Or.inl h.2.2.symm
      · split
        · refine ⟨rfl, rfl, rfl, ?_⟩
          intro ph1 pn fs h
          cases h
        · have := ih (s.setFirstFree (s.pages ph).page_hdr.next_free_page_no) ‹Int›
          exact this

theorem insert_record_count (s : RmFileHandle) (buf : Record)
    (hn : 0 < s.file_hdr_.num_records_per_page) (hc : CountInv s) :
    CountInv (insert_record s buf).1 := by
  have hcp : ∀ s1 r, create_page_handle s = (s1, r) →
      CountInv s1 ∧ s1.file_hdr_.num_records_per_page = s.file_hdr_.num_records_per_page := by
    intro s1 r h
    rcases create_page_handle_cases s with ⟨-, he⟩ | ⟨-, ⟨e, he⟩ | he⟩
    · rw [he] at h
      cases h
      exact ⟨freshHead_count s hc, rfl⟩
    · rw [he] at h
      cases h
      exact ⟨hc, rfl⟩
    · rw [he] at h
      cases h
      exact ⟨hc, rfl⟩
  unfold insert_record
  cases hcr : create_page_handle s with
  | mk s1 r =>
    obtain ⟨hc1, hn1⟩ := hcp s1 r hcr
    cases r with
    | error e => exact hc1
    | ok ph0 =>
      simp only
      obtain ⟨hpg, hn2, hnp2, hfs⟩ :=
        insert_loop_spec (s1.file_hdr_.num_pages.toNat + 1) s1 ph0
      cases hl : insert_loop (s1.file_hdr_.num_pages.toNat + 1) s1 ph0 with
      | mk s2 r2 =>
        rw [hl] at hpg hn2 hnp2 hfs
        simp only at hpg hn2 hnp2 hfs
        have hc2 : CountInv s2 :=
          hc1.of_same_pages hn2 hnp2 (fun p _ => by rw [hpg]; exact ⟨rfl, rfl⟩)
        cases r2 with
        | error e => exact hc2
        | ok x =>
          obtain ⟨ph, page_no, free_slot⟩ := x
          simp only
          by_cases hfree : free_slot = -1
          · simp only [hfree, if_true]
            have hc3 := create_new_page_handle_count s2 hc2
            cases hnew : create_new_page_handle s2 with
            | mk s3 r3 =>
              rw [hnew] at hc3
              simp only at hc3
              cases r3 with
              | error e => exact hc3
              | ok new_page =>
                simp only
                have hnewp : new_page = s2.file_hdr_.num_pages ∧
                    s3.file_hdr_.num_records_per_page = s2.file_hdr_.num_records_per_page ∧
                    (s3.pages new_page).bitmap = fun _ => false := by
                  unfold create_new_page_handle at hnew
                  simp only at hnew
                  split at hnew
                  · cases hnew
                    refine ⟨rfl, rfl, ?_⟩
                    simp [RmFileHandle.setFirstFree, zeroPage]
                  · split at hnew
                    · cases hnew
                    · cases hnew
                      refine ⟨rfl, rfl, ?_⟩
                      unfold RmFileHandle.setNextFree RmFileHandle.setPageHdr
                      simp only
                      by_cases hq : s2.file_hdr_.num_pages = ‹Int›
                      · rw [← hq]
                        simp [zeroPage]
                      · simp [Function.update_noteq hq, zeroPage]
                apply insert_finish_count _ _ _ _ _ ((hc3.setNextFree _ _).setFirstFree _)
                intro _
                refine ⟨le_rfl, ?_, ?_⟩
                · show (0 : Int) < s3.file_hdr_.num_records_per_page
                  rw [hnewp.2.1, hn2, hn1]
                  exact hn
                · show (((s3.setNextFree ph new_page).setFirstFree new_page).pages
                    new_page).bitmap 0 = false
                  have : (((s3.setNextFree ph new_page).setFirstFree new_page).pages
                      new_page).bitmap = (s3.pages new_page).bitmap := by
                    unfold RmFileHandle.setFirstFree RmFileHandle.setNextFree
                      RmFileHandle.setPageHdr
                    by_cases hq : new_page = ph
                    · subst hq
                      simp
                    · simp [Function.update_noteq hq]
                  rw [this, hnewp.2.2]
          · simp only [hfree, if_false]
            apply insert_finish_count _ _ _ _ _ hc2
            intro _
            rcases hfs ph page_no free_slot rfl with h | ⟨h0, h1, h2⟩
            · exact absurd h hfree
            · refine ⟨h0, ?_, ?_⟩
              · rw [hn2]; exact h1
              · rw [hpg]; exact h2

/-- The state `insert_record(rid, buf)` leaves when `create_page_handle` has
returned the page `ph` of `s1`: page `ph` is replaced, and capacity and number of
pages are those of `s1`. -/
theorem insert_record_rid_shape (s s1 : RmFileHandle) (ph : Int) (rid : Rid) (buf : Record)
    (h : create_page_handle s = (s1, .ok ph)) :
    (insert_record_rid s rid buf).1.file_hdr_.num_records_per_page =
      s1.file_hdr_.num_records_per_page ∧
    (insert_record_rid s rid buf).1.file_hdr_.num_pages = s1.file_hdr_.num_pages ∧
    ∀ q, q ≠ ph → (insert_record_rid s rid buf).1.pages q = s1.pages q := by
  unfold insert_record_rid
  rw [h]
  simp only
  split
  · refine ⟨rfl, rfl, ?_⟩
    intro q hq
    simp [RmFileHandle.setFirstFree, Function.update_noteq hq]
  · refine ⟨rfl, rfl, ?_⟩
    intro q hq
    simp [Function.update_noteq hq]

theorem insert_record_rid_count (s : RmFileHandle) (rid : Rid) (buf : Record)
    (hn : 0 < s.file_hdr_.num_records_per_page) (hc : CountInv s) (hh : HeadNotFull s) :
    CountInv (insert_record_rid s rid buf).1 := by
  have key : ∀ (s1 : RmFileHandle) (ph : Int), create_page_handle s = (s1, .ok ph) →
      CountInv s1 →
      (IsDataPage s1 ph →
        (s1.pages ph).page_hdr.num_records < s1.file_hdr_.num_records_per_page) →
      CountInv (insert_record_rid s rid buf).1 := by
    intro s1 ph hcr hc1 hfree
    by_cases hd : IsDataPage s1 ph
    · obtain ⟨k, hk⟩ := scan_free_slot_of_not_full (s1.pages ph).bitmap
        s1.file_hdr_.num_records_per_page _ (hc1 ph hd) (hfree hd)
      rw [insert_record_rid_of_head s s1 ph k rid buf hcr hk]
      have hk2 := scan_free_slot_some hk
      exact insert_finish_count s1 ph ph (k : Int) buf hc1
        (fun _ => ⟨by omega, by omega, hk2.2⟩)
    · obtain ⟨h1, h2, h3⟩ := insert_record_rid_shape s s1 ph rid buf hcr
      refine hc1.of_same_pages h1 h2 (fun p hp => ?_)
      have hq : p ≠ ph := by
        intro hq
        subst hq
        exact hd hp
      rw [h3 p hq]
      exact ⟨rfl, rfl⟩
  rcases create_page_handle_cases s with ⟨-, he⟩ | ⟨-, ⟨e, he⟩ | he⟩
  · refine key _ _ he (freshHead_count s hc) ?_
    intro _
    simp only [freshHead, Function.update_same]
    exact hn
  · unfold insert_record_rid
    rw [he]
    exact hc
  · exact key _ _ he hc hh

theorem delete_record_count (s : RmFileHandle) (rid : Rid) (hc : CountInv s)
    (hb : NoBitBehind s) : CountInv (delete_record s rid).1 := by
  rcases occupied_cases s rid with hocc | ⟨⟨h1, h2⟩, hno⟩ | hbad
  · rw [delete_record_occupied s rid hocc]
    obtain ⟨h1, h2, h3, h4⟩ := hocc
    have hdel : CountInv
        { s with pages := Function.update s.pages rid.page_no (deletedPage s rid) } := by
      intro p hp
      have hd : IsDataPage s p := hp
      show (((Function.update s.pages rid.page_no (deletedPage s rid)) p).page_hdr.num_records =
        (popcount ((Function.update s.pages rid.page_no (deletedPage s rid)) p).bitmap
          s.file_hdr_.num_records_per_page.toNat : Int))
      by_cases hq : p = rid.page_no
      · subst hq
        have hlt : rid.slot_no < s.file_hdr_.num_records_per_page := by
          by_contra hge
          rw [hb _ _ hd (by omega)] at h4
          cases h4
        simp only [Function.update_same, deletedPage]
        have := popcount_reset (s.pages rid.page_no).bitmap rid.slot_no
          s.file_hdr_.num_records_per_page.toNat h3 (by omega) h4
        rw [hc _ hd, ← this]
        push_cast
        omega
      · rw [Function.update_noteq hq]
        exact hc p hd
    simp only
    split
    · rw [release_page_handle_eq]
      exact (hdel.setFirstFree _).setNextFree _ _
    · exact hdel
  · rw [delete_record_not_occupied s rid h1 h2 hno]
    exact hc
  · rw [delete_record_bad_page s rid hbad]
    exact hc

theorem update_record_count (s : RmFileHandle) (rid : Rid) (buf : Record) (hc : CountInv s) :
    CountInv (update_record s rid buf).1 := by
  rcases occupied_cases s rid with hocc | ⟨⟨h1, h2⟩, hno⟩ | hbad
  · rw [update_record_occupied s rid buf hocc]
    refine hc.of_same_pages rfl rfl (fun p _ => ?_)
    simp only
    by_cases hq : p = rid.page_no
    · subst hq
      simp [updatedPage]
    · simp [Function.update_noteq hq]
  · rw [update_record_not_occupied s rid buf h1 h2 hno]
    exact hc
  · rw [update_record_bad_page s rid buf hbad]
    exact hc

/-! ## Record heap: the claims -/

/-- C1: heap round-trip. On a well-formed heap file, `insert_record b` with a
buffer of `record_size` bytes returns a rid, and `get_record rid` returns exactly
`b` on the resulting file and after any further calls (inserts of either kind,
deletes and updates) that neither delete nor update that rid. -/
theorem C1_heap_round_trip (s : RmFileHandle) (b : Record) (hs : HeapInv s)
    (hb : b.length = s.file_hdr_.record_size) :
    ∃ rid, (insert_record s b).2 = .ok rid ∧
      ∀ ops : List HeapOp, (∀ op ∈ ops, ¬ op.touches rid) →
        get_record (runHeap (insert_record s b).1 ops) rid = .ok b := by
  obtain ⟨s1, p, k, hpl, hi, -⟩ := insert_plan s hs
  have hdp := (hpl.inv.head_free (hpl.head ▸ hpl.ne)).1
  rw [hpl.head] at hdp
  refine ⟨⟨p, k⟩, ?_, ?_⟩
  · rw [hi b]; rfl
  · intro ops hops
    apply runHeap_get ops _ _ b (insert_record_inv s b hs) hops
    rw [hi b]
    exact insert_finish_get_self s1 p k b (by have := hdp.1; omega) hdp.2 hpl.k0
      (by rw [hpl.rs]; exact hb)

/-- Witness of C1 on the empty file with 4-byte records, two per page. -/
theorem C1_heap_round_trip_witness :
    ∃ rid, (insert_record (emptyHeap 4 2) [1, 2, 3, 4]).2 = .ok rid ∧
      ∀ ops : List HeapOp, (∀ op ∈ ops, ¬ op.touches rid) →
        get_record (runHeap (insert_record (emptyHeap 4 2) [1, 2, 3, 4]).1 ops) rid =
          .ok [1, 2, 3, 4] :=
  C1_heap_round_trip (emptyHeap 4 2) [1, 2, 3, 4] (emptyHeap_inv 4 2 (by decide)) rfl

set_option maxRecDepth 100000 in
/-- Scenario S1 evaluated: the free-list head and the record count of page 3. -/
theorem heapS1_eval :
    heapS1.file_hdr_.first_free_page_no = 3 ∧ (heapS1.pages 3).page_hdr.num_records = 1 := by
  decide

/-- C2: heap free-list invariant. From an empty heap file with a positive page
capacity, after any finite sequence of heap calls (`insert_record`,
`delete_record`, and also `insert_record(rid, buf)` and `update_record`), walking
`next_free_page_no` from `first_free_page_no` visits exactly the data pages with
`num_records < num_records_per_page`, each once, and ends at the sentinel `-1`.
Scenario S1: with 60 records per page, after 121 inserts the head of the free
list is page 3, the third data page, which holds exactly one record. -/
theorem C2_free_list_invariant :
    (∀ (record_size : Nat) (n : Int) (ops : List HeapOp), 0 < n →
      FreeListInv (runHeap (emptyHeap record_size n) ops)) ∧
    (heapS1.file_hdr_.first_free_page_no = 3 ∧ (heapS1.pages 3).page_hdr.num_records = 1) := by
  refine ⟨fun record_size n ops hn => ?_, heapS1_eval⟩
  exact (runHeap_inv ops _ (emptyHeap_inv record_size n hn)).free_list

/-- Witness of C2: two inserts and a delete on pages of one record. -/
theorem C2_free_list_invariant_witness :
    (0 : Int) < 1 ∧
    FreeListInv (runHeap (emptyHeap 4 1) [.insert [1, 2, 3, 4], .insert [5, 6, 7, 8],
      .delete ⟨1, 0⟩]) :=
  ⟨by decide, C2_free_list_invariant.1 4 1 _ (by decide)⟩

/-- C3 fails on the code when the count invariant is all the file satisfies.  In
`heapC3` every data page counts its set bits, there are two slots per page and no
bit is set behind a bitmap, but `first_free_page_no` names the full page 1:
`insert_record(rid, buf)` takes that page, finds no clear bit, sets the bit at
position 2 behind the bitmap and counts a third record, so page 1 has
`num_records = 3` with two bits set among its slots.  In `heapC4` every data page
counts its set bits and the page `first_free_page_no` names is not full, but page 1
has a set bit behind its bitmap: `delete_record` of (1,2) returns, clears that bit
and counts down to 0, with one bit set among the slots.  And in an empty file with
no slot per page `insert_record` returns and counts one record on a page without
slot. -/
theorem C3_count_invariant_alone_breaks :
    (CountInv heapC3 ∧ NoBitBehind heapC3 ∧ 0 < heapC3.file_hdr_.num_records_per_page ∧
      heapC3.file_hdr_.first_free_page_no = 1 ∧
      (heapC3.pages 1).page_hdr.num_records = heapC3.file_hdr_.num_records_per_page ∧
      (insert_record_rid heapC3 ⟨1, 0⟩ [9, 9, 9, 9]).2 = .ok () ∧
      ¬ CountInv (insert_record_rid heapC3 ⟨1, 0⟩ [9, 9, 9, 9]).1) ∧
    (CountInv heapC4 ∧ HeadNotFull heapC4 ∧ 0 < heapC4.file_hdr_.num_records_per_page ∧
      (heapC4.pages 1).bitmap 2 = true ∧ heapC4.file_hdr_.num_records_per_page = 2 ∧
      (delete_record heapC4 ⟨1, 2⟩).2 = .ok () ∧
      ¬ CountInv (delete_record heapC4 ⟨1, 2⟩).1) ∧
    (CountInv (emptyHeap 4 0) ∧ NoBitBehind (emptyHeap 4 0) ∧ HeadNotFull (emptyHeap 4 0) ∧
      (insert_record (emptyHeap 4 0) [1, 2, 3, 4]).2 = .ok ⟨2, 0⟩ ∧
      ¬ CountInv (insert_record (emptyHeap 4 0) [1, 2, 3, 4]).1) := by
  refine ⟨⟨?_, ?_, by decide, by decide, by decide, by decide, ?_⟩,
    ⟨?_, ?_, by decide, by decide, by decide, by decide, ?_⟩,
    ⟨?_, ?_, ?_, by decide, ?_⟩⟩
  · intro p hp
    have h2 : heapC3.file_hdr_.num_pages = 2 := by decide
    unfold IsDataPage at hp
    rw [h2] at hp
    have hp1 : p = 1 := by omega
    subst hp1
    decide
  · intro p i _ hi
    exact (runHeap_inv [.insert [1, 1, 1, 1], .insert [2, 2, 2, 2]] (emptyHeap 4 2)
      (emptyHeap_inv 4 2 (by decide))).bits p i (Or.inr hi)
  · intro h
    have := h 1 (by unfold IsDataPage; decide)
    revert this
    decide
  · intro p hp
    have h2 : heapC4.file_hdr_.num_pages = 2 := by decide
    unfold IsDataPage at hp
    rw [h2] at hp
    have hp1 : p = 1 := by omega
    subst hp1
    decide
  · intro _
    decide
  · intro h
    have := h 1 (by unfold IsDataPage; decide)
    revert this
    decide
  · intro p hp
    have h2 : (emptyHeap 4 0).file_hdr_.num_pages = 1 := by decide
    unfold IsDataPage at hp
    rw [h2] at hp
    omega
  · intro p i _ _
    rfl
  · intro hp
    have h2 : (emptyHeap 4 0).file_hdr_.num_pages = 1 := by decide
    unfold IsDataPage at hp
    rw [h2] at hp
    have h3 : (emptyHeap 4 0).file_hdr_.first_free_page_no = -1 := by decide
    rw [h3] at hp
    omega
  · intro h
    have := h 2 (by unfold IsDataPage; decide)
    revert this
    decide

/-- C3 (amended): page count invariant.  On a heap file with at least one slot per
page in which every data page has `num_records = popcount(bitmap)`, no data page
has a bit set behind its bitmap, and the page `first_free_page_no` names is not a
full data page: after `insert_record(buf)`, `insert_record(rid, buf)`,
`delete_record(rid)` or `update_record(rid, buf)`, whether the call returns or
throws, every data page still has `num_records = popcount(bitmap)`.  For
`insert_record(buf)` a positive page capacity suffices, for `update_record` the
count invariant alone. -/
theorem C3_count_invariant (s : RmFileHandle) (rid : Rid) (buf : Record)
    (hn : 0 < s.file_hdr_.num_records_per_page) (hc : CountInv s) (hb : NoBitBehind s)
    (hh : HeadNotFull s) :
    CountInv (insert_record s buf).1 ∧ CountInv (insert_record_rid s rid buf).1 ∧
    CountInv (delete_record s rid).1 ∧ CountInv (update_record s rid buf).1 :=
  ⟨insert_record_count s buf hn hc, insert_record_rid_count s rid buf hn hc hh,
    delete_record_count s rid hc hb, update_record_count s rid buf hc⟩

/-- Witness of the amended C3, on the file that holds one record at (1,0) with two
slots per page: the four calls keep the count invariant. -/
theorem C3_count_invariant_witness :
    CountInv (insert_record (insert_record (emptyHeap 4 2) [1, 2, 3, 4]).1 [5, 6, 7, 8]).1 ∧
    CountInv (insert_record_rid (insert_record (emptyHeap 4 2) [1, 2, 3, 4]).1 ⟨1, 1⟩
      [5, 6, 7, 8]).1 ∧
    CountInv (delete_record (insert_record (emptyHeap 4 2) [1, 2, 3, 4]).1 ⟨1, 0⟩).1 ∧
    CountInv (update_record (insert_record (emptyHeap 4 2) [1, 2, 3, 4]).1 ⟨1, 0⟩
      [5, 6, 7, 8]).1 :=
  C3_count_invariant (insert_record (emptyHeap 4 2) [1, 2, 3, 4]).1 ⟨1, 0⟩ [5, 6, 7, 8]
    (by decide)
    (insert_record_inv _ _ (emptyHeap_inv 4 2 (by decide))).count
    (fun p i _ hi => (insert_record_inv _ _ (emptyHeap_inv 4 2 (by decide))).bits p i
      (Or.inr hi))
    (fun _ => by decide)

/-- C5: `delete_record` postcondition and atomicity. For an occupied slot the call
returns, the bit of the slot is clear afterwards, the page counts one record
less, `get_record rid` fails with `RecordNotFoundError`, and `get_record r` is
unchanged for every other `r`. For a slot of an existing page that is not
occupied the call throws `RecordNotFoundError` and the file state is unchanged;
when the page does not exist it throws `PageNotExistError`, also with the state
unchanged. -/
theorem C5_delete_record (s : RmFileHandle) (rid : Rid) :
    (Occupied s rid →
      (delete_record s rid).2 = .ok () ∧
      ((delete_record s rid).1.pages rid.page_no).bitmap rid.slot_no = false ∧
      ((delete_record s rid).1.pages rid.page_no).page_hdr.num_records =
        (s.pages rid.page_no).page_hdr.num_records - 1 ∧
      get_record (delete_record s rid).1 rid =
        .error (.RecordNotFoundError rid.page_no rid.slot_no) ∧
      ∀ r, r ≠ rid → get_record (delete_record s rid).1 r = get_record s r) ∧
    (0 ≤ rid.page_no → rid.page_no < s.file_hdr_.num_pages → ¬ Occupied s rid →
      delete_record s rid = (s, .error (.RecordNotFoundError rid.page_no rid.slot_no))) ∧
    ((rid.page_no < 0 ∨ rid.page_no ≥ s.file_hdr_.num_pages) →
      delete_record s rid = (s, .error (.PageNotExistError rid.page_no))) := by
  refine ⟨?_, ?_, delete_record_bad_page s rid⟩
  · intro hocc
    obtain ⟨f0, f1, f2, -, f4, f5, -⟩ := delete_record_frame s rid hocc
    have hbit : ((delete_record s rid).1.pages rid.page_no).bitmap rid.slot_no = false := by
      rw [f5, Function.update_same]
      simp [deletedPage]
    refine ⟨f0, hbit, ?_, ?_, fun r hr => delete_record_get_other s rid r hr⟩
    · rw [f4, Function.update_same]; rfl
    · obtain ⟨h1, h2, h3, -⟩ := hocc
      have hp : ¬ (rid.page_no < 0 ∨
          rid.page_no ≥ (delete_record s rid).1.file_hdr_.num_pages) := by
        rw [f1]; omega
      unfold get_record fetch_page_handle Bitmap.is_set
      simp only [hp, if_false, hbit]
      simp
  · intro h1 h2 hno
    apply delete_record_not_occupied s rid h1 h2
    by_contra hc
    push_neg at hc
    exact hno ⟨h1, h2, hc.1, by simpa using hc.2⟩

/-- Witness of C5: deleting the record just inserted, and deleting a free slot. -/
theorem C5_delete_record_witness :
    Occupied (insert_record (emptyHeap 4 2) [1, 2, 3, 4]).1 ⟨1, 0⟩ ∧
    (delete_record (insert_record (emptyHeap 4 2) [1, 2, 3, 4]).1 ⟨1, 0⟩).2 = .ok () ∧
    delete_record (insert_record (emptyHeap 4 2) [1, 2, 3, 4]).1 ⟨1, 1⟩ =
      ((insert_record (emptyHeap 4 2) [1, 2, 3, 4]).1, .error (.RecordNotFoundError 1 1)) :=
  ⟨by decide,
    ((C5_delete_record (insert_record (emptyHeap 4 2) [1, 2, 3, 4]).1 ⟨1, 0⟩).1 (by decide)).1,
    (C5_delete_record (insert_record (emptyHeap 4 2) [1, 2, 3, 4]).1 ⟨1, 1⟩).2.1
      (by decide) (by decide) (by decide)⟩

/-- C6: `update_record` is an in-place overwrite. For an occupied slot and a
buffer of `record_size` bytes the call returns, `get_record rid` then returns the
buffer, and the file header (with `first_free_page_no`), every page header (with
`num_records` and `next_free_page_no`), every bitmap and every other slot are
unchanged. For a slot of an existing page that is not occupied the call throws
`RecordNotFoundError` and changes nothing; when the page does not exist it throws
`PageNotExistError` and changes nothing. -/
theorem C6_update_record (s : RmFileHandle) (rid : Rid) (b : Record) :
    (Occupied s rid → b.length = s.file_hdr_.record_size →
      (update_record s rid b).2 = .ok () ∧
      get_record (update_record s rid b).1 rid = .ok b ∧
      (update_record s rid b).1.file_hdr_ = s.file_hdr_ ∧
      (∀ p, ((update_record s rid b).1.pages p).page_hdr = (s.pages p).page_hdr ∧
        ((update_record s rid b).1.pages p).bitmap = (s.pages p).bitmap) ∧
      (∀ p i, ¬ (p = rid.page_no ∧ i = rid.slot_no) →
        ((update_record s rid b).1.pages p).slots i = (s.pages p).slots i)) ∧
    (0 ≤ rid.page_no → rid.page_no < s.file_hdr_.num_pages → ¬ Occupied s rid →
      update_record s rid b = (s, .error (.RecordNotFoundError rid.page_no rid.slot_no))) ∧
    ((rid.page_no < 0 ∨ rid.page_no ≥ s.file_hdr_.num_pages) →
      update_record s rid b = (s, .error (.PageNotExistError rid.page_no))) := by
  refine ⟨?_, ?_, update_record_bad_page s rid b⟩
  · intro hocc hb
    rw [update_record_occupied s rid b hocc]
    dsimp only
    refine ⟨rfl, ?_, rfl, ?_, ?_⟩
    · rw [get_record_ok_iff]
      dsimp only
      rw [Function.update_same]
      obtain ⟨h1, h2, h3, h4⟩ := hocc
      refine ⟨h1, h2, h3, h4, ?_⟩
      simp only [updatedPage, Function.update_same]
      exact (take_memcpy _ b _ hb).symm
    · intro p
      by_cases hp : p = rid.page_no
      · subst hp; rw [Function.update_same]; exact ⟨rfl, rfl⟩
      · rw [Function.update_noteq hp]; exact ⟨rfl, rfl⟩
    · intro p i hpi
      by_cases hp : p = rid.page_no
      · subst hp
        have hi : i ≠ rid.slot_no := fun h => hpi ⟨rfl, h⟩
        rw [Function.update_same]
        simp only [updatedPage, Function.update_noteq hi]
      · rw [Function.update_noteq hp]
  · intro h1 h2 hno
    apply update_record_not_occupied s rid b h1 h2
    by_contra hc
    push_neg at hc
    exact hno ⟨h1, h2, hc.1, by simpa using hc.2⟩

/-- Witness of C6: overwriting the record just inserted, and a free slot. -/
theorem C6_update_record_witness :
    Occupied (insert_record (emptyHeap 4 2) [1, 2, 3, 4]).1 ⟨1, 0⟩ ∧
    get_record (update_record (insert_record (emptyHeap 4 2) [1, 2, 3, 4]).1 ⟨1, 0⟩
      [5, 6, 7, 8]).1 ⟨1, 0⟩ = .ok [5, 6, 7, 8] ∧
    update_record (insert_record (emptyHeap 4 2) [1, 2, 3, 4]).1 ⟨1, 1⟩ [5, 6, 7, 8] =
      ((insert_record (emptyHeap 4 2) [1, 2, 3, 4]).1, .error (.RecordNotFoundError 1 1)) :=
  ⟨by decide,
    ((C6_update_record (insert_record (emptyHeap 4 2) [1, 2, 3, 4]).1 ⟨1, 0⟩ [5, 6, 7, 8]).1
      (by decide) (by decide)).2.1,
    (C6_update_record (insert_record (emptyHeap 4 2) [1, 2, 3, 4]).1 ⟨1, 1⟩ [5, 6, 7, 8]).2.1
      (by decide) (by decide) (by decide)⟩

/-- C7 fails on the code: `insert_record(rid, buf)` never reads `rid`. On a page
where slots 0 and 2 were freed, restoring a record at `(1,2)` returns, leaves
`(1,2)` free, and stores the record in slot `(1,0)`. -/
theorem C7_insert_record_rid_ignores_rid :
    ¬ Occupied heapC7 ⟨1, 2⟩ ∧ IsDataPage heapC7 1 ∧
    (insert_record_rid heapC7 ⟨1, 2⟩ [3, 3, 3, 3]).2 = .ok () ∧
    get_record (insert_record_rid heapC7 ⟨1, 2⟩ [3, 3, 3, 3]).1 ⟨1, 2⟩ =
      .error (.RecordNotFoundError 1 2) ∧
    get_record heapC7 ⟨1, 0⟩ = .error (.RecordNotFoundError 1 0) ∧
    get_record (insert_record_rid heapC7 ⟨1, 2⟩ [3, 3, 3, 3]).1 ⟨1, 0⟩ = .ok [3, 3, 3, 3] := by
  refine ⟨?_, ?_, ?_, ?_, ?_, ?_⟩
  · decide
  · unfold IsDataPage; decide
  all_goals decide

/-! ## B+-tree index: lemmas on the key comparison and the node search -/

theorem ix_compare_col_neg (a b : Int) : ix_compare_col a b < 0 ↔ a < b := by
  unfold ix_compare_col; split <;> [skip; split] <;> omega

theorem ix_compare_col_zero (a b : Int) : ix_compare_col a b = 0 ↔ a = b := by
  unfold ix_compare_col; split <;> [skip; split] <;> omega

theorem ix_compare_col_pos (a b : Int) : 0 < ix_compare_col a b ↔ b < a := by
  unfold ix_compare_col; split <;> [skip; split] <;> omega

theorem ix_compare_succ (a b : Key) (n : Nat) :
    ix_compare a b (n + 1) =
      if ix_compare a b n ≠ 0 then ix_compare a b n
      else ix_compare_col (a.getD n 0) (b.getD n 0) := by
  unfold ix_compare
  rw [List.range_succ, List.foldl_concat]

theorem ix_compare_zero_iff (a b : Key) (n : Nat) :
    ix_compare a b n = 0 ↔ ∀ i, i < n → a.getD i 0 = b.getD i 0 := by
  induction n with
  | zero => simp [ix_compare]
  | succ n ih =>
    rw [ix_compare_succ]
    by_cases hz : ix_compare a b n = 0
    · simp only [hz, ne_eq, not_true_eq_false, if_false, ix_compare_col_zero]
      constructor
      · intro hn i hi
        rcases Nat.lt_succ_iff_lt_or_eq.mp hi with h | h
        · exact ih.mp hz i h
        · rw [h]; exact hn
      · intro hall; exact hall n (Nat.lt_succ_self n)
    · simp only [hz, ne_eq, not_false_eq_true, if_true, false_iff]
      intro hall
      exact hz (ih.mpr (fun i hi => hall i (Nat.lt_succ_of_lt hi)))

theorem ix_compare_neg_iff (a b : Key) (n : Nat) :
    ix_compare a b n < 0 ↔
      ∃ j, j < n ∧ (∀ i, i < j → a.getD i 0 = b.getD i 0) ∧ a.getD j 0 < b.getD j 0 := by
  induction n with
  | zero => simp [ix_compare]
  | succ n ih =>
    rw [ix_compare_succ]
    by_cases hz : ix_compare a b n = 0
    · simp only [hz, ne_eq, not_true_eq_false, if_false, ix_compare_col_neg]
      have hall := (ix_compare_zero_iff a b n).mp hz
      constructor
      · intro hlt; exact ⟨n, Nat.lt_succ_self n, hall, hlt⟩
      · rintro ⟨j, hj, hpre, hlt⟩
        rcases Nat.lt_succ_iff_lt_or_eq.mp hj with h | h
        · have := hall j h; omega
        · rw [← h]; exact hlt
    · simp only [hz, ne_eq, not_false_eq_true, if_true]
      rw [ih]
      constructor
      · rintro ⟨j, hj, hpre, hlt⟩; exact ⟨j, Nat.lt_succ_of_lt hj, hpre, hlt⟩
      · rintro ⟨j, hj, hpre, hlt⟩
        rcases Nat.lt_succ_iff_lt_or_eq.mp hj with h | h
        · exact ⟨j, h, hpre, hlt⟩
        · exfalso
          apply hz
          rw [ix_compare_zero_iff]
          intro i hi
          exact hpre i (by omega)

theorem ix_compare_pos_iff (a b : Key) (n : Nat) :
    0 < ix_compare a b n ↔
      ∃ j, j < n ∧ (∀ i, i < j → a.getD i 0 = b.getD i 0) ∧ b.getD j 0 < a.getD j 0 := by
  induction n with
  | zero => simp [ix_compare]
  | succ n ih =>
    rw [ix_compare_succ]
    by_cases hz : ix_compare a b n = 0
    · simp only [hz, ne_eq, not_true_eq_false, if_false, ix_compare_col_pos]
      have hall := (ix_compare_zero_iff a b n).mp hz
      constructor
      · intro hlt; exact ⟨n, Nat.lt_succ_self n, hall, hlt⟩
      · rintro ⟨j, hj, hpre, hlt⟩
        rcases Nat.lt_succ_iff_lt_or_eq.mp hj with h | h
        · have := hall j h; omega
        · rw [← h]; exact hlt
    · simp only [hz, ne_eq, not_false_eq_true, if_true]
      rw [ih]
      constructor
      · rintro ⟨j, hj, hpre, hlt⟩; exact ⟨j, Nat.lt_succ_of_lt hj, hpre, hlt⟩
      · rintro ⟨j, hj, hpre, hlt⟩
        rcases Nat.lt_succ_iff_lt_or_eq.mp hj with h | h
        · exact ⟨j, h, hpre, hlt⟩
        · exfalso
          apply hz
          rw [ix_compare_zero_iff]
          intro i hi
          exact hpre i (by omega)

/-- The key comparison is transitive on "less". -/
theorem ix_compare_lt_trans {a b c : Key} {n : Nat}
    (h1 : ix_compare a b n < 0) (h2 : ix_compare b c n < 0) : ix_compare a c n < 0 := by
  rw [ix_compare_neg_iff] at h1 h2 ⊢
  obtain ⟨j1, hj1, hp1, hl1⟩ := h1
  obtain ⟨j2, hj2, hp2, hl2⟩ := h2
  rcases Nat.lt_trichotomy j1 j2 with h | h | h
  · exact ⟨j1, hj1, fun i hi => (hp1 i hi).trans (hp2 i (by omega)), by
      have := hp2 j1 h; omega⟩
  · subst h
    exact ⟨j1, hj1, fun i hi => (hp1 i hi).trans (hp2 i hi), by omega⟩
  · exact ⟨j2, hj2, fun i hi => (hp1 i (by omega)).trans (hp2 i hi), by
      have := hp1 j2 h; omega⟩

/-- "Greater" one way is "less" the other way. -/
theorem ix_compare_pos_swap {a b : Key} {n : Nat} (h : 0 < ix_compare a b n) :
    ix_compare b a n < 0 := by
  rw [ix_compare_pos_iff] at h
  rw [ix_compare_neg_iff]
  obtain ⟨j, hj, hp, hl⟩ := h
  exact ⟨j, hj, fun i hi => (hp i hi).symm, hl⟩

/-- A key equal to `a` is less than whatever `a` is less than. -/
theorem ix_compare_eq_lt {k a b : Key} {n : Nat}
    (h1 : ix_compare k a n = 0) (h2 : ix_compare a b n < 0) : ix_compare k b n < 0 := by
  rw [ix_compare_zero_iff] at h1
  rw [ix_compare_neg_iff] at h2 ⊢
  obtain ⟨j, hj, hp, hl⟩ := h2
  exact ⟨j, hj, fun i hi => (h1 i (by omega)).trans (hp i hi), by
    have := h1 j hj; omega⟩

/-- A key equal to `b` is greater than whatever is less than `b`. -/
theorem ix_compare_eq_gt {k a b : Key} {n : Nat}
    (h1 : ix_compare k b n = 0) (h2 : ix_compare a b n < 0) : 0 < ix_compare k a n := by
  rw [ix_compare_zero_iff] at h1
  rw [ix_compare_neg_iff] at h2
  rw [ix_compare_pos_iff]
  obtain ⟨j, hj, hp, hl⟩ := h2
  exact ⟨j, hj, fun i hi => (h1 i (by omega)).trans (hp i hi).symm, by
    have := h1 j hj; omega⟩

/-- On strictly ascending keys the binary search of `lower_bound` stops at a slot
below `num_key` whose key equals the target when there is one, and gives
`num_key` when there is none. -/
theorem lower_bound_loop_spec (h : IxFileHdr) (nd : IxPage) (target : Key)
    (hs : StrictAsc h nd) :
    ∀ (fuel : Nat) (left right : Int), 0 ≤ left → right ≤ nd.page_hdr.num_key →
      right - left + 1 < (fuel : Int) →
      (∀ i, 0 ≤ i → i < nd.page_hdr.num_key →
        ix_compare target (nd.keys i) h.col_num_ = 0 → left ≤ i ∧ i ≤ right) →
      ((lower_bound_loop h nd target fuel left right = nd.page_hdr.num_key ∧
          ∀ i, 0 ≤ i → i < nd.page_hdr.num_key →
            ix_compare target (nd.keys i) h.col_num_ ≠ 0) ∨
        (0 ≤ lower_bound_loop h nd target fuel left right ∧
          lower_bound_loop h nd target fuel left right < nd.page_hdr.num_key ∧
          ix_compare target (nd.keys (lower_bound_loop h nd target fuel left right))
            h.col_num_ = 0)) := by
  intro fuel
  induction fuel with
  | zero =>
    intro left right _ _ hf hinv
    left
    refine ⟨rfl, fun i hi0 hin hc => ?_⟩
    have := hinv i hi0 hin hc
    omega
  | succ fuel ih =>
    intro left right hl hr hf hinv
    unfold lower_bound_loop
    by_cases hlr : left ≤ right
    · have hmid : Int.tdiv (left + right) 2 = (left + right) / 2 :=
        Int.tdiv_eq_ediv (by omega) (by decide)
      simp only [hlr, if_true, hmid]
      have hm1 : left ≤ (left + right) / 2 := by omega
      have hm2 : (left + right) / 2 ≤ right := by omega
      by_cases hc0 : ix_compare target (nd.keys ((left + right) / 2)) h.col_num_ = 0
      · simp only [hc0, if_true]
        by_cases hmn : (left + right) / 2 < nd.page_hdr.num_key
        · right; exact ⟨by omega, hmn, trivial⟩
        · left
          refine ⟨by omega, fun i hi0 hin hc => ?_⟩
          have := hinv i hi0 hin hc
          omega
      · simp only [hc0, if_false]
        by_cases hcn : ix_compare target (nd.keys ((left + right) / 2)) h.col_num_ < 0
        · simp only [hcn, if_true]
          apply ih left ((left + right) / 2 - 1) hl (by omega) (by omega)
          intro i hi0 hin hc
          have hb := hinv i hi0 hin hc
          refine ⟨hb.1, ?_⟩
          by_contra hgt
          have hge : (left + right) / 2 ≤ i := by omega
          rcases eq_or_lt_of_le hge with he | hlt
          · rw [← he] at hc; exact hc0 hc
          · have hlt2 := hs _ _ (by omega) hlt hin
            have := ix_compare_lt_trans hcn hlt2
            omega
        · simp only [hcn, if_false]
          have hcp : 0 < ix_compare target (nd.keys ((left + right) / 2)) h.col_num_ := by
            omega
          apply ih ((left + right) / 2 + 1) right (by omega) hr (by omega)
          intro i hi0 hin hc
          have hb := hinv i hi0 hin hc
          refine ⟨?_, hb.2⟩
          by_contra hgt
          have hle : i ≤ (left + right) / 2 := by omega
          rcases eq_or_lt_of_le hle with he | hlt
          · rw [he] at hc; exact hc0 hc
          · by_cases hmn : (left + right) / 2 < nd.page_hdr.num_key
            · have hlt2 := hs _ _ hi0 hlt hmn
              have := ix_compare_eq_lt hc hlt2
              omega
            · omega
    · simp only [hlr, if_false]
      left
      refine ⟨trivial, fun i hi0 hin hc => ?_⟩
      have := hinv i hi0 hin hc
      omega

theorem lower_bound_spec (h : IxFileHdr) (nd : IxPage) (target : Key) (hs : StrictAsc h nd) :
    (lower_bound h nd target = nd.page_hdr.num_key ∧
        ∀ i, 0 ≤ i → i < nd.page_hdr.num_key →
          ix_compare target (nd.keys i) h.col_num_ ≠ 0) ∨
      (0 ≤ lower_bound h nd target ∧ lower_bound h nd target < nd.page_hdr.num_key ∧
        ix_compare target (nd.keys (lower_bound h nd target)) h.col_num_ = 0) := by
  unfold lower_bound
  apply lower_bound_loop_spec h nd target hs _ 0 _ le_rfl le_rfl (by omega)
  intro i hi0 hin _
  exact ⟨hi0, le_of_lt hin⟩

/-- On strictly ascending keys at most one slot holds a key equal to `k`. -/
theorem StrictAsc.unique {h : IxFileHdr} {nd : IxPage} (hs : StrictAsc h nd) {k : Key}
    {i j : Int} (hi0 : 0 ≤ i) (hin : i < nd.page_hdr.num_key) (hj0 : 0 ≤ j)
    (hjn : j < nd.page_hdr.num_key) (hi : ix_compare k (nd.keys i) h.col_num_ = 0)
    (hj : ix_compare k (nd.keys j) h.col_num_ = 0) : i = j := by
  rcases lt_trichotomy i j with hlt | heq | hgt
  · have h1 := ix_compare_eq_lt hi (hs i j hi0 hlt hjn)
    omega
  · exact heq
  · have h1 := ix_compare_eq_lt hj (hs j i hj0 hgt hin)
    omega

/-! ## B+-tree index: lemmas on pages and on split -/

@[simp] theorem setPage_file_hdr (t : IxIndexHandle) (p : Int) (nd : IxPage) :
    (t.setPage p nd).file_hdr_ = t.file_hdr_ := rfl

@[simp] theorem setPage_same (t : IxIndexHandle) (p : Int) (nd : IxPage) :
    (t.setPage p nd).pages p = nd := by
  simp [IxIndexHandle.setPage]

theorem setPage_ne (t : IxIndexHandle) {p q : Int} (nd : IxPage) (h : q ≠ p) :
    (t.setPage p nd).pages q = t.pages q := by
  simp [IxIndexHandle.setPage, Function.update_noteq h]

theorem setPage_pages (t : IxIndexHandle) (p q : Int) (nd : IxPage) :
    (t.setPage p nd).pages q = if q = p then nd else t.pages q := by
  by_cases h : q = p
  · subst h; simp
  · simp [h, setPage_ne t nd h]

theorem insert_pair_eq (h : IxFileHdr) (nd : IxPage) (pos : Int) (key : Key) (rid : Rid)
    (hp : 0 ≤ pos) (hpn : pos ≤ nd.page_hdr.num_key) (hcap : pos + 1 ≤ get_max_size h) :
    insert_pair h nd pos key rid = some
      { page_hdr := { nd.page_hdr with num_key := nd.page_hdr.num_key + 1 }
        keys := fun i =>
          if i = pos then key
          else if pos < i ∧ i ≤ nd.page_hdr.num_key then nd.keys (i - 1) else nd.keys i
        rids := fun i =>
          if i = pos then rid
          else if pos < i ∧ i ≤ nd.page_hdr.num_key then nd.rids (i - 1) else nd.rids i } := by
  unfold insert_pair insert_pairs
  have h1 : ¬ (pos < 0 ∨ pos + 1 > get_max_size h) := by omega
  have h2 : ¬ (nd.page_hdr.num_key - pos < 0) := by omega
  have e1 : ∀ i : Int, (pos ≤ i ∧ i < pos + 1) ↔ i = pos := by intro i; omega
  have e2 : ∀ i : Int, (pos + 1 ≤ i ∧ i < pos + 1 + (nd.page_hdr.num_key - pos)) ↔
      (pos < i ∧ i ≤ nd.page_hdr.num_key) := by intro i; omega
  simp only [h1, h2, if_false, e1, e2]

theorem insert_pair_spec (h : IxFileHdr) (nd : IxPage) (pos : Int) (key : Key) (rid : Rid)
    (hp : 0 ≤ pos) (hpn : pos ≤ nd.page_hdr.num_key) (hcap : pos + 1 ≤ get_max_size h) :
    ∃ pg, insert_pair h nd pos key rid = some pg ∧
      pg.page_hdr = { nd.page_hdr with num_key := nd.page_hdr.num_key + 1 } ∧
      (∀ i, pg.keys i =
        if i = pos then key
        else if pos < i ∧ i ≤ nd.page_hdr.num_key then nd.keys (i - 1) else nd.keys i) ∧
      (∀ i, pg.rids i =
        if i = pos then rid
        else if pos < i ∧ i ≤ nd.page_hdr.num_key then nd.rids (i - 1) else nd.rids i) :=
  ⟨_, insert_pair_eq h nd pos key rid hp hpn hcap, rfl, fun _ => rfl, fun _ => rfl⟩

theorem split_copy_eq (node new_node mid : Int) (hne : node ≠ new_node) :
    ∀ (cnt : Nat) (t : IxIndexHandle) (done : Int), 0 ≤ done →
      (t.pages new_node).page_hdr.num_key = done →
      done + cnt ≤ get_max_size t.file_hdr_ →
      ∃ t1, split_copy t node new_node mid cnt done = some t1 ∧
        t1.file_hdr_ = t.file_hdr_ ∧ t1.next_page_no = t.next_page_no ∧
        (∀ p, p ≠ new_node → t1.pages p = t.pages p) ∧
        (t1.pages new_node).page_hdr =
          { (t.pages new_node).page_hdr with num_key := done + cnt } ∧
        (∀ i, (t1.pages new_node).keys i =
          if done ≤ i ∧ i < done + cnt then (t.pages node).keys (mid + i)
          else (t.pages new_node).keys i) ∧
        (∀ i, (t1.pages new_node).rids i =
          if done ≤ i ∧ i < done + cnt then (t.pages node).rids (mid + i)
          else (t.pages new_node).rids i) := by
  intro cnt
  induction cnt with
  | zero =>
    intro t done _ hnum _
    refine ⟨t, rfl, rfl, rfl, fun _ _ => rfl, ?_, ?_, ?_⟩
    · simp [← hnum]
    · intro i
      have : ¬ (done ≤ i ∧ i < done + ((0 : Nat) : Int)) := by omega
      simp only [this, if_false]
    · intro i
      have : ¬ (done ≤ i ∧ i < done + ((0 : Nat) : Int)) := by omega
      simp only [this, if_false]
  | succ cnt ih =>
    intro t done hd hnum hcap
    have hcap1 : done + 1 ≤ get_max_size t.file_hdr_ := by push_cast at hcap; omega
    obtain ⟨pg, hins, hph, hpk, hpr⟩ := insert_pair_spec t.file_hdr_ (t.pages new_node) done
      ((t.pages node).keys (mid + done)) ((t.pages node).rids (mid + done)) hd
      (by omega) hcap1
    unfold split_copy
    rw [hins]
    simp only
    obtain ⟨t1, h1, hf, hn, hp, hh, hk, hr⟩ := ih (t.setPage new_node pg) (done + 1) (by omega)
      (by simp [hph, hnum]) (by simp only [setPage_file_hdr]; push_cast at hcap; omega)
    refine ⟨t1, h1, by simpa using hf, by simpa using hn, ?_, ?_, ?_, ?_⟩
    · intro p hpne
      rw [hp p hpne, setPage_ne _ _ hpne]
    · rw [hh]
      simp only [setPage_same, hph, hnum]
      push_cast
      congr 1
      omega
    · intro i
      rw [hk i]
      simp only [setPage_same, setPage_ne _ _ hne, hpk, hnum]
      push_cast
      by_cases hi : i = done
      · subst hi
        have a1 : ¬ (i + 1 ≤ i ∧ i < i + 1 + (cnt : Int)) := by omega
        have a2 : (i ≤ i ∧ i < i + ((cnt : Int) + 1)) := by omega
        simp only [a1, a2, and_self, if_false, if_true]
      · have a3 : ¬ (done < i ∧ i ≤ done) := by omega
        have a4 : (done + 1 ≤ i ∧ i < done + 1 + (cnt : Int)) ↔
            (done ≤ i ∧ i < done + ((cnt : Int) + 1)) := by omega
        simp only [hi, a3, a4, if_false]
    · intro i
      rw [hr i]
      simp only [setPage_same, setPage_ne _ _ hne, hpr, hnum]
      push_cast
      by_cases hi : i = done
      · subst hi
        have a1 : ¬ (i + 1 ≤ i ∧ i < i + 1 + (cnt : Int)) := by omega
        have a2 : (i ≤ i ∧ i < i + ((cnt : Int) + 1)) := by omega
        simp only [a1, a2, and_self, if_false, if_true]
      · have a3 : ¬ (done < i ∧ i ≤ done) := by omega
        have a4 : (done + 1 ≤ i ∧ i < done + 1 + (cnt : Int)) ↔
            (done ≤ i ∧ i < done + ((cnt : Int) + 1)) := by omega
        simp only [hi, a3, a4, if_false]

theorem setHdr_pages (t : IxIndexHandle) (p q : Int) (h : IxPageHdr) :
    (t.setHdr p h).pages q = if q = p then { t.pages p with page_hdr := h } else t.pages q := by
  unfold IxIndexHandle.setHdr
  rw [setPage_pages]

@[simp] theorem setHdr_file_hdr (t : IxIndexHandle) (p : Int) (h : IxPageHdr) :
    (t.setHdr p h).file_hdr_ = t.file_hdr_ := rfl

@[simp] theorem setHdr_next (t : IxIndexHandle) (p : Int) (h : IxPageHdr) :
    (t.setHdr p h).next_page_no = t.next_page_no := rfl

theorem SameButParent.refl (t : IxIndexHandle) : SameButParent t t :=
  ⟨rfl, rfl, fun _ => ⟨rfl, rfl, rfl⟩⟩

theorem SameButParent.trans {a b c : IxIndexHandle} (h1 : SameButParent a b)
    (h2 : SameButParent b c) : SameButParent a c := by
  refine ⟨h2.1.trans h1.1, h2.2.1.trans h1.2.1, fun p => ?_⟩
  obtain ⟨k1, r1, e1⟩ := h1.2.2 p
  obtain ⟨k2, r2, e2⟩ := h2.2.2 p
  refine ⟨k2.trans k1, r2.trans r1, ?_⟩
  rw [e2, e1]

theorem SameButParent.is_leaf {a b : IxIndexHandle} (h : SameButParent a b) (p : Int) :
    (b.pages p).page_hdr.is_leaf = (a.pages p).page_hdr.is_leaf := by
  rw [(h.2.2 p).2.2]

theorem SameButParent.num_key {a b : IxIndexHandle} (h : SameButParent a b) (p : Int) :
    (b.pages p).page_hdr.num_key = (a.pages p).page_hdr.num_key := by
  rw [(h.2.2 p).2.2]

theorem SameButParent.rids {a b : IxIndexHandle} (h : SameButParent a b) (p : Int) :
    (b.pages p).rids = (a.pages p).rids := (h.2.2 p).2.1

theorem SameButParent.keys {a b : IxIndexHandle} (h : SameButParent a b) (p : Int) :
    (b.pages p).keys = (a.pages p).keys := (h.2.2 p).1

theorem set_parent_sameButParent (t : IxIndexHandle) (p v : Int) :
    SameButParent t (t.set_parent_page_no p v) := by
  refine ⟨rfl, rfl, fun q => ?_⟩
  unfold IxIndexHandle.set_parent_page_no
  rw [setHdr_pages]
  by_cases h : q = p
  · subst h; simp
  · simp [h]

theorem set_parent_parent (t : IxIndexHandle) (p v q : Int) :
    ((t.set_parent_page_no p v).pages q).page_hdr.parent =
      if q = p then v else (t.pages q).page_hdr.parent := by
  unfold IxIndexHandle.set_parent_page_no
  rw [setHdr_pages]
  by_cases h : q = p
  · subst h; simp
  · simp [h]

theorem maintain_children_spec (node : Int) :
    ∀ (cnt : Nat) (t : IxIndexHandle) (lo : Int),
      (t.pages node).page_hdr.is_leaf = false →
      (∀ i, lo ≤ i → i < lo + cnt →
        0 ≤ ((t.pages node).rids i).page_no ∧
          ((t.pages node).rids i).page_no < t.next_page_no) →
      ∃ t1, maintain_children t node lo cnt = some t1 ∧ SameButParent t t1 ∧
        (∀ p, (∃ i, lo ≤ i ∧ i < lo + cnt ∧ ((t.pages node).rids i).page_no = p) →
          (t1.pages p).page_hdr.parent = node) ∧
        (∀ p, (∀ i, lo ≤ i → i < lo + cnt → ((t.pages node).rids i).page_no ≠ p) →
          (t1.pages p).page_hdr.parent = (t.pages p).page_hdr.parent) := by
  intro cnt
  induction cnt with
  | zero =>
    intro t lo _ _
    refine ⟨t, rfl, SameButParent.refl t, ?_, fun _ _ => rfl⟩
    rintro p ⟨i, h1, h2, -⟩
    exfalso
    push_cast at h2
    omega
  | succ cnt ih =>
    intro t lo hleaf hch
    have hc := hch lo le_rfl (by push_cast; omega)
    have hfetch : fetch_node t ((t.pages node).rids lo).page_no =
        some ((t.pages node).rids lo).page_no := by
      unfold fetch_node
      rw [if_pos hc]
    have hsb := set_parent_sameButParent t ((t.pages node).rids lo).page_no node
    have hmc : maintain_child t node lo =
        some (t.set_parent_page_no ((t.pages node).rids lo).page_no node) := by
      unfold maintain_child
      simp only [hleaf, Bool.false_eq_true, not_false_eq_true, if_true, hfetch]
    obtain ⟨t1, h1, hs1, hin, hout⟩ :=
      ih (t.set_parent_page_no ((t.pages node).rids lo).page_no node) (lo + 1)
        (by rw [hsb.is_leaf]; exact hleaf)
        (by
          intro i hi1 hi2
          rw [hsb.rids, hsb.2.1]
          exact hch i (by omega) (by push_cast; omega))
    refine ⟨t1, ?_, hsb.trans hs1, ?_, ?_⟩
    · unfold maintain_children
      rw [hmc]
      exact h1
    · rintro p ⟨i, hi1, hi2, hi3⟩
      by_cases hex : ∃ j, lo + 1 ≤ j ∧ j < lo + 1 + (cnt : Int) ∧
          ((t.pages node).rids j).page_no = p
      · apply hin
        obtain ⟨j, hj1, hj2, hj3⟩ := hex
        exact ⟨j, hj1, hj2, by rw [hsb.rids]; exact hj3⟩
      · rw [hout]
        · rw [set_parent_parent]
          have : i = lo := by
            by_contra hne
            exact hex ⟨i, by omega, by push_cast at hi2; omega, hi3⟩
          subst this
          simp [hi3]
        · intro j hj1 hj2 hj3
          rw [hsb.rids] at hj3
          exact hex ⟨j, hj1, hj2, hj3⟩
    · intro p hp
      rw [hout]
      · rw [set_parent_parent]
        have := hp lo le_rfl (by push_cast; omega)
        simp [Ne.symm this]
      · intro j hj1 hj2
        rw [hsb.rids]
        exact hp j (by omega) (by push_cast; omega)

theorem split_unfold (t : IxIndexHandle) (node : Int) :
    split t node =
      match split_copy (split_fresh t node) node t.next_page_no
          (Int.tdiv (t.pages node).page_hdr.num_key 2)
          ((t.pages node).page_hdr.num_key - Int.tdiv (t.pages node).page_hdr.num_key 2).toNat
          0 with
      | none => none
      | some t3 =>
        let t4 := t3.set_size node (Int.tdiv (t.pages node).page_hdr.num_key 2)
        let t5 := t4.set_parent_page_no t.next_page_no (t4.pages node).page_hdr.parent
        if (t5.pages t.next_page_no).page_hdr.is_leaf = true then
          let t6 := t5.set_prev_leaf t.next_page_no node
          let t7 := t6.set_next_leaf t.next_page_no (t6.pages node).page_hdr.next_leaf
          some (t7.set_next_leaf node t.next_page_no, t.next_page_no)
        else
          match maintain_children t5 t.next_page_no 0
              ((t5.pages t.next_page_no).page_hdr.num_key + 1).toNat with
          | none => none
          | some t6 => some (t6, t.next_page_no) := rfl

theorem split_fresh_file_hdr (t : IxIndexHandle) (node : Int) :
    (split_fresh t node).file_hdr_ =
      { t.file_hdr_ with num_pages_ := t.file_hdr_.num_pages_ + 1 } := by
  unfold split_fresh create_node
  split <;> rfl

theorem split_fresh_next (t : IxIndexHandle) (node : Int) :
    (split_fresh t node).next_page_no = t.next_page_no + 1 := by
  unfold split_fresh create_node
  split <;> rfl

theorem split_fresh_pages_ne (t : IxIndexHandle) (node p : Int) (hp : p ≠ t.next_page_no) :
    (split_fresh t node).pages p = t.pages p := by
  unfold split_fresh create_node
  split
  · rw [setHdr_pages]; simp [hp]
  · simp [hp]

theorem split_fresh_pages_new (t : IxIndexHandle) (node : Int) (hn : node ≠ t.next_page_no) :
    (split_fresh t node).pages t.next_page_no =
      { zeroNode with
        page_hdr := { zeroNode.page_hdr with is_leaf := (t.pages node).page_hdr.is_leaf } } := by
  unfold split_fresh create_node
  simp only [Function.update_noteq hn]
  by_cases hl : (t.pages node).page_hdr.is_leaf = true
  · rw [if_pos hl, setHdr_pages]
    simp [hl]
  · rw [if_neg hl]
    simp only [Bool.not_eq_true] at hl
    simp [hl, zeroNode]

theorem set_hdr_family_pages (t : IxIndexHandle) (p q : Int) (h : IxPageHdr) :
    ((t.setHdr p h).pages q).keys = (t.pages q).keys ∧
      ((t.setHdr p h).pages q).rids = (t.pages q).rids := by
  rw [setHdr_pages]
  by_cases hq : q = p
  · subst hq; simp
  · simp [hq]

theorem split_spec (t : IxIndexHandle) (node : Int)
    (h0 : 0 ≤ (t.pages node).page_hdr.num_key)
    (hcap : (t.pages node).page_hdr.num_key ≤ 2 * get_max_size t.file_hdr_)
    (hnode : 0 ≤ node ∧ node < t.next_page_no)
    (hch : (t.pages node).page_hdr.is_leaf = false →
      ∀ i, (t.pages node).page_hdr.num_key / 2 ≤ i → i < (t.pages node).page_hdr.num_key →
        0 ≤ ((t.pages node).rids i).page_no ∧
          ((t.pages node).rids i).page_no < t.next_page_no) :
    ∃ t1, split t node = some (t1, t.next_page_no) ∧
      t1.next_page_no = t.next_page_no + 1 ∧
      t1.file_hdr_ = { t.file_hdr_ with num_pages_ := t.file_hdr_.num_pages_ + 1 } ∧
      (∀ p, p ≠ t.next_page_no →
        (t1.pages p).keys = (t.pages p).keys ∧ (t1.pages p).rids = (t.pages p).rids ∧
          (t1.pages p).page_hdr.is_leaf = (t.pages p).page_hdr.is_leaf) ∧
      (∀ p, p ≠ t.next_page_no → p ≠ node →
        (t1.pages p).page_hdr.num_key = (t.pages p).page_hdr.num_key) ∧
      (t1.pages node).page_hdr.num_key = (t.pages node).page_hdr.num_key / 2 ∧
      (t1.pages t.next_page_no).page_hdr.num_key =
        (t.pages node).page_hdr.num_key - (t.pages node).page_hdr.num_key / 2 ∧
      (t1.pages t.next_page_no).page_hdr.is_leaf = (t.pages node).page_hdr.is_leaf ∧
      (∀ j, 0 ≤ j →
        j < (t.pages node).page_hdr.num_key - (t.pages node).page_hdr.num_key / 2 →
        (t1.pages t.next_page_no).keys j =
            (t.pages node).keys ((t.pages node).page_hdr.num_key / 2 + j) ∧
          (t1.pages t.next_page_no).rids j =
            (t.pages node).rids ((t.pages node).page_hdr.num_key / 2 + j)) ∧
      (t1.pages t.next_page_no).page_hdr.parent = (t.pages node).page_hdr.parent ∧
      (∀ p, p ≠ t.next_page_no →
        (t1.pages p).page_hdr.parent = (t.pages p).page_hdr.parent ∨
          ((t.pages node).page_hdr.is_leaf = false ∧
            (t1.pages p).page_hdr.parent = t.next_page_no ∧
            (p = 0 ∨ ∃ i, (t.pages node).page_hdr.num_key / 2 ≤ i ∧
              i < (t.pages node).page_hdr.num_key ∧ ((t.pages node).rids i).page_no = p))) := by
  have hne : node ≠ t.next_page_no := by omega
  have hm : Int.tdiv (t.pages node).page_hdr.num_key 2 = (t.pages node).page_hdr.num_key / 2 :=
    Int.tdiv_eq_ediv h0 (by decide)
  have hcnt : (((t.pages node).page_hdr.num_key -
      (t.pages node).page_hdr.num_key / 2).toNat : Int) =
      (t.pages node).page_hdr.num_key - (t.pages node).page_hdr.num_key / 2 :=
    Int.toNat_of_nonneg (by omega)
  obtain ⟨t3, h3, hf3, hn3, hp3, hh3, hk3, hr3⟩ :=
    split_copy_eq node t.next_page_no ((t.pages node).page_hdr.num_key / 2) hne
      ((t.pages node).page_hdr.num_key - (t.pages node).page_hdr.num_key / 2).toNat
      (split_fresh t node) 0 le_rfl
      (by rw [split_fresh_pages_new t node hne]; rfl)
      (by
        rw [split_fresh_file_hdr, hcnt]
        unfold get_max_size at hcap ⊢
        simp only
        omega)
  rw [hcnt] at hh3 hk3 hr3
  rw [split_fresh_pages_new t node hne] at hh3 hk3 hr3
  simp only [zero_add, split_fresh_pages_ne t node node hne] at hh3 hk3 hr3
  have hnode3 : t3.pages node = t.pages node := by
    rw [hp3 node hne, split_fresh_pages_ne t node node hne]
  have hoth3 : ∀ p, p ≠ t.next_page_no → t3.pages p = t.pages p := by
    intro p hp
    rw [hp3 p hp, split_fresh_pages_ne t node p hp]
  rw [split_unfold, hm, h3]
  simp only
  set t5 := (t3.set_size node ((t.pages node).page_hdr.num_key / 2)).set_parent_page_no
      t.next_page_no
      (((t3.set_size node ((t.pages node).page_hdr.num_key / 2)).pages node).page_hdr.parent)
    with ht5
  have f_next : t5.next_page_no = t.next_page_no + 1 := by
    simp [ht5, IxIndexHandle.set_size, IxIndexHandle.set_parent_page_no, hn3, split_fresh_next]
  have f_hdr : t5.file_hdr_ =
      { t.file_hdr_ with num_pages_ := t.file_hdr_.num_pages_ + 1 } := by
    simp [ht5, IxIndexHandle.set_size, IxIndexHandle.set_parent_page_no, hf3,
      split_fresh_file_hdr]
  have f_node : t5.pages node = { t.pages node with
      page_hdr := { (t.pages node).page_hdr with
        num_key := (t.pages node).page_hdr.num_key / 2 } } := by
    simp [ht5, IxIndexHandle.set_size, IxIndexHandle.set_parent_page_no, setHdr_pages, hne,
      hnode3]
  have f_new_hdr : (t5.pages t.next_page_no).page_hdr =
      { parent := (t.pages node).page_hdr.parent
        num_key := (t.pages node).page_hdr.num_key - (t.pages node).page_hdr.num_key / 2
        is_leaf := (t.pages node).page_hdr.is_leaf
        prev_leaf := 0
        next_leaf := 0 } := by
    simp [ht5, IxIndexHandle.set_size, IxIndexHandle.set_parent_page_no, setHdr_pages, hne,
      Ne.symm hne, hnode3, hh3, zeroNode]
  have f_new_keys : (t5.pages t.next_page_no).keys = (t3.pages t.next_page_no).keys := by
    simp [ht5, IxIndexHandle.set_size, IxIndexHandle.set_parent_page_no, setHdr_pages,
      Ne.symm hne]
  have f_new_rids : (t5.pages t.next_page_no).rids = (t3.pages t.next_page_no).rids := by
    simp [ht5, IxIndexHandle.set_size, IxIndexHandle.set_parent_page_no, setHdr_pages,
      Ne.symm hne]
  have f_oth : ∀ p, p ≠ t.next_page_no → p ≠ node → t5.pages p = t.pages p := by
    intro p hp hpn
    simp [ht5, IxIndexHandle.set_size, IxIndexHandle.set_parent_page_no, setHdr_pages, hp,
      hpn, hoth3 p hp]
  have hentries : ∀ j, 0 ≤ j →
      j < (t.pages node).page_hdr.num_key - (t.pages node).page_hdr.num_key / 2 →
      (t5.pages t.next_page_no).keys j =
          (t.pages node).keys ((t.pages node).page_hdr.num_key / 2 + j) ∧
        (t5.pages t.next_page_no).rids j =
          (t.pages node).rids ((t.pages node).page_hdr.num_key / 2 + j) := by
    intro j hj0 hj1
    rw [f_new_keys, f_new_rids, hk3, hr3]
    simp [hj0, hj1]
  rw [f_new_hdr]
  simp only
  by_cases hl : (t.pages node).page_hdr.is_leaf = true
  · rw [if_pos hl]
    refine ⟨_, rfl, ?_, ?_, ?_, ?_, ?_, ?_, ?_, ?_, ?_, ?_⟩
    · simp [IxIndexHandle.set_prev_leaf, IxIndexHandle.set_next_leaf, f_next]
    · simp [IxIndexHandle.set_prev_leaf, IxIndexHandle.set_next_leaf, f_hdr]
    · intro p hp
      by_cases hpn : p = node
      · subst hpn
        simp [IxIndexHandle.set_prev_leaf, IxIndexHandle.set_next_leaf, setHdr_pages, hp,
          f_node]
      · simp [IxIndexHandle.set_prev_leaf, IxIndexHandle.set_next_leaf, setHdr_pages, hp, hpn,
          f_oth p hp hpn]
    · intro p hp hpn
      simp [IxIndexHandle.set_prev_leaf, IxIndexHandle.set_next_leaf, setHdr_pages, hp, hpn,
        f_oth p hp hpn]
    · simp [IxIndexHandle.set_prev_leaf, IxIndexHandle.set_next_leaf, setHdr_pages, hne,
        f_node]
    · simp [IxIndexHandle.set_prev_leaf, IxIndexHandle.set_next_leaf, setHdr_pages,
        Ne.symm hne, f_new_hdr]
    · simp [IxIndexHandle.set_prev_leaf, IxIndexHandle.set_next_leaf, setHdr_pages,
        Ne.symm hne, f_new_hdr]
    · intro j hj0 hj1
      have := hentries j hj0 hj1
      simpa [IxIndexHandle.set_prev_leaf, IxIndexHandle.set_next_leaf, setHdr_pages,
        Ne.symm hne] using this
    · simp [IxIndexHandle.set_prev_leaf, IxIndexHandle.set_next_leaf, setHdr_pages,
        Ne.symm hne, f_new_hdr]
    · intro p hp
      left
      by_cases hpn : p = node
      · subst hpn
        simp [IxIndexHandle.set_prev_leaf, IxIndexHandle.set_next_leaf, setHdr_pages, hp,
          f_node]
      · simp [IxIndexHandle.set_prev_leaf, IxIndexHandle.set_next_leaf, setHdr_pages, hp, hpn,
          f_oth p hp hpn]
  · rw [if_neg hl]
    simp only [Bool.not_eq_true] at hl
    have hcnt1 : ((((t.pages node).page_hdr.num_key -
        (t.pages node).page_hdr.num_key / 2) + 1).toNat : Int) =
        (t.pages node).page_hdr.num_key - (t.pages node).page_hdr.num_key / 2 + 1 :=
      Int.toNat_of_nonneg (by omega)
    have hchild : ∀ i, ((t5.pages t.next_page_no).rids i).page_no =
        if 0 ≤ i ∧ i < (t.pages node).page_hdr.num_key -
            (t.pages node).page_hdr.num_key / 2 then
          ((t.pages node).rids ((t.pages node).page_hdr.num_key / 2 + i)).page_no
        else 0 := by
      intro i
      rw [f_new_rids, hr3]
      split <;> rfl
    obtain ⟨t6, h6, hs6, hin6, hout6⟩ := maintain_children_spec t.next_page_no
      (((t.pages node).page_hdr.num_key - (t.pages node).page_hdr.num_key / 2) + 1).toNat
      t5 0 (by rw [f_new_hdr]; exact hl)
      (by
        intro i hi0 hi1
        rw [hchild, f_next]
        split
        · rename_i hi
          have := hch hl ((t.pages node).page_hdr.num_key / 2 + i) (by omega) (by omega)
          omega
        · omega)
    rw [h6]
    simp only
    have hnew_out : ∀ i, 0 ≤ i →
        i < 0 + ((((t.pages node).page_hdr.num_key -
          (t.pages node).page_hdr.num_key / 2) + 1).toNat : Int) →
        ((t5.pages t.next_page_no).rids i).page_no ≠ t.next_page_no := by
      intro i hi0 hi1
      rw [hchild]
      split
      · rename_i hi
        have := hch hl ((t.pages node).page_hdr.num_key / 2 + i) (by omega) (by omega)
        omega
      · omega
    refine ⟨t6, rfl, ?_, ?_, ?_, ?_, ?_, ?_, ?_, ?_, ?_, ?_⟩
    · rw [hs6.2.1, f_next]
    · rw [hs6.1, f_hdr]
    · intro p hp
      rw [hs6.keys, hs6.rids, hs6.is_leaf]
      by_cases hpn : p = node
      · subst hpn; simp [f_node]
      · simp [f_oth p hp hpn]
    · intro p hp hpn
      rw [hs6.num_key, f_oth p hp hpn]
    · rw [hs6.num_key, f_node]
    · rw [hs6.num_key, f_new_hdr]
    · rw [hs6.is_leaf, f_new_hdr]
    · intro j hj0 hj1
      rw [hs6.keys, hs6.rids]
      exact hentries j hj0 hj1
    · rw [hout6 _ hnew_out, f_new_hdr]
    · intro p hp
      have hpar5 : (t5.pages p).page_hdr.parent = (t.pages p).page_hdr.parent := by
        by_cases hpn : p = node
        · subst hpn; simp [f_node]
        · rw [f_oth p hp hpn]
      by_cases hex : ∃ i, 0 ≤ i ∧
          i < 0 + ((((t.pages node).page_hdr.num_key -
            (t.pages node).page_hdr.num_key / 2) + 1).toNat : Int) ∧
          ((t5.pages t.next_page_no).rids i).page_no = p
      · right
        refine ⟨hl, hin6 p hex, ?_⟩
        obtain ⟨i, hi0, hi1, hi2⟩ := hex
        rw [hchild] at hi2
        split at hi2
        · right
          exact ⟨(t.pages node).page_hdr.num_key / 2 + i, by omega, by omega, hi2⟩
        · left; exact hi2.symm
      · left
        rw [hout6 p, hpar5]
        intro i hi0 hi1 hi2
        exact hex ⟨i, hi0, hi1, hi2⟩

theorem node_pairs_length (nd : IxPage) :
    (node_pairs nd).length = nd.page_hdr.num_key.toNat := by
  simp [node_pairs]

theorem node_pairs_getElem (nd : IxPage) (i : Nat) (h : i < (node_pairs nd).length) :
    (node_pairs nd)[i] = (nd.keys (Int.ofNat i), nd.rids (Int.ofNat i)) := by
  simp [node_pairs]

/-- A node that keeps the first `m` slots of another holds the first `m` of its
pairs. -/
theorem node_pairs_take (nd nd1 : IxPage) (m : Int)
    (hmn : m ≤ nd.page_hdr.num_key) (hnum : nd1.page_hdr.num_key = m)
    (hk : ∀ i, 0 ≤ i → i < m → nd1.keys i = nd.keys i ∧ nd1.rids i = nd.rids i) :
    node_pairs nd1 = (node_pairs nd).take m.toNat := by
  apply List.ext_getElem
  · rw [List.length_take, node_pairs_length, node_pairs_length, hnum]
    omega
  · intro i h1 h2
    rw [node_pairs_length, hnum] at h1
    rw [List.getElem_take, node_pairs_getElem, node_pairs_getElem]
    have := hk (Int.ofNat i) (by simp) (by simp only [Int.ofNat_eq_coe]; omega)
    rw [this.1, this.2]

/-- A node whose slots are the slots of another from `m` on holds its pairs from
the `m`-th on. -/
theorem node_pairs_drop (nd nd1 : IxPage) (m : Int) (hm0 : 0 ≤ m)
    (hmn : m ≤ nd.page_hdr.num_key) (hnum : nd1.page_hdr.num_key = nd.page_hdr.num_key - m)
    (hk : ∀ j, 0 ≤ j → j < nd.page_hdr.num_key - m →
      nd1.keys j = nd.keys (m + j) ∧ nd1.rids j = nd.rids (m + j)) :
    node_pairs nd1 = (node_pairs nd).drop m.toNat := by
  apply List.ext_getElem
  · rw [List.length_drop, node_pairs_length, node_pairs_length, hnum]
    omega
  · intro i h1 h2
    rw [node_pairs_length, hnum] at h1
    rw [List.getElem_drop, node_pairs_getElem, node_pairs_getElem]
    have := hk (Int.ofNat i) (by simp) (by simp only [Int.ofNat_eq_coe]; omega)
    rw [this.1, this.2]
    have e : m + Int.ofNat i = Int.ofNat (m.toNat + i) := by
      simp only [Int.ofNat_eq_coe]; omega
    rw [e]

/-! ## B+-tree index: the occupancy invariant under insert_entry -/

theorem insert_pair_not_none {h : IxFileHdr} {nd : IxPage} {pos : Int} {key : Key} {rid : Rid}
    (he : insert_pair h nd pos key rid = none)
    (hp : 0 ≤ pos) (hpn : pos ≤ nd.page_hdr.num_key) (hcap : pos + 1 ≤ get_max_size h) :
    False := by
  rw [insert_pair_eq h nd pos key rid hp hpn hcap] at he
  cases he

theorem insert_pair_some {h : IxFileHdr} {nd : IxPage} {pos : Int} {key : Key} {rid : Rid}
    {pg : IxPage} (he : insert_pair h nd pos key rid = some pg)
    (hp : 0 ≤ pos) (hpn : pos ≤ nd.page_hdr.num_key) (hcap : pos + 1 ≤ get_max_size h) :
    pg =
      { page_hdr := { nd.page_hdr with num_key := nd.page_hdr.num_key + 1 }
        keys := fun i =>
          if i = pos then key
          else if pos < i ∧ i ≤ nd.page_hdr.num_key then nd.keys (i - 1) else nd.keys i
        rids := fun i =>
          if i = pos then rid
          else if pos < i ∧ i ≤ nd.page_hdr.num_key then nd.rids (i - 1) else nd.rids i } := by
  rw [insert_pair_eq h nd pos key rid hp hpn hcap] at he
  exact (Option.some.inj he).symm

/-- The root branch of `insert_into_parent`: the call returns, and the state it
returns has the fresh page as root over the old root and its sibling. -/
theorem insert_into_parent_root_spec (fuel : Nat) (t : IxIndexHandle)
    (old_node new_node : Int) (key : Key)
    (hroot : is_root_page (t.pages old_node) = true)
    (hold : old_node < t.next_page_no) (hnew : new_node < t.next_page_no)
    (hM : 2 ≤ get_max_size t.file_hdr_) :
    ∃ t1, insert_into_parent (fuel + 1) t old_node key new_node = some t1 ∧
      t1.file_hdr_ = { t.file_hdr_ with
        num_pages_ := t.file_hdr_.num_pages_ + 1, root_page_ := t.next_page_no } ∧
      t1.next_page_no = t.next_page_no + 1 ∧
      (t1.pages t.next_page_no).page_hdr =
        { parent := INVALID_PAGE_ID, num_key := 2, is_leaf := false,
          prev_leaf := INVALID_PAGE_ID, next_leaf := INVALID_PAGE_ID } ∧
      (t1.pages t.next_page_no).keys 0 = (t.pages old_node).keys 0 ∧
      (t1.pages t.next_page_no).rids 0 = ⟨old_node, 0⟩ ∧
      (t1.pages t.next_page_no).keys 1 = (t.pages new_node).keys 0 ∧
      (t1.pages t.next_page_no).rids 1 = ⟨new_node, 0⟩ ∧
      (∀ p, p ≠ t.next_page_no →
        (t1.pages p).keys = (t.pages p).keys ∧ (t1.pages p).rids = (t.pages p).rids ∧
        (t1.pages p).page_hdr =
          { (t.pages p).page_hdr with
            parent := if p = old_node ∨ p = new_node then t.next_page_no
              else (t.pages p).page_hdr.parent }) := by
  have hoN : old_node ≠ t.next_page_no := by omega
  have hnN : new_node ≠ t.next_page_no := by omega
  have hM1 : (1 : Int) ≤ t.file_hdr_.btree_order_ := by
    simp only [get_max_size] at hM; omega
  have hM2 : (2 : Int) ≤ t.file_hdr_.btree_order_ := by
    simp only [get_max_size] at hM; omega
  cases he : insert_into_parent (fuel + 1) t old_node key new_node with
  | none =>
    exfalso
    rw [insert_into_parent, if_pos hroot] at he
    simp only [create_node] at he
    split at he
    · rename_i h1
      exact insert_pair_not_none h1 le_rfl
        (by simp only [Function.update_same]; exact le_rfl) hM1
    rename_i pg1 h1
    have e1 := insert_pair_some h1 le_rfl
      (by simp only [Function.update_same]; exact le_rfl) hM1
    split at he
    · rename_i h2
      refine insert_pair_not_none h2 (by decide) ?_ hM2
      rw [setPage_same, e1]
      simp [zeroNode]
    · cases he
  | some t1 =>
    refine ⟨t1, rfl, ?_⟩
    rw [insert_into_parent, if_pos hroot] at he
    simp only [create_node] at he
    split at he
    · cases he
    rename_i pg1 h1
    have e1 := insert_pair_some h1 le_rfl
      (by simp only [Function.update_same]; exact le_rfl) hM1
    simp only [Function.update_same, Function.update_noteq hoN] at e1
    split at he
    · cases he
    rename_i pg2 h2
    have e2 := insert_pair_some h2 (by decide)
      (by rw [setPage_same, e1]; simp [zeroNode]) hM2
    simp only [setPage_same, setPage_ne _ _ hnN, Function.update_noteq hnN] at e2
    simp only [Option.some.injEq] at he
    subst he
    have hIV : INVALID_PAGE_ID = -1 := rfl
    refine ⟨rfl, rfl, ?_, ?_, ?_, ?_, ?_, ?_⟩
    · simp [IxIndexHandle.set_parent_page_no, IxIndexHandle.set_next_leaf,
        IxIndexHandle.set_prev_leaf, setHdr_pages, Ne.symm hoN, Ne.symm hnN, e2, e1, zeroNode]
    · simp [IxIndexHandle.set_parent_page_no, IxIndexHandle.set_next_leaf,
        IxIndexHandle.set_prev_leaf, setHdr_pages, Ne.symm hoN, Ne.symm hnN, e2, e1, zeroNode]
    · simp [IxIndexHandle.set_parent_page_no, IxIndexHandle.set_next_leaf,
        IxIndexHandle.set_prev_leaf, setHdr_pages, Ne.symm hoN, Ne.symm hnN, e2, e1, zeroNode]
    · simp [IxIndexHandle.set_parent_page_no, IxIndexHandle.set_next_leaf,
        IxIndexHandle.set_prev_leaf, setHdr_pages, Ne.symm hoN, Ne.symm hnN, e2, e1, zeroNode]
    · simp [IxIndexHandle.set_parent_page_no, IxIndexHandle.set_next_leaf,
        IxIndexHandle.set_prev_leaf, setHdr_pages, Ne.symm hoN, Ne.symm hnN, e2, e1, zeroNode]
    · intro p hp
      have hu : Function.update t.pages t.next_page_no zeroNode p = t.pages p :=
        Function.update_noteq hp _ _
      by_cases hpo : p = old_node <;> by_cases hpn : p = new_node
      · subst hpo
        subst hpn
        simp [IxIndexHandle.set_parent_page_no, IxIndexHandle.set_next_leaf,
          IxIndexHandle.set_prev_leaf, setHdr_pages, setPage_pages, hp, hu]
      · subst hpo
        simp [IxIndexHandle.set_parent_page_no, IxIndexHandle.set_next_leaf,
          IxIndexHandle.set_prev_leaf, setHdr_pages, setPage_pages, hp, hu, hpn,
          Ne.symm hpn]
      · subst hpn
        simp [IxIndexHandle.set_parent_page_no, IxIndexHandle.set_next_leaf,
          IxIndexHandle.set_prev_leaf, setHdr_pages, setPage_pages, hp, hu, hpo,
          Ne.symm hpo]
      · simp [IxIndexHandle.set_parent_page_no, IxIndexHandle.set_next_leaf,
          IxIndexHandle.set_prev_leaf, setHdr_pages, setPage_pages, hp, hu, hpo, hpn]

theorem maintain_child_is_leaf {t t1 : IxIndexHandle} {node i : Int}
    (h : maintain_child t node i = some t1) (p : Int) :
    (t1.pages p).page_hdr.is_leaf = (t.pages p).page_hdr.is_leaf := by
  unfold maintain_child at h
  by_cases hl : (t.pages node).page_hdr.is_leaf = true
  · simp only [hl, not_true_eq_false, if_false] at h
    cases h
    rfl
  · cases hf : fetch_node t ((t.pages node).rids i).page_no with
    | none => simp [hl, hf] at h
    | some child =>
      simp [hl, hf] at h
      subst h
      have hs := (set_parent_sameButParent t child node).2.2 p
      rw [hs.2.2]

theorem maintain_children_is_leaf (node : Int) :
    ∀ (cnt : Nat) (t t1 : IxIndexHandle) (lo : Int),
      maintain_children t node lo cnt = some t1 →
      ∀ p, (t1.pages p).page_hdr.is_leaf = (t.pages p).page_hdr.is_leaf := by
  intro cnt
  induction cnt with
  | zero =>
    intro t t1 lo h p
    simp only [maintain_children, Option.some.injEq] at h
    subst h
    rfl
  | succ cnt ih =>
    intro t t1 lo h p
    simp only [maintain_children] at h
    cases hm : maintain_child t node lo with
    | none => simp [hm] at h
    | some t2 =>
      simp only [hm] at h
      rw [ih t2 t1 (lo + 1) h p, maintain_child_is_leaf hm p]

theorem insert_pairs_is_leaf {h : IxFileHdr} {nd pg : IxPage} {pos n : Int}
    {key : Int → Key} {rid : Int → Rid}
    (he : insert_pairs h nd pos key rid n = some pg) :
    pg.page_hdr.is_leaf = nd.page_hdr.is_leaf := by
  unfold insert_pairs at he
  split at he
  · cases he; rfl
  · simp only at he
    split at he
    · exact absurd he (by simp)
    · cases he; rfl

/-- The `erase_leaf` call of `coalesce` fails its assertion when both
participants are internal nodes. -/
theorem coalesce_internal_none (recurse : IxIndexHandle → Int → Option (IxIndexHandle × Bool))
    (t : IxIndexHandle) (neighbor_node node parent : Int) (index : Int)
    (hn : (t.pages node).page_hdr.is_leaf = false)
    (hb : (t.pages neighbor_node).page_hdr.is_leaf = false) :
    coalesce recurse t neighbor_node node parent index = none := by
  have key : ∀ (nb nd : Int) (ix : Int),
      (t.pages nd).page_hdr.is_leaf = false → (t.pages nb).page_hdr.is_leaf = false →
      (match insert_pairs t.file_hdr_ (t.pages nb) (t.pages nb).page_hdr.num_key
          (fun i => (t.pages nd).keys i) (fun i => (t.pages nd).rids i)
          (t.pages nd).page_hdr.num_key with
        | none => none
        | some pg =>
          match maintain_children (t.setPage nb pg) nb (t.pages nb).page_hdr.num_key
              (((t.setPage nb pg).pages nd).page_hdr.num_key.toNat) with
          | none => none
          | some t3 =>
            match erase_leaf t3 nd with
            | none => none
            | some t4 =>
              recurse ((release_node_handle t4).setPage parent
                (erase_pair ((release_node_handle t4).pages parent) ix)) parent) = none := by
    intro nb nd ix hnd hnb
    cases hip : insert_pairs t.file_hdr_ (t.pages nb) (t.pages nb).page_hdr.num_key
        (fun i => (t.pages nd).keys i) (fun i => (t.pages nd).rids i)
        (t.pages nd).page_hdr.num_key with
    | none => rfl
    | some pg =>
      simp only
      cases hmc : maintain_children (t.setPage nb pg) nb (t.pages nb).page_hdr.num_key
          (((t.setPage nb pg).pages nd).page_hdr.num_key.toNat) with
      | none => rfl
      | some t3 =>
        simp only
        have h3 : (t3.pages nd).page_hdr.is_leaf = false := by
          rw [maintain_children_is_leaf nb _ _ _ _ hmc nd, setPage_pages]
          split
          · rw [insert_pairs_is_leaf hip]; exact hnb
          · exact hnd
        have : erase_leaf t3 nd = none := by
          unfold erase_leaf
          simp [h3]
        rw [this]
  unfold coalesce
  by_cases hi : index = 0
  · simp only [hi, if_true, hb, Bool.false_eq_true, false_and, if_false]
    exact key node neighbor_node (0 + 1) hb hn
  · simp only [hi, if_false, hn, Bool.false_eq_true, false_and]
    exact key neighbor_node node index hn hb

/-- The fetch of the `next_leaf` or `prev_leaf` neighbour in `erase_leaf` has no
result when the link is the no-page sentinel. -/
theorem erase_leaf_sentinel_none (t : IxIndexHandle) (leaf : Int)
    (h : (t.pages leaf).page_hdr.prev_leaf = INVALID_PAGE_ID ∨
      (t.pages leaf).page_hdr.next_leaf = INVALID_PAGE_ID) :
    erase_leaf t leaf = none := by
  unfold erase_leaf
  split
  · rfl
  · cases hp : fetch_node t (t.pages leaf).page_hdr.prev_leaf with
    | none => rfl
    | some prev =>
      simp only
      have hnx : ((t.set_next_leaf prev (t.pages leaf).page_hdr.next_leaf).pages
          leaf).page_hdr.next_leaf = (t.pages leaf).page_hdr.next_leaf := by
        unfold IxIndexHandle.set_next_leaf
        rw [setHdr_pages]
        split <;> rfl
      rcases h with h | h
      · rw [h] at hp
        exact absurd hp (by simp [fetch_node, INVALID_PAGE_ID])
      · rw [hnx, h]
        simp [fetch_node, INVALID_PAGE_ID]

theorem leaf_keys_eq_map (nd : IxPage) :
    leaf_keys nd =
      (List.range nd.page_hdr.num_key.toNat).map (fun (i : Nat) => nd.keys (i : Int)) := by
  have hc : ∀ l : List Nat,
      l.flatMap (fun (a : Nat) => [(a : Int)]) = l.map (fun (a : Nat) => (a : Int)) := by
    intro l
    induction l with
    | nil => rfl
    | cons a l ih =>
      rw [List.flatMap_cons, ih]
      rfl
  unfold leaf_keys
  change List.map (fun i => nd.keys i)
    ((List.range nd.page_hdr.num_key.toNat).flatMap (fun (a : Nat) => [(a : Int)])) = _
  rw [hc, List.map_map]
  rfl

theorem leaf_keys_getElem (nd : IxPage) (j : Nat) :
    (leaf_keys nd)[j]? =
      if j < nd.page_hdr.num_key.toNat then some (nd.keys (j : Int)) else none := by
  rw [leaf_keys_eq_map, List.getElem?_map]
  split
  · rename_i h
    rw [List.getElem?_range h]
    rfl
  · rename_i h
    rw [List.getElem?_eq_none (by simpa using h)]
    rfl

/-- After `erase_pair(pos)` with `pos` in range the node has one key less and its
keys are the old ones without the key of slot `pos`. -/
theorem erase_pair_keys (nd : IxPage) (pos : Int) (h0 : 0 ≤ pos)
    (h1 : pos < nd.page_hdr.num_key) :
    (erase_pair nd pos).page_hdr.num_key = nd.page_hdr.num_key - 1 ∧
      leaf_keys (erase_pair nd pos) = (leaf_keys nd).eraseIdx pos.toNat := by
  have hc : ¬ (pos ≥ nd.page_hdr.num_key ∨ pos < 0) := by omega
  have hnum : (erase_pair nd pos).page_hdr.num_key = nd.page_hdr.num_key - 1 := by
    unfold erase_pair
    rw [if_neg hc]
  have hkeys : ∀ i : Int, (erase_pair nd pos).keys i =
      if pos ≤ i ∧ i < pos + (nd.page_hdr.num_key - pos - 1) then nd.keys (i + 1)
      else nd.keys i := by
    intro i
    unfold erase_pair
    rw [if_neg hc]
  refine ⟨hnum, ?_⟩
  apply List.ext_getElem?
  intro j
  rw [leaf_keys_getElem, List.getElem?_eraseIdx, leaf_keys_getElem, leaf_keys_getElem, hnum,
    hkeys]
  by_cases hj : j < pos.toNat
  · have h2 : j < (nd.page_hdr.num_key - 1).toNat := by omega
    have h3 : j < nd.page_hdr.num_key.toNat := by omega
    have h4 : ¬ (pos ≤ (j : Int) ∧ (j : Int) < pos + (nd.page_hdr.num_key - pos - 1)) := by omega
    rw [if_pos h2, if_pos hj, if_pos h3, if_neg h4]
  · rw [if_neg hj]
    by_cases h2 : j < (nd.page_hdr.num_key - 1).toNat
    · have h3 : j + 1 < nd.page_hdr.num_key.toNat := by omega
      have h4 : pos ≤ (j : Int) ∧ (j : Int) < pos + (nd.page_hdr.num_key - pos - 1) := by omega
      rw [if_pos h2, if_pos h3, if_pos h4]
      push_cast
      rfl
    · have h3 : ¬ j + 1 < nd.page_hdr.num_key.toNat := by omega
      rw [if_neg h2, if_neg h3]

/-! ## B+-tree index: the claims -/

/-- C8 fails on the code: in the index holding the keys 10 and 30, key 20 is
absent; `insert_entry(20, (1,2))` returns and stores the pair in the leaf, behind
30, and the following `get_value(20)` returns false and appends nothing. -/
theorem C8_get_value_misses_inserted_key :
    ixC8.map leaf_list_keys = some [[10], [30]] ∧
    ixC8.bind (fun t => get_value t [20] []) = some (false, []) ∧
    (ixC8.bind (fun t => insert_entry t [20] ⟨1, 2⟩)).map (fun r => leaf_list_keys r.1) =
      some [[10], [30], [20]] ∧
    (ixC8.bind (fun t => insert_entry t [20] ⟨1, 2⟩)).bind (fun r => get_value r.1 [20] []) =
      some (false, []) := by
  refine ⟨?_, ?_, ?_, ?_⟩ <;> decide

/-- C9 fails on the code: in the index built by inserting 10, 30 and 20, key 20
is stored in the leaf, and `delete_entry(20)` returns false and leaves it there.
And in the index built by inserting 10 with Rid (1,0) and 20 with Rid (1,1),
`delete_entry(10)` returns true, after which `get_value(20)` gives the Rid (0,0)
read from eight slots further on, not (1,1). -/
theorem C9_delete_entry_misses_stored_key :
    ixC9.map leaf_list_keys = some [[10], [30], [20]] ∧
    ixC9.bind (fun t => (delete_entry t [20]).map Prod.snd) = some false ∧
    (ixC9.bind (fun t => delete_entry t [20])).map (fun r => leaf_list_keys r.1) =
      some [[10], [30], [20]] ∧
    (runIndex (emptyIndex 1 4) [.insert [10] ⟨1, 0⟩, .insert [20] ⟨1, 1⟩]).bind
      (fun t => get_value t [20] []) = some (true, [⟨1, 1⟩]) ∧
    (runIndex (emptyIndex 1 4) [.insert [10] ⟨1, 0⟩, .insert [20] ⟨1, 1⟩]).bind
      (fun t => (delete_entry t [10]).map Prod.snd) = some true ∧
    (runIndex (emptyIndex 1 4) [.insert [10] ⟨1, 0⟩, .insert [20] ⟨1, 1⟩, .delete [10]]).bind
      (fun t => get_value t [20] []) = some (true, [⟨0, 0⟩]) := by
  refine ⟨?_, ?_, ?_, ?_, ?_, ?_⟩ <;> decide

/-- C10 fails on the code: after `insert_entry` of key 2 and then of key 1 the
walk of the leaf list reads 2 before 1, and 2 compares greater than 1. -/
theorem C10_leaf_list_out_of_order :
    ixC10.map leaf_list_keys = some [[2], [1]] ∧ ix_compare [2] [1] 1 = 1 := by
  refine ⟨?_, ?_⟩ <;> decide

/-- C13 fails on the code: for the node with keys 10, 30 and target 20 the binary
search probes 30, then 10, and falls through to `return num_key`, so
`lower_bound` gives 2; the first index whose key is at least 20 is 1. -/
theorem C13_lower_bound_returns_num_key :
    lower_bound (hdrOf 1 4) (nodeOf true [([10], ⟨1, 0⟩), ([30], ⟨1, 1⟩)]) [20] = 2 ∧
    lower_bound_ref (hdrOf 1 4) (nodeOf true [([10], ⟨1, 0⟩), ([30], ⟨1, 1⟩)]) [20] = 1 := by
  refine ⟨?_, ?_⟩ <;> decide

/-- C14 fails on the code: for the node with keys 10, 30 and target 20
`upper_bound` falls through to `return num_key` and gives 2, where the first
index whose key is greater than 20 is 1.  And on the node that held 10, 20 and
lost its last pair, target 20 is found at slot `num_key`, where the erased key
still stands, so the result is `num_key + 1 = 2`, outside `[0, num_key]`. -/
theorem C14_upper_bound_returns_num_key :
    upper_bound (hdrOf 1 4) (nodeOf true [([10], ⟨1, 0⟩), ([30], ⟨1, 1⟩)]) [20] = 2 ∧
    upper_bound_ref (hdrOf 1 4) (nodeOf true [([10], ⟨1, 0⟩), ([30], ⟨1, 1⟩)]) [20] = 1 ∧
    (erase_pair (nodeOf true [([10], ⟨1, 0⟩), ([20], ⟨1, 1⟩)]) 1).page_hdr.num_key = 1 ∧
    upper_bound (hdrOf 1 4) (erase_pair (nodeOf true [([10], ⟨1, 0⟩), ([20], ⟨1, 1⟩)]) 1) [20]
      = 2 := by
  refine ⟨?_, ?_, ?_, ?_⟩ <;> decide

/-- C16 fails on the code: on an index with two INT columns, for the internal
node with keys (1,0), (1,5), children 7, 8 and the key (1,3), the largest index
whose key is at most (1,3) is 0, child 7; `internal_lookup` compares the first
column only, finds no key greater, and returns the last child, 8.  On an index
with one column the same node makes it read `col_types_[1]`, outside the vector. -/
theorem C16_internal_lookup_compares_one_column :
    internal_lookup_ref (hdrOf 2 4) (nodeOf false [([1, 0], ⟨7, 0⟩), ([1, 5], ⟨8, 0⟩)]) [1, 3]
      = 7 ∧
    internal_lookup (hdrOf 2 4) (nodeOf false [([1, 0], ⟨7, 0⟩), ([1, 5], ⟨8, 0⟩)]) [1, 3]
      = some 8 ∧
    internal_lookup (hdrOf 1 4) (nodeOf false [([10], ⟨7, 0⟩), ([20], ⟨8, 0⟩)]) [15] = none := by
  refine ⟨?_, ?_, ?_⟩ <;> decide

/-- C17 fails on the code: the node with keys 10, 30 is strictly ascending, has
fewer than `max_size = 4` keys and does not hold 20; `insert(20, r)` returns 3 and
leaves the keys 10, 30, 20, where 30 compares greater than 20. -/
theorem C17_insert_breaks_order :
    ((nodeOf true [([10], ⟨1, 0⟩), ([30], ⟨1, 1⟩)]).insert (hdrOf 1 4) [20] ⟨1, 2⟩).map
      (fun r => (leaf_keys r.1, node_rids r.1, r.2)) =
      some ([[10], [30], [20]], [⟨1, 0⟩, ⟨1, 1⟩, ⟨1, 2⟩], 3) ∧
    ix_compare [30] [20] 1 = 1 := by
  refine ⟨?_, ?_⟩ <;> decide

/-- C18 fails on the code: on an index with one key column, for the node with
keys 10, 20 and the key 20, present at slot 1, `insert` finds the slot with
`lower_bound` and then reads `col_types_[1]`, outside the vector, so the call has
no defined result.  With the same key at slot 0 of a node the read is
`col_types_[0]` and the duplicate is refused. -/
theorem C18_insert_duplicate_reads_past_col_types :
    lower_bound (hdrOf 1 4) (nodeOf true [([10], ⟨1, 0⟩), ([20], ⟨1, 1⟩)]) [20] = 1 ∧
    ((nodeOf true [([10], ⟨1, 0⟩), ([20], ⟨1, 1⟩)]).insert (hdrOf 1 4) [20] ⟨9, 9⟩).isNone
      = true ∧
    ((nodeOf true [([20], ⟨1, 1⟩)]).insert (hdrOf 1 4) [20] ⟨9, 9⟩).map
      (fun r => (leaf_keys r.1, node_rids r.1, r.2)) = some ([[20]], [⟨1, 1⟩], 1) := by
  refine ⟨?_, ?_, ?_⟩ <;> decide

/-- C12 fails on the code.  After inserting (10,0), (20,0), (30,0), (40,0), (5,0)
the root is page 4, its entry 0 is key (10,0) with child page 2, whose parent
field names the root, and that leaf holds (10,0), (20,0), (5,0): its smallest key
is (5,0), not the separator.  After the merge of `ixC12b` the root holds two
entries and its entry 1 is key (50,0,0,0) with child page 0, which holds no key
and whose parent field is 0, not the root. -/
theorem C12_separator_not_smallest_key :
    ixC12.map (fun t => (t.file_hdr_.root_page_, (t.pages 4).page_hdr.is_leaf,
        (t.pages 4).keys 0, ((t.pages 4).rids 0).page_no)) = some (4, false, [10, 0], 2) ∧
    ixC12.map (fun t => ((t.pages 2).page_hdr.parent, leaf_keys (t.pages 2))) =
      some (4, [[10, 0], [20, 0], [5, 0]]) ∧
    ix_compare [5, 0] [10, 0] 2 = -1 ∧
    ixC12b.map (fun t => (t.file_hdr_.root_page_, (t.pages 4).page_hdr.is_leaf,
        (t.pages 4).page_hdr.num_key, (t.pages 4).keys 1, ((t.pages 4).rids 1).page_no)) =
      some (4, false, 2, [50, 0, 0, 0], 0) ∧
    ixC12b.map (fun t => ((t.pages 0).page_hdr.num_key, (t.pages 0).page_hdr.parent)) =
      some (0, 0) := by
  refine ⟨?_, ?_, ?_, ?_, ?_⟩ <;> decide!

/-- C20 fails on the code.  In `ixC20` leaf L = 2 holds three keys and its
`next_leaf` is N = 3 with `prev_leaf` 2.  The insert of (12,0) fills L and splits
it into L and the sibling S = 5: afterwards `L.next_leaf = S`, `S.prev_leaf = L`
and `S.next_leaf = N`, but `N.prev_leaf` is still L, not S. -/
theorem C20_split_leaves_old_prev_leaf :
    ixC20.map (fun t => ((t.pages 2).page_hdr.num_key, (t.pages 2).page_hdr.next_leaf,
        (t.pages 3).page_hdr.prev_leaf)) = some (3, 3, 2) ∧
    (ixC20.bind (fun t => insert_entry t [12, 0] ⟨1, 5⟩)).map
      (fun r => ((r.1.pages 2).page_hdr.next_leaf, (r.1.pages 5).page_hdr.is_leaf,
        (r.1.pages 5).page_hdr.prev_leaf, (r.1.pages 5).page_hdr.next_leaf,
        (r.1.pages 3).page_hdr.prev_leaf)) = some (5, true, 2, 3, 2) := by
  refine ⟨?_, ?_⟩ <;> decide

/-- C15: `leaf_lookup` is sound and complete on a leaf with strictly ascending
keys.  If some slot `i < num_key` holds a key that compares equal to `k`, the
call returns true with the Rid stored at slot `i`; if no slot does, it returns
false; and whenever it returns true with a Rid, that Rid is the one stored at a
slot below `num_key` whose key compares equal to `k`. -/
theorem C15_leaf_lookup_sound_complete (h : IxFileHdr) (nd : IxPage) (k : Key)
    (hs : StrictAsc h nd) :
    (∀ i, 0 ≤ i → i < nd.page_hdr.num_key → ix_compare k (nd.keys i) h.col_num_ = 0 →
      leaf_lookup h nd k = some (nd.rids i)) ∧
    ((∀ i, 0 ≤ i → i < nd.page_hdr.num_key → ix_compare k (nd.keys i) h.col_num_ ≠ 0) →
      leaf_lookup h nd k = none) ∧
    (∀ r, leaf_lookup h nd k = some r →
      ∃ i, 0 ≤ i ∧ i < nd.page_hdr.num_key ∧ ix_compare k (nd.keys i) h.col_num_ = 0 ∧
        r = nd.rids i) := by
  have hsp := lower_bound_spec h nd k hs
  refine ⟨?_, ?_, ?_⟩
  · intro i hi0 hin hi
    rcases hsp with ⟨-, hno⟩ | ⟨h0, hn, hc⟩
    · exact absurd hi (hno i hi0 hin)
    · have := hs.unique hi0 hin h0 hn hi hc
      unfold leaf_lookup
      simp only [ne_eq, ne_of_lt hn, not_false_eq_true, if_true, this]
  · intro hno
    rcases hsp with ⟨he, -⟩ | ⟨h0, hn, hc⟩
    · unfold leaf_lookup
      simp only [he, ne_eq, not_true_eq_false, if_false]
    · exact absurd hc (hno _ h0 hn)
  · intro r hr
    rcases hsp with ⟨he, -⟩ | ⟨h0, hn, hc⟩
    · unfold leaf_lookup at hr
      simp only [he, ne_eq, not_true_eq_false, if_false] at hr
      cases hr
    · unfold leaf_lookup at hr
      simp only [ne_eq, ne_of_lt hn, not_false_eq_true, if_true, Option.some.injEq] at hr
      exact ⟨_, h0, hn, hc, hr.symm⟩

/-- Witness of C15 on the leaf with keys 10, 20, 30: key 20 is found with the Rid
of slot 1. -/
theorem C15_leaf_lookup_sound_complete_witness :
    leaf_lookup (hdrOf 1 4)
      (nodeOf true [([10], ⟨1, 0⟩), ([20], ⟨1, 1⟩), ([30], ⟨1, 2⟩)]) [20] = some ⟨1, 1⟩ :=
  (C15_leaf_lookup_sound_complete (hdrOf 1 4)
    (nodeOf true [([10], ⟨1, 0⟩), ([20], ⟨1, 1⟩), ([30], ⟨1, 2⟩)]) [20]
    (by
      intro i j hi hij hj
      have hj3 : j < 3 := hj
      have : (i = 0 ∧ j = 1) ∨ (i = 0 ∧ j = 2) ∨ (i = 1 ∧ j = 2) := by omega
      rcases this with ⟨rfl, rfl⟩ | ⟨rfl, rfl⟩ | ⟨rfl, rfl⟩ <;> decide)).1 1
    (by decide) (by decide) (by decide)

/-- C19: `split` partitions the node.  Let the node be an allocated page other
than the file header page, with `n = num_key ≥ 0` entries of which the moved half
fits into a node (`n ≤ 2 * max_size`), and, when it is an internal node, let the
child pointers of the moved entries name allocated pages other than the node.
Then `split` returns the fresh page as sibling; with `mid = ⌊n / 2⌋` the node
afterwards holds exactly the pairs `[0, mid)` and the sibling exactly the pairs
`[mid, n)`, in their order and each key with its value, so that the node's pairs
followed by the sibling's are the original pairs; the sibling is a leaf iff the
node is one, and the sibling's parent is the node's parent. -/
theorem C19_split_partitions_node (t : IxIndexHandle) (node : Int)
    (h0 : 0 ≤ (t.pages node).page_hdr.num_key)
    (hcap : (t.pages node).page_hdr.num_key ≤ 2 * get_max_size t.file_hdr_)
    (hnode : 0 < node ∧ node < t.next_page_no)
    (hch : (t.pages node).page_hdr.is_leaf = false →
      ∀ i, (t.pages node).page_hdr.num_key / 2 ≤ i → i < (t.pages node).page_hdr.num_key →
        0 ≤ ((t.pages node).rids i).page_no ∧
          ((t.pages node).rids i).page_no < t.next_page_no ∧
          ((t.pages node).rids i).page_no ≠ node) :
    ∃ t1, split t node = some (t1, t.next_page_no) ∧
      (t1.pages node).page_hdr.num_key = (t.pages node).page_hdr.num_key / 2 ∧
      node_pairs (t1.pages node) =
        (node_pairs (t.pages node)).take ((t.pages node).page_hdr.num_key / 2).toNat ∧
      node_pairs (t1.pages t.next_page_no) =
        (node_pairs (t.pages node)).drop ((t.pages node).page_hdr.num_key / 2).toNat ∧
      node_pairs (t1.pages node) ++ node_pairs (t1.pages t.next_page_no) =
        node_pairs (t.pages node) ∧
      (t1.pages t.next_page_no).page_hdr.is_leaf = (t.pages node).page_hdr.is_leaf ∧
      (t1.pages node).page_hdr.is_leaf = (t.pages node).page_hdr.is_leaf ∧
      (t1.pages t.next_page_no).page_hdr.parent = (t1.pages node).page_hdr.parent ∧
      (t1.pages node).page_hdr.parent = (t.pages node).page_hdr.parent := by
  have hne : node ≠ t.next_page_no := by omega
  obtain ⟨t1, hs, -, -, hsame, -, hnk, hsk, hsl, hent, hsp, hpar⟩ :=
    split_spec t node h0 hcap ⟨le_of_lt hnode.1, hnode.2⟩
      (fun hl i h1 h2 => ⟨(hch hl i h1 h2).1, (hch hl i h1 h2).2.1⟩)
  have hnp : (t1.pages node).page_hdr.parent = (t.pages node).page_hdr.parent := by
    rcases hpar node hne with h | ⟨hl, -, h | ⟨i, h1, h2, h3⟩⟩
    · exact h
    · omega
    · exact absurd h3 (hch hl i h1 h2).2.2
  have htake := node_pairs_take (t.pages node) (t1.pages node)
    ((t.pages node).page_hdr.num_key / 2) (by omega) hnk
    (fun i _ _ => by rw [(hsame node hne).1, (hsame node hne).2.1]; exact ⟨rfl, rfl⟩)
  have hdrop := node_pairs_drop (t.pages node) (t1.pages t.next_page_no)
    ((t.pages node).page_hdr.num_key / 2) (by omega) (by omega) hsk hent
  refine ⟨t1, hs, hnk, htake, hdrop, ?_, hsl, (hsame node hne).2.2, ?_, hnp⟩
  · rw [htake, hdrop, List.take_append_drop]
  · rw [hsp, hnp]

/-- Witness of C19 on an internal node with four entries: the node keeps the
entries 10 and 20, the sibling, page 7, gets 30 and 40. -/
theorem C19_split_partitions_node_witness :
    ∃ t1, split ixC19 2 = some (t1, 7) ∧
      node_pairs (t1.pages 2) = [([10], ⟨3, 0⟩), ([20], ⟨4, 0⟩)] ∧
      node_pairs (t1.pages 7) = [([30], ⟨5, 0⟩), ([40], ⟨6, 0⟩)] ∧
      (t1.pages 7).page_hdr.is_leaf = false ∧
      (t1.pages 7).page_hdr.parent = (t1.pages 2).page_hdr.parent := by
  obtain ⟨t1, h1, -, h2, h3, -, h4, -, h5, -⟩ :=
    C19_split_partitions_node ixC19 2 (by decide) (by decide) (by decide)
      (by
        intro _ i hi1 hi2
        have e : (ixC19.pages 2).page_hdr.num_key = 4 := by decide
        rw [e] at hi1 hi2
        have : i = 2 ∨ i = 3 := by omega
        rcases this with rfl | rfl <;> decide)
  exact ⟨t1, h1, h2, h3, h4, h5⟩

/-- C21: a root split installs a two-entry root.  When `insert_into_parent` is
called with `old_node` the root (its parent is the no-page sentinel) and
`new_node` its sibling, both allocated pages, in an index of order at least 2,
the call returns; afterwards the file header's `root_page_` names the page
`create_node` has just allocated, an internal node whose entries are exactly
`(old_node.key[0], old_node)` followed by `(new_node.key[0], new_node)` and whose
parent is the no-page sentinel, and `old_node` and `new_node` both have it as
parent and keep their entries. -/
theorem C21_root_split_installs_two_entry_root (fuel : Nat) (t : IxIndexHandle)
    (old_node new_node : Int) (key : Key)
    (hroot : is_root_page (t.pages old_node) = true)
    (hold : old_node < t.next_page_no) (hnew : new_node < t.next_page_no)
    (hM : 2 ≤ get_max_size t.file_hdr_) :
    ∃ t1, insert_into_parent (fuel + 1) t old_node key new_node = some t1 ∧
      t1.file_hdr_.root_page_ = t.next_page_no ∧
      t1.next_page_no = t.next_page_no + 1 ∧
      (t1.pages t.next_page_no).page_hdr.is_leaf = false ∧
      node_pairs (t1.pages t.next_page_no) =
        [((t.pages old_node).keys 0, ⟨old_node, 0⟩),
         ((t.pages new_node).keys 0, ⟨new_node, 0⟩)] ∧
      (t1.pages t.next_page_no).page_hdr.parent = IX_NO_PAGE ∧
      (t1.pages old_node).page_hdr.parent = t.next_page_no ∧
      (t1.pages new_node).page_hdr.parent = t.next_page_no ∧
      node_pairs (t1.pages old_node) = node_pairs (t.pages old_node) ∧
      node_pairs (t1.pages new_node) = node_pairs (t.pages new_node) := by
  obtain ⟨t1, h1, hf, hn, hh, hk0, hr0, hk1, hr1, hoth⟩ :=
    insert_into_parent_root_spec fuel t old_node new_node key hroot hold hnew hM
  have hoN : old_node ≠ t.next_page_no := by omega
  have hnN : new_node ≠ t.next_page_no := by omega
  refine ⟨t1, h1, by rw [hf], hn, by rw [hh], ?_, by rw [hh]; rfl, ?_, ?_, ?_, ?_⟩
  · have h2 : (t1.pages t.next_page_no).page_hdr.num_key = 2 := by rw [hh]
    simp [node_pairs, h2, List.range_succ, hk0, hr0, hk1, hr1]
  · rw [(hoth old_node hoN).2.2]
    simp
  · rw [(hoth new_node hnN).2.2]
    simp
  · obtain ⟨a, b, c⟩ := hoth old_node hoN
    simp only [node_pairs, a, b, c]
  · obtain ⟨a, b, c⟩ := hoth new_node hnN
    simp only [node_pairs, a, b, c]

/-- Witness of C21 on scenario S2: in the index of order 4 the insert of 40
splits the root leaf 2 into the leaves 2 and 3; `insert_into_parent` then makes
page 4 the root, with the entries (10, page 2) and (30, page 3).  The whole
`insert_entry` run leaves the leaves [10, 20] and [30, 40] under that root. -/
theorem C21_root_split_installs_two_entry_root_witness :
    (∃ t1, insert_into_parent 1 ixS2_split 2 [40] 3 = some t1 ∧
      t1.file_hdr_.root_page_ = 4 ∧
      node_pairs (t1.pages 4) = [([10], ⟨2, 0⟩), ([30], ⟨3, 0⟩)] ∧
      (t1.pages 4).page_hdr.parent = IX_NO_PAGE ∧
      (t1.pages 2).page_hdr.parent = 4 ∧ (t1.pages 3).page_hdr.parent = 4) ∧
    ixS2.map (fun t => (t.file_hdr_.root_page_, (t.pages 4).page_hdr.is_leaf,
      leaf_keys (t.pages 4), node_rids (t.pages 4))) =
      some (4, false, [[10], [30]], [⟨2, 0⟩, ⟨3, 0⟩]) ∧
    ixS2.map (fun t => (leaf_keys (t.pages 2), leaf_keys (t.pages 3))) =
      some ([[10], [20]], [[30], [40]]) := by
  refine ⟨?_, by decide, by decide⟩
  obtain ⟨t1, h1, h2, -, -, h3, h4, h5, h6, -⟩ :=
    C21_root_split_installs_two_entry_root 0 ixS2_split 2 3 [40] (by decide) (by decide)
      (by decide) (by decide)
  exact ⟨t1, h1, h2, h3, h4, h5, h6⟩

/-- C22 fails on the code.  After scenario S2 and the insert of (21,0), leaf 2
holds (10,0), (20,0), (21,0) and is child 0 of the root, whose keys (10,0), (30,0)
are sorted.  The insert of (22,0) fills and splits it; `insert_into_parent` puts
the sibling, page 5 with first key (21,0), at `upper_bound((22,0))`, which falls
through to `num_key = 2`: the root's entries are (10,0) → 2, (30,0) → 3,
(21,0) → 5.  The sibling is not at index 1, the entry (30,0) → 3 has not moved,
and the keys are not sorted. -/
theorem C22_sibling_entry_appended_to_parent :
    (ixS2_then [.insert [21, 0] ⟨1, 4⟩]).map (fun t => (t.file_hdr_.root_page_,
      leaf_keys (t.pages 4), node_rids (t.pages 4), leaf_keys (t.pages 2))) =
      some (4, [[10, 0], [30, 0]], [⟨2, 0⟩, ⟨3, 0⟩], [[10, 0], [20, 0], [21, 0]]) ∧
    (ixS2_then [.insert [21, 0] ⟨1, 4⟩, .insert [22, 0] ⟨1, 5⟩]).map
      (fun t => (t.file_hdr_.root_page_, leaf_keys (t.pages 4), node_rids (t.pages 4))) =
      some (4, [[10, 0], [30, 0], [21, 0]], [⟨2, 0⟩, ⟨3, 0⟩, ⟨5, 0⟩]) ∧
    (ixS2_then [.insert [21, 0] ⟨1, 4⟩, .insert [22, 0] ⟨1, 5⟩]).map
      (fun t => (leaf_keys (t.pages 2), leaf_keys (t.pages 5), (t.pages 5).page_hdr.parent)) =
      some ([[10, 0], [20, 0]], [[21, 0], [22, 0]], 4) ∧
    ix_compare [30, 0] [21, 0] 2 = 1 := by
  refine ⟨?_, ?_, ?_, ?_⟩ <;> decide

/-- C23 fails on the code.  After scenario S2 and the insert of (50,0) the leaves
are 2 = [(10,0), (20,0)] and 3 = [(30,0), (40,0), (50,0)] with the Rids (1,0) to
(1,4).  `delete_entry((20,0))` leaves one key in leaf 2, the leftmost child, and
`redistribute` moves the first pair of leaf 3 to its end: leaf 2 holds
(10,0) → (1,0), (30,0) → (1,2) and the separator of leaf 3 is its new first key
(40,0), but `erase_pair(0)` has moved the Rids of leaf 3 from eight slots further
on: it holds (40,0) → (0,0), (50,0) → (0,0), not (40,0) → (1,3), (50,0) → (1,4). -/
theorem C23_redistribute_breaks_pairing :
    (ixS2_then [.insert [50, 0] ⟨1, 4⟩]).map (fun t => (leaf_keys (t.pages 2),
      node_rids (t.pages 2), leaf_keys (t.pages 3), node_rids (t.pages 3))) =
      some ([[10, 0], [20, 0]], [⟨1, 0⟩, ⟨1, 1⟩],
        [[30, 0], [40, 0], [50, 0]], [⟨1, 2⟩, ⟨1, 3⟩, ⟨1, 4⟩]) ∧
    (ixS2_then [.insert [50, 0] ⟨1, 4⟩, .delete [20, 0]]).map
      (fun t => (leaf_keys (t.pages 2), node_rids (t.pages 2), leaf_keys (t.pages 3),
        node_rids (t.pages 3))) =
      some ([[10, 0], [30, 0]], [⟨1, 0⟩, ⟨1, 2⟩], [[40, 0], [50, 0]], [⟨0, 0⟩, ⟨0, 0⟩]) ∧
    (ixS2_then [.insert [50, 0] ⟨1, 4⟩, .delete [20, 0]]).map
      (fun t => (leaf_keys (t.pages 4), node_rids (t.pages 4))) =
      some ([[10, 0], [40, 0]], [⟨2, 0⟩, ⟨3, 0⟩]) := by
  refine ⟨?_, ?_, ?_⟩ <;> decide!

/-- C24 fails on the code.  In the index of `opsC11` the root, page 4, has the
entries 10 → 2, 30 → 3, 50 → 5 over three leaves.  `delete_entry(30)` leaves one
key in leaf 3 and `coalesce` merges it into leaf 2 and erases entry 1 of the
root: the root keeps the keys 10, 50, but `erase_pair(1)` has moved its Rids
from eight slots further on, so the entry that named leaf 5 names page 0.
After scenario S2 `delete_entry((40,0))` merges leaf 3, the last leaf, into
leaf 2; `erase_leaf` then fetches the page `next_leaf = -1` of leaf 3, which is
no page: the call has no result. -/
theorem C24_coalesce_corrupts_parent :
    (runIndex (emptyIndex 4 4) opsC11).map (fun t => (t.file_hdr_.root_page_,
      leaf_keys (t.pages 4), node_rids (t.pages 4))) =
      some (4, [[10, 0, 0, 0], [30, 0, 0, 0], [50, 0, 0, 0]], [⟨2, 0⟩, ⟨3, 0⟩, ⟨5, 0⟩]) ∧
    ixC12b.map (fun t => (t.file_hdr_.root_page_, leaf_keys (t.pages 4),
      node_rids (t.pages 4))) =
      some (4, [[10, 0, 0, 0], [50, 0, 0, 0]], [⟨2, 0⟩, ⟨0, 0⟩]) ∧
    ixC12b.map (fun t => (leaf_keys (t.pages 2), (t.pages 2).page_hdr.next_leaf,
      (t.pages 5).page_hdr.prev_leaf)) =
      some ([[10, 0, 0, 0], [20, 0, 0, 0], [40, 0, 0, 0]], 5, 2) ∧
    (ixS2_then []).map (fun t => ((t.pages 3).page_hdr.next_leaf, t.file_hdr_.last_leaf_,
      fetch_node t (-1))) = some (-1, 3, none) ∧
    (ixS2_then [.delete [40, 0]]).isNone = true := by
  refine ⟨?_, ?_, ?_, ?_, ?_⟩ <;> decide!

/-- The case analysis of `adjust_root`: an internal root with one entry whose
child is a page of the file hands the root over to that child; an empty leaf root
leaves the index without root; in every other case nothing changes. -/
theorem adjust_root_cases (t : IxIndexHandle) (old_root_node : Int) :
    ((t.pages old_root_node).page_hdr.is_leaf = false →
      (t.pages old_root_node).page_hdr.num_key = 1 →
      0 ≤ ((t.pages old_root_node).rids 0).page_no →
      ((t.pages old_root_node).rids 0).page_no < t.next_page_no →
      ∃ t1, adjust_root t old_root_node = some (t1, true) ∧
        t1.file_hdr_.root_page_ = ((t.pages old_root_node).rids 0).page_no ∧
        (t1.pages ((t.pages old_root_node).rids 0).page_no).page_hdr.parent = IX_NO_PAGE) ∧
    ((t.pages old_root_node).page_hdr.is_leaf = true →
      (t.pages old_root_node).page_hdr.num_key = 0 →
      ∃ t1, adjust_root t old_root_node = some (t1, true) ∧
        t1.file_hdr_.root_page_ = INVALID_PAGE_ID ∧ t1.pages = t.pages) ∧
    (¬ ((t.pages old_root_node).page_hdr.is_leaf = false ∧
        (t.pages old_root_node).page_hdr.num_key = 1) →
      ¬ ((t.pages old_root_node).page_hdr.is_leaf = true ∧
        (t.pages old_root_node).page_hdr.num_key = 0) →
      adjust_root t old_root_node = some (t, false)) := by
  refine ⟨?_, ?_, ?_⟩
  · intro hl hn h0 hN
    have hf : fetch_node t ((t.pages old_root_node).rids 0).page_no =
        some ((t.pages old_root_node).rids 0).page_no := by
      unfold fetch_node
      rw [if_pos ⟨h0, hN⟩]
    unfold adjust_root
    simp only [hl, hn, Bool.false_eq_true, not_false_eq_true, and_self, if_true, hf]
    refine ⟨_, rfl, rfl, ?_⟩
    rw [set_parent_parent]
    simp
  · intro hl hn
    unfold adjust_root
    simp only [hl, hn, not_true_eq_false, false_and, if_false, and_self, if_true]
    exact ⟨_, rfl, rfl, rfl⟩
  · intro h1 h2
    unfold adjust_root
    have h1' : ¬ (¬ (t.pages old_root_node).page_hdr.is_leaf = true ∧
        (t.pages old_root_node).page_hdr.num_key = 1) := by
      simpa using h1
    simp only [h1', h2, if_false]

/-- C25 fails on the code at its scenario S3.  On one INT column the insert of 5
after scenario S2 has no result: the descent from the internal root reads
`col_types_[1]` of a one-element vector.  On two INT columns the insert stores
(5,0) behind (20,0) in leaf 2; `delete_entry((5,0))` then does not find it and
returns false, and after `delete_entry` of (10,0) and (20,0), of which the
second returns false as well, the root is still the internal node 4 over leaf 2
with the keys (20,0), (5,0) and leaf 3 with (30,0), (40,0), not the single leaf
[30, 40]. -/
theorem C25_scenario_S3_keeps_internal_root :
    (ixS2.bind (fun t => insert_entry t [5] ⟨1, 4⟩)).isNone = true ∧
    (ixS2_then [.insert [5, 0] ⟨1, 4⟩]).map (fun t => leaf_keys (t.pages 2)) =
      some [[10, 0], [20, 0], [5, 0]] ∧
    ((ixS2_then [.insert [5, 0] ⟨1, 4⟩]).bind (fun t => delete_entry t [5, 0])).map
      (fun r => (r.2, leaf_keys (r.1.pages 2))) = some (false, [[10, 0], [20, 0], [5, 0]]) ∧
    ((ixS2_then [.insert [5, 0] ⟨1, 4⟩, .delete [5, 0], .delete [10, 0]]).bind
      (fun t => delete_entry t [20, 0])).map
      (fun r => (r.2, r.1.file_hdr_.root_page_, (r.1.pages 4).page_hdr.is_leaf)) =
      some (false, 4, false) ∧
    ((ixS2_then [.insert [5, 0] ⟨1, 4⟩, .delete [5, 0], .delete [10, 0]]).bind
      (fun t => delete_entry t [20, 0])).map
      (fun r => (leaf_keys (r.1.pages 2), leaf_keys (r.1.pages 3))) =
      some ([[20, 0], [5, 0]], [[30, 0], [40, 0]]) := by
  refine ⟨?_, ?_, ?_, ?_, ?_⟩ <;> decide!

/-! ## Lock manager: lemmas -/

theorem Transaction.set_state_self (txn : Transaction) (s : TransactionState)
    (h : txn.state_ = s) : ({ txn with state_ := s } : Transaction) = txn := by
  cases txn
  simp only at h
  subst h
  rfl

/-- A transaction in state SHRINKING or ABORTED gets `false` from every lock
function, ends ABORTED, and nothing else changes. -/
theorem lock_call_gate (c : LockCall) (lm : LockManager) (txn : Transaction)
    (h : txn.state_ = .SHRINKING ∨ txn.state_ = .ABORTED) :
    c.run lm txn = (lm, { txn with state_ := .ABORTED }, .returned false) := by
  rcases h with h | h
  · cases c <;>
      simp [LockCall.run, lock_shared_on_record, lock_exclusive_on_record,
        lock_shared_on_table, lock_exclusive_on_table, lock_IS_on_table, lock_IX_on_table, h]
  · have e := txn.set_state_self _ h
    cases c <;>
      simp [LockCall.run, lock_shared_on_record, lock_exclusive_on_record,
        lock_shared_on_table, lock_exclusive_on_table, lock_IS_on_table, lock_IX_on_table, h,
        e]

theorem txn_after_gate (c : TxnCall) (lm : LockManager) (txn : Transaction)
    (h : txn.state_ = .SHRINKING ∨ txn.state_ = .ABORTED) :
    (c.txn_after lm txn).state_ = .SHRINKING ∨ (c.txn_after lm txn).state_ = .ABORTED := by
  cases c with
  | lock c =>
    right
    simp only [TxnCall.txn_after, lock_call_gate c lm txn h]
  | unlock id =>
    left
    simp only [TxnCall.txn_after, unlock]
    split <;> rfl

theorem unlock_state (lm : LockManager) (txn : Transaction) (id : LockDataId) :
    (unlock lm txn id).2.1.state_ = .SHRINKING := by
  unfold unlock
  simp only
  split <;> rfl

/-- The loop of the upgrade branch applies `body` once, when `body` applied twice
is `body` applied once and the queue holds a request of the transaction. -/
theorem upgrade_fold (body : GroupLockMode → GroupLockMode)
    (hidem : ∀ g, body (body g) = body g) (txn_id : Int) :
    ∀ (q : List LockRequest) (g : GroupLockMode),
      (q.foldl (fun g i => if i.txn_id_ = txn_id then body g else g) (body g) = body g) ∧
      ((∃ r ∈ q, r.txn_id_ = txn_id) →
        q.foldl (fun g i => if i.txn_id_ = txn_id then body g else g) g = body g) := by
  intro q
  induction q with
  | nil =>
    intro g
    exact ⟨rfl, fun ⟨r, hr, _⟩ => absurd hr (List.not_mem_nil r)⟩
  | cons i q ih =>
    intro g
    constructor
    · simp only [List.foldl_cons]
      by_cases hi : i.txn_id_ = txn_id
      · simp only [hi, if_true, hidem]
        exact (ih g).1
      · simp only [hi, if_false]
        exact (ih g).1
    · rintro ⟨r, hr, hrt⟩
      simp only [List.foldl_cons]
      by_cases hi : i.txn_id_ = txn_id
      · simp only [hi, if_true]
        exact (ih g).1
      · simp only [hi, if_false]
        rcases List.mem_cons.1 hr with rfl | hr
        · exact absurd hrt hi
        · exact (ih g).2 ⟨r, hr, hrt⟩

theorem upgrade_loop_eq (body : GroupLockMode → GroupLockMode)
    (hidem : ∀ g, body (body g) = body g) (lm : LockManager) (id : LockDataId) (txn_id : Int)
    (hreq : ∃ r ∈ (lm.lock_table_ id).request_queue_, r.txn_id_ = txn_id) :
    upgrade_loop body lm id txn_id =
      lm.set_group_mode id (body (lm.lock_table_ id).group_lock_mode_) := by
  unfold upgrade_loop
  rw [(upgrade_fold body hidem txn_id _ _).2 hreq]
/-! ## Lock manager: the claims -/

/-- C27 fails on the code, at scenario S5.  Transaction 1 gets S on record (0,0)
of table 7 and transaction 2 gets S on it at once; `lock_shared_on_record` never
writes the group mode, which is still `NON_LOCK`.  Transaction 3 then asks for X
on the record: its wait condition is false and the call returns true with group
mode X, while transactions 1 and 2 have not unlocked; S and X are not
compatible.  On a table: transactions 1 and 2 hold S on table 7 with group mode
S; when transaction 1 unlocks, the scan finds no request with `granted_` set and
writes `NON_LOCK`, and transaction 3 gets X while transaction 2 holds S. -/
theorem C27_exclusive_granted_beside_shared :
    lockS5a.2.2 = .returned true ∧ lockS5b.2.2 = .returned true ∧
    (lockS5b.1.lock_table_ ⟨7, .RECORD ⟨0, 0⟩⟩).group_lock_mode_ = .NON_LOCK ∧
    (lockS5b.1.lock_table_ ⟨7, .RECORD ⟨0, 0⟩⟩).request_queue_ =
      [⟨1, .SHARED, false⟩, ⟨2, .SHARED, false⟩] ∧
    lockS5c.2.2 = .returned true ∧
    (lockS5c.1.lock_table_ ⟨7, .RECORD ⟨0, 0⟩⟩).group_lock_mode_ = .X ∧
    compatible_ref .S .X = false ∧
    (lock_shared_on_table (lock_shared_on_table emptyLockManager (newTxn 1) 7).1
      (newTxn 2) 7).2.2 = .returned true ∧
    ((lock_shared_on_table (lock_shared_on_table emptyLockManager (newTxn 1) 7).1
      (newTxn 2) 7).1.lock_table_ ⟨7, .TABLE⟩).group_lock_mode_ = .S ∧
    lockS5t.2.2 = true ∧
    (lockS5t.1.lock_table_ ⟨7, .TABLE⟩).group_lock_mode_ = .NON_LOCK ∧
    (lock_exclusive_on_table lockS5t.1 (newTxn 3) 7).2.2 = .returned true := by
  refine ⟨?_, ?_, ?_, ?_, ?_, ?_, ?_, ?_, ?_, ?_, ?_, ?_⟩ <;> decide

/-- C28 fails on the code for `lock_IX_on_table`.  For a transaction that does
not hold the table lock, on a table entry with any group mode `g` and any queue:
`lock_shared_on_table`, `lock_exclusive_on_table` and `lock_IS_on_table` wait
exactly when `g` is incompatible with S, X and IS, and otherwise leave the join of
`g` and the requested mode as group mode.  `lock_IX_on_table` never waits: its
loop condition is a conjunction that no mode satisfies.  On group mode S, SIX or
X, which are incompatible with IX, it returns true. -/
theorem C28_IX_on_table_never_waits :
    (∀ (g : GroupLockMode) (q : List LockRequest),
      (lock_shared_on_table (lmTable 7 g q) (newTxn 1) 7).2.2 =
          (if compatible_ref g .S = true then .returned true else .waiting) ∧
      (lock_exclusive_on_table (lmTable 7 g q) (newTxn 1) 7).2.2 =
          (if compatible_ref g .X = true then .returned true else .waiting) ∧
      (lock_IS_on_table (lmTable 7 g q) (newTxn 1) 7).2.2 =
          (if compatible_ref g .IS = true then .returned true else .waiting)) ∧
    (∀ (g : GroupLockMode) (q : List LockRequest),
      (compatible_ref g .S = true →
        ((lock_shared_on_table (lmTable 7 g q) (newTxn 1) 7).1.lock_table_
          ⟨7, .TABLE⟩).group_lock_mode_ = join_ref g .S) ∧
      (compatible_ref g .X = true →
        ((lock_exclusive_on_table (lmTable 7 g q) (newTxn 1) 7).1.lock_table_
          ⟨7, .TABLE⟩).group_lock_mode_ = join_ref g .X) ∧
      (compatible_ref g .IS = true →
        ((lock_IS_on_table (lmTable 7 g q) (newTxn 1) 7).1.lock_table_
          ⟨7, .TABLE⟩).group_lock_mode_ = join_ref g .IS) ∧
      (compatible_ref g .IX = true →
        ((lock_IX_on_table (lmTable 7 g q) (newTxn 1) 7).1.lock_table_
          ⟨7, .TABLE⟩).group_lock_mode_ = join_ref g .IX)) ∧
    (∀ (g : GroupLockMode) (q : List LockRequest),
      (lock_IX_on_table (lmTable 7 g q) (newTxn 1) 7).2.2 = .returned true) ∧
    compatible_ref .S .IX = false ∧ compatible_ref .SIX .IX = false ∧
    compatible_ref .X .IX = false ∧
    ((lock_IX_on_table (lmTable 7 .S [⟨2, .SHARED, false⟩]) (newTxn 1) 7).1.lock_table_
      ⟨7, .TABLE⟩).group_lock_mode_ = .SIX := by
  refine ⟨?_, ?_, ?_, by decide, by decide, by decide, by decide⟩
  · intro g q
    cases g <;> exact ⟨rfl, rfl, rfl⟩
  · intro g q
    cases g <;> refine ⟨?_, ?_, ?_, ?_⟩ <;> intro h <;> first | rfl | exact absurd h (by decide)
  · intro g q
    cases g <;> rfl
/-- C29: the READ_UNCOMMITTED pre-check.  For a transaction at isolation level
READ_UNCOMMITTED, in any state and on any lock table, `lock_shared_on_record`,
`lock_shared_on_table` and `lock_IS_on_table` return false and leave the
transaction ABORTED, with the lock table and the lock set unchanged.
`lock_exclusive_on_record`, `lock_exclusive_on_table` and `lock_IX_on_table` do
not read the isolation level: at any other level they give the same result; and
for a transaction in state DEFAULT or GROWING they do not return false, they
leave it GROWING with the id in its lock set. -/
theorem C29_read_uncommitted_precheck (lm : LockManager) (txn : Transaction)
    (hiso : txn.isolation_level_ = .READ_UNCOMMITTED) :
    (∀ rid tab_fd, lock_shared_on_record lm txn rid tab_fd =
      (lm, { txn with state_ := .ABORTED }, .returned false)) ∧
    (∀ tab_fd, lock_shared_on_table lm txn tab_fd =
      (lm, { txn with state_ := .ABORTED }, .returned false)) ∧
    (∀ tab_fd, lock_IS_on_table lm txn tab_fd =
      (lm, { txn with state_ := .ABORTED }, .returned false)) ∧
    (∀ (lvl : IsolationLevel) rid tab_fd,
      lock_exclusive_on_record lm { txn with isolation_level_ := lvl } rid tab_fd =
        ((lock_exclusive_on_record lm txn rid tab_fd).1,
          { (lock_exclusive_on_record lm txn rid tab_fd).2.1 with isolation_level_ := lvl },
          (lock_exclusive_on_record lm txn rid tab_fd).2.2)) ∧
    (∀ (lvl : IsolationLevel) tab_fd,
      lock_exclusive_on_table lm { txn with isolation_level_ := lvl } tab_fd =
        ((lock_exclusive_on_table lm txn tab_fd).1,
          { (lock_exclusive_on_table lm txn tab_fd).2.1 with isolation_level_ := lvl },
          (lock_exclusive_on_table lm txn tab_fd).2.2)) ∧
    (∀ (lvl : IsolationLevel) tab_fd,
      lock_IX_on_table lm { txn with isolation_level_ := lvl } tab_fd =
        ((lock_IX_on_table lm txn tab_fd).1,
          { (lock_IX_on_table lm txn tab_fd).2.1 with isolation_level_ := lvl },
          (lock_IX_on_table lm txn tab_fd).2.2)) ∧
    (txn.state_ = .DEFAULT ∨ txn.state_ = .GROWING →
      (∀ rid tab_fd,
        (lock_exclusive_on_record lm txn rid tab_fd).2.2 ≠ .returned false ∧
        (lock_exclusive_on_record lm txn rid tab_fd).2.1.state_ = .GROWING ∧
        (⟨tab_fd, .RECORD rid⟩ : LockDataId) ∈
          (lock_exclusive_on_record lm txn rid tab_fd).2.1.lock_set_) ∧
      (∀ tab_fd,
        (lock_exclusive_on_table lm txn tab_fd).2.2 ≠ .returned false ∧
        (lock_exclusive_on_table lm txn tab_fd).2.1.state_ = .GROWING ∧
        (⟨tab_fd, .TABLE⟩ : LockDataId) ∈
          (lock_exclusive_on_table lm txn tab_fd).2.1.lock_set_) ∧
      (∀ tab_fd,
        (lock_IX_on_table lm txn tab_fd).2.2 ≠ .returned false ∧
        (lock_IX_on_table lm txn tab_fd).2.1.state_ = .GROWING ∧
        (⟨tab_fd, .TABLE⟩ : LockDataId) ∈
          (lock_IX_on_table lm txn tab_fd).2.1.lock_set_)) := by
  refine ⟨?_, ?_, ?_, ?_, ?_, ?_, ?_⟩
  · intro rid tab_fd
    simp [lock_shared_on_record, hiso]
  · intro tab_fd
    simp [lock_shared_on_table, hiso]
  · intro tab_fd
    simp [lock_IS_on_table, hiso]
  · intro lvl rid tab_fd
    unfold lock_exclusive_on_record
    by_cases hs : txn.state_ = .SHRINKING
    · simp [hs]
    · by_cases ha : txn.state_ = .ABORTED
      · simp [hs, ha]
      · by_cases hm : (⟨tab_fd, .RECORD rid⟩ : LockDataId) ∈ txn.lock_set_
        · simp [hs, ha, hm]
        · simp [hs, ha, hm]
  · intro lvl tab_fd
    unfold lock_exclusive_on_table
    by_cases hs : txn.state_ = .SHRINKING
    · simp [hs]
    · by_cases ha : txn.state_ = .ABORTED
      · simp [hs, ha]
      · by_cases hm : (⟨tab_fd, .TABLE⟩ : LockDataId) ∈ txn.lock_set_
        · simp [hs, ha, hm]
        · simp [hs, ha, hm]
  · intro lvl tab_fd
    unfold lock_IX_on_table
    by_cases hs : txn.state_ = .SHRINKING
    · simp [hs]
    · by_cases ha : txn.state_ = .ABORTED
      · simp [hs, ha]
      · by_cases hm : (⟨tab_fd, .TABLE⟩ : LockDataId) ∈ txn.lock_set_
        · simp [hs, ha, hm]
        · simp [hs, ha, hm]
  · intro hst
    have hs : txn.state_ ≠ .SHRINKING := by rcases hst with h | h <;> simp [h]
    have ha : txn.state_ ≠ .ABORTED := by rcases hst with h | h <;> simp [h]
    refine ⟨?_, ?_, ?_⟩
    · intro rid tab_fd
      unfold lock_exclusive_on_record
      by_cases hm : (⟨tab_fd, .RECORD rid⟩ : LockDataId) ∈ txn.lock_set_
      · simp [hs, ha, hm]
      · simp only [hs, ha, hm, if_false]
        refine ⟨?_, trivial, by simp⟩
        unfold grant_exclusive
        simp only
        split <;> simp
    · intro tab_fd
      unfold lock_exclusive_on_table
      by_cases hm : (⟨tab_fd, .TABLE⟩ : LockDataId) ∈ txn.lock_set_
      · simp [hs, ha, hm]
      · simp only [hs, ha, hm, if_false]
        refine ⟨?_, trivial, by simp⟩
        unfold grant_exclusive
        simp only
        split <;> simp
    · intro tab_fd
      unfold lock_IX_on_table
      by_cases hm : (⟨tab_fd, .TABLE⟩ : LockDataId) ∈ txn.lock_set_
      · simp [hs, ha, hm]
      · simp only [hs, ha, hm, if_false]
        refine ⟨?_, trivial, by simp⟩
        unfold grant_IX_on_table
        simp only
        split <;> simp

/-- Witness of C29: transaction 1 at level READ_UNCOMMITTED in state DEFAULT on
the empty lock table: `lock_shared_on_table` returns false and leaves it
ABORTED; `lock_exclusive_on_table` returns true and leaves it GROWING. -/
theorem C29_read_uncommitted_precheck_witness :
    (lock_shared_on_table emptyLockManager
      { newTxn 1 with isolation_level_ := .READ_UNCOMMITTED } 7).2 =
      ({ txn_id_ := 1, isolation_level_ := .READ_UNCOMMITTED, state_ := .ABORTED,
         lock_set_ := [] }, .returned false) ∧
    (lock_exclusive_on_table emptyLockManager
      { newTxn 1 with isolation_level_ := .READ_UNCOMMITTED } 7).2 =
      ({ txn_id_ := 1, isolation_level_ := .READ_UNCOMMITTED, state_ := .GROWING,
         lock_set_ := [⟨7, .TABLE⟩] }, .returned true) ∧
    (lock_exclusive_on_table emptyLockManager
      { newTxn 1 with isolation_level_ := .READ_UNCOMMITTED } 7).2.2 ≠ .returned false :=
  ⟨congrArg Prod.snd
      ((C29_read_uncommitted_precheck emptyLockManager
        { newTxn 1 with isolation_level_ := .READ_UNCOMMITTED } rfl).2.1 7),
    by decide,
    (((C29_read_uncommitted_precheck emptyLockManager
        { newTxn 1 with isolation_level_ := .READ_UNCOMMITTED } rfl).2.2.2.2.2.2
      (Or.inl rfl)).2.1 7).1⟩
/-- C30 fails on the code.  Transaction 1 holds IS on table 7, with group mode
IS.  Its repeated request `lock_IX_on_table` returns true and appends nothing to
the queue, but turns the group mode into IX, where the claim leaves IS with a
request for IX unchanged.  And transaction 1 holding S on record (0,0), with
group mode `NON_LOCK`, repeats `lock_shared_on_record`: the group mode stays
`NON_LOCK`, where the claim turns it into S. -/
theorem C30_repeated_IX_turns_IS_into_IX :
    lockC30a.2.2 = .returned true ∧
    (lockC30a.1.lock_table_ ⟨7, .TABLE⟩).group_lock_mode_ = .IS ∧
    (lock_IX_on_table lockC30a.1 lockC30a.2.1 7).2.2 = .returned true ∧
    ((lock_IX_on_table lockC30a.1 lockC30a.2.1 7).1.lock_table_ ⟨7, .TABLE⟩).request_queue_ =
      (lockC30a.1.lock_table_ ⟨7, .TABLE⟩).request_queue_ ∧
    ((lock_IX_on_table lockC30a.1 lockC30a.2.1 7).1.lock_table_
      ⟨7, .TABLE⟩).group_lock_mode_ = .IX ∧
    (lockS5a.1.lock_table_ ⟨7, .RECORD ⟨0, 0⟩⟩).group_lock_mode_ = .NON_LOCK ∧
    (lock_shared_on_record lockS5a.1 lockS5a.2.1 ⟨0, 0⟩ 7).2.2 = .returned true ∧
    ((lock_shared_on_record lockS5a.1 lockS5a.2.1 ⟨0, 0⟩ 7).1.lock_table_
      ⟨7, .RECORD ⟨0, 0⟩⟩).group_lock_mode_ = .NON_LOCK := by
  refine ⟨?_, ?_, ?_, ?_, ?_, ?_, ?_, ?_⟩ <;> decide

/-- C30 (amended): lock upgrade in place.  For a transaction that is neither
SHRINKING nor ABORTED, a repeated request on an id that is in its lock set and for
which the queue holds a request of it returns true and changes nothing but the
state of the transaction, which is GROWING, and the group mode of the id: no
queue gets a new entry.  The group mode changes as follows: `lock_IX_on_table`
turns S into SIX and `NON_LOCK` or IS into IX; `lock_shared_on_table` turns IX
into SIX and `NON_LOCK` or IS into S, and `lock_IS_on_table` turns `NON_LOCK`
into IS, both for a transaction not at level READ_UNCOMMITTED;
`lock_exclusive_on_table` and `lock_exclusive_on_record` turn every group mode
into X; in all other combinations the group mode is unchanged. -/
theorem C30_upgrade_in_place (lm : LockManager) (txn : Transaction)
    (hs : txn.state_ ≠ .SHRINKING) (ha : txn.state_ ≠ .ABORTED) :
    (∀ tab_fd, (⟨tab_fd, .TABLE⟩ : LockDataId) ∈ txn.lock_set_ →
      (∃ r ∈ (lm.lock_table_ ⟨tab_fd, .TABLE⟩).request_queue_, r.txn_id_ = txn.txn_id_) →
      lock_IX_on_table lm txn tab_fd =
          (lm.set_group_mode ⟨tab_fd, .TABLE⟩
            (match (lm.lock_table_ ⟨tab_fd, .TABLE⟩).group_lock_mode_ with
              | .S => .SIX
              | .NON_LOCK => .IX
              | .IS => .IX
              | g => g),
            { txn with state_ := .GROWING }, .returned true) ∧
      lock_exclusive_on_table lm txn tab_fd =
          (lm.set_group_mode ⟨tab_fd, .TABLE⟩ .X, { txn with state_ := .GROWING },
            .returned true) ∧
      (txn.isolation_level_ ≠ .READ_UNCOMMITTED →
        lock_shared_on_table lm txn tab_fd =
          (lm.set_group_mode ⟨tab_fd, .TABLE⟩
            (match (lm.lock_table_ ⟨tab_fd, .TABLE⟩).group_lock_mode_ with
              | .IX => .SIX
              | .NON_LOCK => .S
              | .IS => .S
              | g => g),
            { txn with state_ := .GROWING }, .returned true) ∧
        lock_IS_on_table lm txn tab_fd =
          (lm.set_group_mode ⟨tab_fd, .TABLE⟩
            (match (lm.lock_table_ ⟨tab_fd, .TABLE⟩).group_lock_mode_ with
              | .NON_LOCK => .IS
              | g => g),
            { txn with state_ := .GROWING }, .returned true))) ∧
    (∀ rid tab_fd, (⟨tab_fd, .RECORD rid⟩ : LockDataId) ∈ txn.lock_set_ →
      (∃ r ∈ (lm.lock_table_ ⟨tab_fd, .RECORD rid⟩).request_queue_,
        r.txn_id_ = txn.txn_id_) →
      lock_exclusive_on_record lm txn rid tab_fd =
        (lm.set_group_mode ⟨tab_fd, .RECORD rid⟩ .X, { txn with state_ := .GROWING },
          .returned true)) ∧
    (∀ (id : LockDataId) (g : GroupLockMode) (id1 : LockDataId),
      ((lm.set_group_mode id g).lock_table_ id1).request_queue_ =
        (lm.lock_table_ id1).request_queue_) := by
  refine ⟨?_, ?_, ?_⟩
  · intro tab_fd hm hreq
    refine ⟨?_, ?_, ?_⟩
    · unfold lock_IX_on_table
      simp only [hs, ha, hm, if_false, if_true]
      rw [upgrade_loop_eq IX_on_table_mode (by intro g; cases g <;> rfl) lm _ _ hreq]
      congr 2
      cases (lm.lock_table_ ⟨tab_fd, .TABLE⟩).group_lock_mode_ <;> rfl
    · unfold lock_exclusive_on_table
      simp only [hs, ha, hm, if_false, if_true]
      rw [upgrade_loop_eq (fun _ => .X) (by intro g; rfl) lm _ _ hreq]
    · intro hiso
      refine ⟨?_, ?_⟩
      · unfold lock_shared_on_table
        simp only [hs, ha, hiso, hm, or_self, if_false, if_true]
        rw [upgrade_loop_eq shared_on_table_mode (by intro g; cases g <;> rfl) lm _ _ hreq]
        congr 2
        cases (lm.lock_table_ ⟨tab_fd, .TABLE⟩).group_lock_mode_ <;> rfl
      · unfold lock_IS_on_table
        simp only [hs, ha, hiso, hm, or_self, if_false, if_true]
        rw [upgrade_loop_eq IS_on_table_mode (by intro g; cases g <;> rfl) lm _ _ hreq]
        congr 2
        cases (lm.lock_table_ ⟨tab_fd, .TABLE⟩).group_lock_mode_ <;> rfl
  · intro rid tab_fd hm hreq
    unfold lock_exclusive_on_record
    simp only [hs, ha, hm, if_false, if_true]
    rw [upgrade_loop_eq (fun _ => .X) (by intro g; rfl) lm _ _ hreq]
  · intro id g id1
    unfold LockManager.set_group_mode
    by_cases h : id1 = id
    · subst h; simp
    · simp [Function.update_noteq h]

/-- Witness of the amended C30: transaction 1 holds IS on table 7 with group mode
IS; its repeated `lock_IX_on_table` returns true with group mode IX, and its
repeated `lock_shared_on_table` returns true with group mode S. -/
theorem C30_upgrade_in_place_witness :
    lock_IX_on_table lockC30a.1 lockC30a.2.1 7 =
      (lockC30a.1.set_group_mode ⟨7, .TABLE⟩ .IX,
        { lockC30a.2.1 with state_ := .GROWING }, .returned true) ∧
    (lock_shared_on_table lockC30a.1 lockC30a.2.1 7).2.2 = .returned true :=
  ⟨((C30_upgrade_in_place lockC30a.1 lockC30a.2.1 (by decide) (by decide)).1 7
      (by decide) ⟨⟨1, .SHARED, false⟩, by decide, rfl⟩).1,
    by decide⟩

/-! ## Lock manager: lemmas on unlock -/

theorem set_group_mode_queue (lm : LockManager) (id : LockDataId) (g : GroupLockMode)
    (id1 : LockDataId) :
    ((lm.set_group_mode id g).lock_table_ id1).request_queue_ =
      (lm.lock_table_ id1).request_queue_ := by
  unfold LockManager.set_group_mode
  by_cases h : id1 = id
  · subst h; simp
  · simp [Function.update_noteq h]

theorem set_group_mode_mode (lm : LockManager) (id : LockDataId) (g : GroupLockMode) :
    ((lm.set_group_mode id g).lock_table_ id).group_lock_mode_ = g := by
  simp [LockManager.set_group_mode]

theorem push_request_queue (lm : LockManager) (id : LockDataId) (r : LockRequest)
    (id1 : LockDataId) :
    ((lm.push_request id r).lock_table_ id1).request_queue_ =
      if id1 = id then (lm.lock_table_ id).request_queue_ ++ [r]
      else (lm.lock_table_ id1).request_queue_ := by
  unfold LockManager.push_request
  by_cases h : id1 = id
  · subst h; simp
  · simp [Function.update_noteq h, h]

/-- The call `unlock` leaves every request queue as it is. -/
theorem unlock_queue (lm : LockManager) (txn : Transaction) (id id1 : LockDataId) :
    ((unlock lm txn id).1.lock_table_ id1).request_queue_ =
      (lm.lock_table_ id1).request_queue_ := by
  unfold unlock
  simp only
  split
  · exact set_group_mode_queue lm _ _ id1
  · rfl

theorem unlock_lock_set (lm : LockManager) (txn : Transaction) (id : LockDataId) :
    (unlock lm txn id).2.1.lock_set_ = txn.lock_set_ := by
  unfold unlock
  simp only
  split <;> rfl

theorem NoGrant.set_group_mode {lm : LockManager} (h : NoGrant lm) (id : LockDataId)
    (g : GroupLockMode) : NoGrant (lm.set_group_mode id g) := by
  intro id1 r hr
  rw [set_group_mode_queue] at hr
  exact h id1 r hr

theorem NoGrant.push_request {lm : LockManager} (h : NoGrant lm) (id : LockDataId)
    (txn_id : Int) (m : LockMode) : NoGrant (lm.push_request id ⟨txn_id, m, false⟩) := by
  intro id1 r hr
  rw [push_request_queue] at hr
  split at hr
  · rcases List.mem_append.1 hr with hr | hr
    · exact h id r hr
    · rw [List.mem_singleton.1 hr]
  · exact h id1 r hr

theorem NoGrant.upgrade_loop {lm : LockManager} (h : NoGrant lm)
    (body : GroupLockMode → GroupLockMode) (id : LockDataId) (txn_id : Int) :
    NoGrant (upgrade_loop body lm id txn_id) :=
  h.set_group_mode _ _

/-- Every lock function keeps `NoGrant`: the requests it pushes have `granted_`
false and it writes no request of a queue. -/
theorem lock_call_noGrant (c : LockCall) (lm : LockManager) (txn : Transaction)
    (h : NoGrant lm) : NoGrant (c.run lm txn).1 := by
  cases c with
  | shared_on_record rid tab_fd =>
    simp only [LockCall.run, lock_shared_on_record, grant_shared_on_record]
    split_ifs <;> first | exact h | exact h.push_request _ _ _
  | exclusive_on_record rid tab_fd =>
    simp only [LockCall.run, lock_exclusive_on_record, grant_exclusive]
    split_ifs <;>
      first
      | exact h
      | exact h.upgrade_loop _ _ _
      | exact h.push_request _ _ _
      | exact (h.push_request _ _ _).set_group_mode _ _
  | shared_on_table tab_fd =>
    simp only [LockCall.run, lock_shared_on_table, grant_shared_on_table]
    split_ifs <;>
      first
      | exact h
      | exact h.upgrade_loop _ _ _
      | exact h.push_request _ _ _
      | exact (h.push_request _ _ _).set_group_mode _ _
  | exclusive_on_table tab_fd =>
    simp only [LockCall.run, lock_exclusive_on_table, grant_exclusive]
    split_ifs <;>
      first
      | exact h
      | exact h.upgrade_loop _ _ _
      | exact h.push_request _ _ _
      | exact (h.push_request _ _ _).set_group_mode _ _
  | IS_on_table tab_fd =>
    simp only [LockCall.run, lock_IS_on_table, grant_IS_on_table]
    split_ifs <;>
      first
      | exact h
      | exact h.upgrade_loop _ _ _
      | exact h.push_request _ _ _
      | exact (h.push_request _ _ _).set_group_mode _ _
  | IX_on_table tab_fd =>
    simp only [LockCall.run, lock_IX_on_table, grant_IX_on_table]
    split_ifs <;>
      first
      | exact h
      | exact h.upgrade_loop _ _ _
      | exact h.push_request _ _ _
      | exact (h.push_request _ _ _).set_group_mode _ _

theorem unlock_noGrant (lm : LockManager) (txn : Transaction) (id : LockDataId)
    (h : NoGrant lm) : NoGrant (unlock lm txn id).1 := by
  intro id1 r hr
  rw [unlock_queue] at hr
  exact h id1 r hr

theorem lm_after_calls_noGrant :
    ∀ (calls : List (Transaction × TxnCall)) (lm : LockManager),
      NoGrant lm → NoGrant (lm_after_calls lm calls) := by
  intro calls
  induction calls with
  | nil => intro lm h; exact h
  | cons a rest ih =>
    intro lm h
    obtain ⟨txn, c⟩ := a
    apply ih
    cases c with
    | lock c => exact lock_call_noGrant c lm txn h
    | unlock id => exact unlock_noGrant lm txn id h

/-- The scan of `unlock` over a queue without granted request ends with
`NON_LOCK`. -/
theorem unlock_scan_noGrant :
    ∀ (q : List LockRequest), (∀ r ∈ q, r.granted_ = false) →
      q.foldl unlock_scan_step .NON_LOCK = .NON_LOCK := by
  intro q
  induction q with
  | nil => intro _; rfl
  | cons r q ih =>
    intro h
    have hr : r.granted_ = false := h r (List.mem_cons_self r q)
    have hstep : unlock_scan_step .NON_LOCK r = .NON_LOCK := by
      simp [unlock_scan_step, hr]
    rw [List.foldl_cons, hstep]
    exact ih (fun x hx => h x (List.mem_cons_of_mem r hx))

/-! ## Lock manager: the claims on unlock -/

/-- C31 fails on the code.  `unlock` takes no request out of a queue: on every
lock table, for every transaction and id, every queue afterwards is the queue
before, and the id stays in the lock set of the transaction.  The requests of the
other transactions are still there in their order, as claimed, and so is the
request of the caller.  Transactions 1 and 2 hold S on table 7 and transaction
1 unlocks it: the call returns true and the queue still holds the requests of
transaction 1 and of transaction 2.  In scenario S4 the queue of table 7 still
holds the request of transaction 1 after its `unlock`. -/
theorem C31_unlock_keeps_the_request :
    (∀ (lm : LockManager) (txn : Transaction) (id id1 : LockDataId),
      ((unlock lm txn id).1.lock_table_ id1).request_queue_ =
        (lm.lock_table_ id1).request_queue_) ∧
    (∀ (lm : LockManager) (txn : Transaction) (id : LockDataId),
      (unlock lm txn id).2.1.lock_set_ = txn.lock_set_) ∧
    lockS5t.2.2 = true ∧ lockS5t.2.1.txn_id_ = 1 ∧
    (lockS5t.1.lock_table_ ⟨7, .TABLE⟩).request_queue_ =
      [⟨1, .SHARED, false⟩, ⟨2, .SHARED, false⟩] ∧
    lockS4b.2.2 = true ∧ lockS4b.2.1.txn_id_ = 1 ∧
    (lockS4b.1.lock_table_ ⟨7, .TABLE⟩).request_queue_ = [⟨1, .SHARED, false⟩] := by
  refine ⟨?_, ?_, by decide, by decide, by decide, by decide, by decide, by decide⟩
  · intro lm txn id id1
    exact unlock_queue lm txn id id1
  · intro lm txn id
    exact unlock_lock_set lm txn id

/-- C32 fails on the code.  Every lock function pushes its request with `granted_`
false and sets the flag afterwards on the object it copied from, so on every lock
table reached from the empty one by calls of the lock functions and of `unlock`,
by any transactions, no request of a queue is granted, and the scan of `unlock`
writes `NON_LOCK` whoever else holds the id.  Transactions 1 and 2 hold S on
table 7, with group mode S; transaction 1 unlocks: the group mode is `NON_LOCK`,
where the join of the surviving grant is S.  Transaction 1 holds IS and
transaction 2 holds IX on table 7, with group mode IX; transaction 1 unlocks: the
group mode is `NON_LOCK`, where the join is IX.  For the only holder the group
mode is `NON_LOCK`, as claimed. -/
theorem C32_unlock_writes_NON_LOCK :
    (∀ (calls : List (Transaction × TxnCall)) (txn : Transaction) (id : LockDataId),
      id ∈ txn.lock_set_ →
      ((unlock (lm_after_calls emptyLockManager calls) txn id).1.lock_table_
        id).group_lock_mode_ = .NON_LOCK) ∧
    ((lock_shared_on_table (lock_shared_on_table emptyLockManager (newTxn 1) 7).1
      (newTxn 2) 7).1.lock_table_ ⟨7, .TABLE⟩).group_lock_mode_ = .S ∧
    lockS5t.2.2 = true ∧
    (lockS5t.1.lock_table_ ⟨7, .TABLE⟩).group_lock_mode_ = .NON_LOCK ∧
    join_ref .NON_LOCK .S = .S ∧
    lockC30a.2.2 = .returned true ∧ lockC32a.2.2 = .returned true ∧
    (lockC32a.1.lock_table_ ⟨7, .TABLE⟩).group_lock_mode_ = .IX ∧
    lockC32b.2.2 = true ∧
    (lockC32b.1.lock_table_ ⟨7, .TABLE⟩).group_lock_mode_ = .NON_LOCK ∧
    join_ref .NON_LOCK .IX = .IX ∧
    lockS4b.2.2 = true ∧
    (lockS4b.1.lock_table_ ⟨7, .TABLE⟩).group_lock_mode_ = .NON_LOCK := by
  refine ⟨?_, by decide, by decide, by decide, by decide, by decide, by decide, by decide,
    by decide, by decide, by decide, by decide, by decide⟩
  intro calls txn id hid
  have hng : NoGrant (lm_after_calls emptyLockManager calls) :=
    lm_after_calls_noGrant calls emptyLockManager
      (fun id r hr => absurd hr (List.not_mem_nil r))
  unfold unlock
  simp only [hid, if_true]
  rw [set_group_mode_mode]
  exact unlock_scan_noGrant _ (hng id)

/-! ## Transaction manager: lemmas -/

theorem pop_all_nil : ∀ (fuel : Nat) (wset : List WriteRecord),
    wset.length ≤ fuel → pop_all fuel wset = [] := by
  intro fuel
  induction fuel with
  | zero =>
    intro wset h
    have : wset = [] := List.length_eq_zero.1 (Nat.le_zero.1 h)
    subst this
    rfl
  | succ fuel ih =>
    intro wset h
    unfold pop_all
    cases wset with
    | nil => rfl
    | cons w ws =>
      simp only [List.isEmpty_cons, Bool.false_eq_true, if_false]
      apply ih
      rw [List.length_dropLast]
      simp only [List.length_cons] at h ⊢
      omega

theorem unlock_txn (lm : LockManager) (txn : Transaction) (id : LockDataId) :
    (unlock lm txn id).2.1 = { txn with state_ := .SHRINKING } := by
  unfold unlock
  simp only
  split <;> rfl

theorem unlock_lm (lm : LockManager) (txn : Transaction) (id : LockDataId)
    (h : id ∈ txn.lock_set_) :
    (unlock lm txn id).1 =
      lm.set_group_mode id
        ((lm.lock_table_ id).request_queue_.foldl unlock_scan_step .NON_LOCK) := by
  unfold unlock
  simp only [h, if_true]

theorem unlocked_entry_idem (q : LockRequestQueue) :
    unlocked_entry (unlocked_entry q) = unlocked_entry q := rfl

theorem set_group_mode_entry (lm : LockManager) (id id1 : LockDataId) :
    (lm.set_group_mode id
      ((lm.lock_table_ id).request_queue_.foldl unlock_scan_step .NON_LOCK)).lock_table_ id1 =
      if id1 = id then unlocked_entry (lm.lock_table_ id1) else lm.lock_table_ id1 := by
  unfold LockManager.set_group_mode
  by_cases h : id1 = id
  · subst h
    simp [unlocked_entry]
  · simp [Function.update_noteq h, h]

/-- The transaction after the loop over the lock set: its state is SHRINKING when
the loop made a call, and nothing else has changed. -/
theorem release_fold_txn : ∀ (l : List LockDataId) (lm : LockManager) (t : Transaction),
    (l.foldl (fun s i => ((unlock s.1 s.2 i).1, (unlock s.1 s.2 i).2.1)) (lm, t)).2 =
      if l = [] then t else { t with state_ := .SHRINKING } := by
  intro l
  induction l with
  | nil => intro lm t; rfl
  | cons i l ih =>
    intro lm t
    rw [List.foldl_cons, ih]
    simp only [unlock_txn]
    split <;> simp

/-- The lock table after the loop over the lock set: the entry of every id of the
set is what `unlock` makes of it, the other entries are as before. -/
theorem release_fold_lm : ∀ (l : List LockDataId) (lm : LockManager) (t : Transaction),
    (∀ i ∈ l, i ∈ t.lock_set_) → ∀ id,
    (l.foldl (fun s i => ((unlock s.1 s.2 i).1, (unlock s.1 s.2 i).2.1)) (lm, t)).1.lock_table_ id =
      if id ∈ l then unlocked_entry (lm.lock_table_ id) else lm.lock_table_ id := by
  intro l
  induction l with
  | nil => intro lm t _ id; simp
  | cons i l ih =>
    intro lm t h id
    rw [List.foldl_cons]
    have hi : i ∈ t.lock_set_ := h i (List.mem_cons_self i l)
    have hl : ∀ j ∈ l, j ∈ ((unlock lm t i).2.1).lock_set_ := by
      intro j hj
      rw [unlock_lock_set]
      exact h j (List.mem_cons_of_mem i hj)
    rw [ih _ _ hl id, unlock_lm lm t i hi, set_group_mode_entry]
    by_cases hid : id = i
    · subst hid
      simp [unlocked_entry_idem]
    · simp [hid]

theorem release_locks_txn (lm : LockManager) (txn : Transaction) (st : TransactionState) :
    ({ (release_locks lm txn).2 with lock_set_ := [], state_ := st } : Transaction) =
      { txn with lock_set_ := [], state_ := st } := by
  unfold release_locks
  rw [release_fold_txn]
  split <;> rfl

theorem release_locks_lm (lm : LockManager) (txn : Transaction) (id : LockDataId) :
    (release_locks lm txn).1.lock_table_ id =
      if id ∈ txn.lock_set_ then unlocked_entry (lm.lock_table_ id)
      else lm.lock_table_ id := by
  unfold release_locks
  exact release_fold_lm txn.lock_set_ lm txn (fun _ h => h) id

/-- The loop of `abort` ends, with the write set empty, when every undo action
returns; its undo actions are those of the write records from the last to the
first. -/
theorem abort_loop_eq {σ : Type} (rb : Rollback σ) :
    ∀ (fuel : Nat) (wset : List WriteRecord) (sm : σ), wset.length ≤ fuel →
      abort_loop rb fuel sm wset =
        (undo_all rb sm wset.reverse).map (fun sm1 => (sm1, [])) := by
  intro fuel
  induction fuel with
  | zero =>
    intro wset sm h
    have : wset = [] := List.length_eq_zero.1 (Nat.le_zero.1 h)
    subst this
    rfl
  | succ fuel ih =>
    intro wset sm h
    rcases List.eq_nil_or_concat wset with hw | ⟨ws, w, hw⟩
    · subst hw
      rfl
    · rw [List.concat_eq_append] at hw
      subst hw
      have hl : (ws ++ [w]).getLast? = some w := by simp
      have hd : (ws ++ [w]).dropLast = ws := by simp
      have hr : (ws ++ [w]).reverse = w :: ws.reverse := by simp
      rw [abort_loop, hl, hd, hr, undo_all]
      simp only
      cases hu : undo rb sm w with
      | none => rfl
      | some sm1 =>
        simp only
        apply ih
        simp only [List.length_append, List.length_singleton] at h
        omega

/-! ## Transaction manager: the claims -/

/-- C33 fails on the code, for the null pointer.  In `begin` the new transaction is
bound to a local of the `if` block that hides the parameter; behind the block
`txn` is the parameter again, the null pointer, and
`txn->get_transaction_id()` reads through it: for every state of the manager the
call has no result, where the claim has it return the new transaction with id
`n`, registered under `n`.  For an existing transaction the call returns it
unchanged, registers it under its own id and leaves the next id as it is, as
claimed. -/
theorem C33_begin_reads_the_null_parameter :
    (∀ (σ : Type) (tm : TransactionManager σ), begin tm none = none) ∧
    (∀ (σ : Type) (tm : TransactionManager σ) (t : Transaction),
      begin tm (some t) =
        some ({ tm with txn_map := Function.update tm.txn_map t.txn_id_ (some t) }, t)) ∧
    (begin (newTm 5 ()) none).isNone = true ∧
    (begin (newTm 5 ()) (some (newTxn 3))).map
        (fun r => (r.2, r.1.txn_map 3, r.1.txn_map 5, r.1.next_txn_id_)) =
      some (newTxn 3, some (newTxn 3), none, 5) := by
  refine ⟨?_, ?_, by decide, by decide⟩
  · intro σ tm
    rfl
  · intro σ tm t
    rfl

/-- C34: the postcondition of `commit`.  For every state of the transaction
manager and every transaction, with any write set and lock set: afterwards the
write set and the lock set are empty, the state is COMMITTED and id and isolation
level are as before; the system manager, with heap and index files, is the one
before, so no rollback action has been applied; the lock table is the one the
loop of `unlock` calls over the lock set leaves, in which the entry of every id of
the lock set is what `unlock` makes of it and every other entry is as before;
the counter and the map of the manager are as before. -/
theorem C34_commit_postcondition {σ : Type} (tm : TransactionManager σ) (txn : Transaction) :
    (commit tm txn).2 =
      { txn with write_set_ := [], lock_set_ := [], state_ := .COMMITTED } ∧
    (commit tm txn).1.sm_manager_ = tm.sm_manager_ ∧
    (commit tm txn).1.lock_manager_ =
      (release_locks tm.lock_manager_ { txn with write_set_ := [] }).1 ∧
    (∀ id, (commit tm txn).1.lock_manager_.lock_table_ id =
      if id ∈ txn.lock_set_ then unlocked_entry (tm.lock_manager_.lock_table_ id)
      else tm.lock_manager_.lock_table_ id) ∧
    (commit tm txn).1.next_txn_id_ = tm.next_txn_id_ ∧
    (commit tm txn).1.txn_map = tm.txn_map := by
  have hp : pop_all txn.write_set_.length txn.write_set_ = [] :=
    pop_all_nil _ _ le_rfl
  refine ⟨?_, rfl, ?_, ?_, rfl, rfl⟩
  · unfold commit
    simp only [hp]
    exact release_locks_txn _ _ _
  · unfold commit
    simp only [hp]
  · intro id
    unfold commit
    simp only [hp]
    exact release_locks_lm _ _ id

/-- C35: `abort` undoes in reverse order.  For all rollback functions, every
state of the transaction manager and every transaction: the call applies the undo
actions of the write records from the last appended to the first, one per record,
as long as they return; the undo action of a record is `rollback_insert` at its
Rid for INSERT, `rollback_delete` with its before-image for DELETE and
`rollback_update` at its Rid with its before-image for UPDATE; when they have
returned the write set and the lock set are empty, the state is ABORTED, and the
lock table is the one the loop of `unlock` calls over the lock set leaves, in which
the entry of every id of the lock set is what `unlock` makes of it.  With
rollback functions that always return `abort` returns. -/
theorem C35_abort_undoes_in_reverse_order {σ : Type} (rb : Rollback σ)
    (tm : TransactionManager σ) (txn : Transaction) :
    abort rb tm txn =
      (undo_all rb tm.sm_manager_ txn.write_set_.reverse).map (fun sm1 =>
        ({ tm with
            sm_manager_ := sm1
            lock_manager_ := (release_locks tm.lock_manager_ { txn with write_set_ := [] }).1 },
          { txn with write_set_ := [], lock_set_ := [], state_ := .ABORTED })) ∧
    (∀ (sm : σ) (w : WriteRecord), undo rb sm w =
      match w.wtype_ with
      | .INSERT_TUPLE => rb.rollback_insert sm w.tab_name_ w.rid_
      | .DELETE_TUPLE => rb.rollback_delete sm w.tab_name_ w.record_
      | .UPDATE_TUPLE => rb.rollback_update sm w.tab_name_ w.rid_ w.record_) ∧
    (∀ id, (release_locks tm.lock_manager_ { txn with write_set_ := [] }).1.lock_table_ id =
      if id ∈ txn.lock_set_ then unlocked_entry (tm.lock_manager_.lock_table_ id)
      else tm.lock_manager_.lock_table_ id) ∧
    ((∀ (sm : σ) (w : WriteRecord), (undo rb sm w).isSome = true) →
      (abort rb tm txn).isSome = true) := by
  have habort : abort rb tm txn =
      (undo_all rb tm.sm_manager_ txn.write_set_.reverse).map (fun sm1 =>
        ({ tm with
            sm_manager_ := sm1
            lock_manager_ := (release_locks tm.lock_manager_ { txn with write_set_ := [] }).1 },
          { txn with write_set_ := [], lock_set_ := [], state_ := .ABORTED })) := by
    unfold abort
    rw [abort_loop_eq rb _ _ _ le_rfl]
    cases undo_all rb tm.sm_manager_ txn.write_set_.reverse with
    | none => rfl
    | some sm1 =>
      simp only [Option.map_some']
      rw [release_locks_txn]
  refine ⟨habort, ?_, ?_, ?_⟩
  · intro sm w
    unfold undo
    cases w.wtype_ <;> simp
  · intro id
    exact release_locks_lm _ _ id
  · intro htot
    rw [habort, Option.isSome_map']
    have : ∀ (ws : List WriteRecord) (sm : σ), (undo_all rb sm ws).isSome = true := by
      intro ws
      induction ws with
      | nil => intro sm; rfl
      | cons w ws ih =>
        intro sm
        unfold undo_all
        cases hu : undo rb sm w with
        | none =>
          have := htot sm w
          rw [hu] at this
          exact absurd this (by simp)
        | some sm1 => exact ih sm1
    exact this _ _

/-- Witness of C35: with rollback functions that record their calls, `abort` of a
transaction whose write set is an insert at (1,0), a delete of the record 5 and
an update at (1,2) of the record 6 makes the calls `rollback_update` at (1,2)
with 6, `rollback_delete` with 5, `rollback_insert` at (1,0), in this order, and
leaves the transaction ABORTED with empty write set and lock set. -/
theorem C35_abort_undoes_in_reverse_order_witness :
    (abort rbTrace (newTm 2 []) txnC35).map (fun r => (r.1.sm_manager_, r.2)) =
      some ([.rollback_update "t" ⟨1, 2⟩ [6], .rollback_delete "t" [5],
          .rollback_insert "t" ⟨1, 0⟩],
        { txn_id_ := 1, isolation_level_ := .SERIALIZABLE, state_ := .ABORTED,
          lock_set_ := [], write_set_ := [] }) ∧
    (abort rbTrace (newTm 2 []) txnC35).isSome = true :=
  ⟨by
      rw [(C35_abort_undoes_in_reverse_order rbTrace (newTm 2 []) txnC35).1]
      decide,
    (C35_abort_undoes_in_reverse_order rbTrace (newTm 2 []) txnC35).2.2.2
      (by
        intro sm w
        unfold undo rbTrace
        cases w.wtype_ <;> simp)⟩

/-! ## Transaction manager: the strict 2PL gate -/

theorem abort_txn_state {σ : Type} (rb : Rollback σ) (tm : TransactionManager σ)
    (txn : Transaction) (r : TransactionManager σ × Transaction)
    (h : abort rb tm txn = some r) : r.2.state_ = .ABORTED := by
  unfold abort at h
  cases ha : abort_loop rb txn.write_set_.length tm.sm_manager_ txn.write_set_ with
  | none => simp [ha] at h
  | some x =>
    simp only [ha, Option.some.injEq] at h
    subst h
    rfl

/-- Every call but `commit` keeps a transaction that is SHRINKING or ABORTED in
one of these two states. -/
theorem txn_event_gate {σ : Type} (e : TxnEvent σ) (txn t : Transaction)
    (hc : e.is_commit = false) (h : txn.state_ = .SHRINKING ∨ txn.state_ = .ABORTED)
    (he : e.txn_after txn = some t) : t.state_ = .SHRINKING ∨ t.state_ = .ABORTED := by
  cases e with
  | call lm c =>
    simp only [TxnEvent.txn_after, Option.some.injEq] at he
    subst he
    exact txn_after_gate c lm txn h
  | begin tm =>
    simp only [TxnEvent.txn_after, begin, Option.map_some', Option.some.injEq] at he
    subst he
    exact h
  | commit tm => simp [TxnEvent.is_commit] at hc
  | abort rb tm =>
    simp only [TxnEvent.txn_after] at he
    cases ha : UniBase.abort rb tm txn with
    | none => simp [ha] at he
    | some r =>
      simp only [ha, Option.map_some', Option.some.injEq] at he
      subst he
      exact Or.inr (abort_txn_state rb tm txn r ha)

theorem txn_after_events_gate {σ : Type} :
    ∀ (later : List (TxnEvent σ)) (txn t : Transaction),
      (∀ e ∈ later, e.is_commit = false) →
      (txn.state_ = .SHRINKING ∨ txn.state_ = .ABORTED) →
      txn_after_events txn later = some t →
      t.state_ = .SHRINKING ∨ t.state_ = .ABORTED := by
  intro later
  induction later with
  | nil =>
    intro txn t _ h hr
    simp only [txn_after_events, Option.some.injEq] at hr
    subst hr
    exact h
  | cons e rest ih =>
    intro txn t hno h hr
    simp only [txn_after_events] at hr
    cases he : e.txn_after txn with
    | none => simp [he] at hr
    | some t1 =>
      simp only [he] at hr
      exact ih t1 t (fun x hx => hno x (List.mem_cons_of_mem e hx))
        (txn_event_gate e txn t1 (hno e (List.mem_cons_self e rest)) h he) hr

/-- C26 fails on the code when `commit` lies in between.  In scenario S4
transaction 1 takes S on table 7 and unlocks it, which leaves it SHRINKING;
`commit` then ends with `set_state(COMMITTED)`, and the lock functions turn away
only a transaction that is SHRINKING or ABORTED: the later
`lock_shared_on_record` of transaction 1 returns true, leaves it GROWING, puts the
record into its lock set and a request into the queue of the record. -/
theorem C26_commit_reopens_the_gate :
    lockS4a.2.2 = .returned true ∧ lockS4b.2.2 = true ∧ lockS4b.2.1.state_ = .SHRINKING ∧
    txn_after_events lockS4b.2.1 [TxnEvent.commit tmS4] = some (commit tmS4 lockS4b.2.1).2 ∧
    (commit tmS4 lockS4b.2.1).2.state_ = .COMMITTED ∧
    (lock_shared_on_record (commit tmS4 lockS4b.2.1).1.lock_manager_
      (commit tmS4 lockS4b.2.1).2 ⟨0, 0⟩ 7).2.2 = .returned true ∧
    (lock_shared_on_record (commit tmS4 lockS4b.2.1).1.lock_manager_
      (commit tmS4 lockS4b.2.1).2 ⟨0, 0⟩ 7).2.1.state_ = .GROWING ∧
    (lock_shared_on_record (commit tmS4 lockS4b.2.1).1.lock_manager_
      (commit tmS4 lockS4b.2.1).2 ⟨0, 0⟩ 7).2.1.lock_set_ = [⟨7, .RECORD ⟨0, 0⟩⟩] ∧
    ((lock_shared_on_record (commit tmS4 lockS4b.2.1).1.lock_manager_
      (commit tmS4 lockS4b.2.1).2 ⟨0, 0⟩ 7).1.lock_table_
        ⟨7, .RECORD ⟨0, 0⟩⟩).request_queue_ = [⟨1, .SHARED, false⟩] := by
  refine ⟨by decide, by decide, by decide, rfl, by decide, by decide, by decide, by decide,
    by decide⟩

/-- C26 (amended): the strict 2PL gate.  Once a transaction has executed `unlock`,
for any id and on any lock table, then after any further calls for it that return
and among which there is no `commit` (calls of it to the lock functions and to
`unlock`, each on whatever lock table it finds, and calls of `begin` and `abort`
of any transaction manager), every call of one of the six lock functions, on any
lock table, returns false, leaves the transaction ABORTED and changes nothing
else: the lock table, with all its request queues, and the lock set of the
transaction are as before. -/
theorem C26_strict_2PL_gate {σ : Type} (lm0 : LockManager) (txn0 : Transaction)
    (id0 : LockDataId) (later : List (TxnEvent σ)) (t : Transaction)
    (hno : ∀ e ∈ later, e.is_commit = false)
    (hrun : txn_after_events (unlock lm0 txn0 id0).2.1 later = some t)
    (lm : LockManager) (c : LockCall) :
    c.run lm t = (lm, { t with state_ := .ABORTED }, .returned false) :=
  lock_call_gate c lm t
    (txn_after_events_gate later _ t hno (Or.inl (unlock_state lm0 txn0 id0)) hrun)

/-- Witness of the amended C26.  Scenario S4: transaction 1 takes S on table 7 and
unlocks it; its `lock_shared_on_record` then returns false and leaves it ABORTED,
with its lock set as before.  And after the `unlock`, a `lock_exclusive_on_table`,
an `abort` and a `begin` in between, its `lock_IX_on_table` on the empty lock
table returns false. -/
theorem C26_strict_2PL_gate_witness :
    lockS4a.2.2 = .returned true ∧ lockS4b.2.2 = true ∧
    lock_shared_on_record lockS4b.1 lockS4b.2.1 ⟨0, 0⟩ 7 =
      (lockS4b.1, { lockS4b.2.1 with state_ := .ABORTED }, .returned false) ∧
    lockS4c.2.2 = .returned false ∧ lockS4c.2.1.state_ = .ABORTED ∧
    lockS4c.2.1.lock_set_ = lockS4b.2.1.lock_set_ ∧
    (lock_IX_on_table emptyLockManager
      { txn_id_ := 1, isolation_level_ := .SERIALIZABLE, state_ := .ABORTED, lock_set_ := [],
        write_set_ := [] } 7).2.2 = .returned false :=
  ⟨by decide, by decide,
    C26_strict_2PL_gate lockS4a.1 lockS4a.2.1 ⟨7, .TABLE⟩ ([] : List (TxnEvent Unit))
      lockS4b.2.1 (fun _ h => absurd h (List.not_mem_nil _)) rfl lockS4b.1
      (.shared_on_record ⟨0, 0⟩ 7),
    by decide, by decide, by decide,
    congrArg (fun r => r.2.2)
      (C26_strict_2PL_gate lockS4a.1 lockS4a.2.1 ⟨7, .TABLE⟩
        [TxnEvent.call lockS4b.1 (.lock (.exclusive_on_table 7)),
          TxnEvent.abort rbTrace (newTm 2 []), TxnEvent.begin (newTm 2 [])]
        { txn_id_ := 1, isolation_level_ := .SERIALIZABLE, state_ := .ABORTED,
          lock_set_ := [], write_set_ := [] }
        (by decide) (by decide) emptyLockManager (.IX_on_table 7))⟩

/-! ## Transaction manager: abort on the heap and index files -/

/-- C36 fails on the code, for the rows a transaction has deleted.  `abort` passes
the record of a DELETE entry to `rollback_delete` and not its Rid, and
`insert_record` puts a record into the first free slot of the first page of the
free list; `insert_record(rid, buf)` does the same, whatever `rid` is.  Table `t`
holds the rows 1, 2, 3 at (1,0), (1,1), (1,2); a transaction deletes the rows at
(1,0) and (1,2) and aborts: afterwards (1,0) holds the row 3 and (1,2) the row 1.
With slot (1,0) free before the transaction, which deletes the row 3 at (1,2) and
aborts: the row is at (1,0) afterwards and (1,2) holds no record.  Scenario S6
holds: after the insert of a row and `abort` the table has no row and the index
no entry. -/
theorem C36_abort_restores_deleted_row_elsewhere :
    table_rows (smHeap heapC36) =
      [(⟨1, 0⟩, .ok [1, 0, 0, 0]), (⟨1, 1⟩, .ok [2, 0, 0, 0]), (⟨1, 2⟩, .ok [3, 0, 0, 0])] ∧
    table_rows (smHeap (runHeap heapC36 [.delete ⟨1, 0⟩, .delete ⟨1, 2⟩])) =
      [(⟨1, 1⟩, .ok [2, 0, 0, 0])] ∧
    (abort smRollback (newTm 2 (smHeap (runHeap heapC36 [.delete ⟨1, 0⟩, .delete ⟨1, 2⟩])))
        txnC36).map (fun r => (table_rows r.1.sm_manager_, r.2.write_set_, r.2.state_)) =
      some ([(⟨1, 0⟩, .ok [3, 0, 0, 0]), (⟨1, 1⟩, .ok [2, 0, 0, 0]),
        (⟨1, 2⟩, .ok [1, 0, 0, 0])], [], .ABORTED) ∧
    table_rows (smHeap (runHeap heapC36 [.delete ⟨1, 0⟩])) =
      [(⟨1, 1⟩, .ok [2, 0, 0, 0]), (⟨1, 2⟩, .ok [3, 0, 0, 0])] ∧
    (abort smRollback (newTm 2 (smHeap (runHeap heapC36 [.delete ⟨1, 0⟩, .delete ⟨1, 2⟩])))
        { txnC36 with write_set_ := [⟨.DELETE_TUPLE, "t", ⟨1, 2⟩, [3, 0, 0, 0]⟩] }).map
        (fun r => table_rows r.1.sm_manager_) =
      some [(⟨1, 0⟩, .ok [3, 0, 0, 0]), (⟨1, 1⟩, .ok [2, 0, 0, 0])] ∧
    (abort smRollback (newTm 2 (smHeap (runHeap heapC36 [.delete ⟨1, 0⟩, .delete ⟨1, 2⟩])))
        { txnC36 with write_set_ := [⟨.DELETE_TUPLE, "t", ⟨1, 2⟩, [3, 0, 0, 0]⟩] }).map
        (fun r => (r.1.sm_manager_.fhs_ "t").map (fun fh => get_record fh ⟨1, 2⟩)) =
      some (some (.error (.RecordNotFoundError 1 2))) ∧
    get_record (insert_record_rid (runHeap heapC36 [.delete ⟨1, 0⟩, .delete ⟨1, 2⟩]) ⟨1, 2⟩
      [3, 0, 0, 0]).1 ⟨1, 0⟩ = .ok [3, 0, 0, 0] ∧
    smS6.map (fun sm => (table_rows sm, index_entries sm)) =
      some ([(⟨1, 0⟩, .ok [7, 0, 0, 0])], [([7], ⟨1, 0⟩)]) ∧
    (smS6.bind (fun sm => abort smRollback (newTm 2 sm) txnS6)).map
        (fun r => (table_rows r.1.sm_manager_, r.2.state_)) = some ([], .ABORTED) ∧
    (smS6.bind (fun sm => abort smRollback (newTm 2 sm) txnS6)).map
        (fun r => index_entries r.1.sm_manager_) = some [] := by
  refine ⟨by decide, by decide, by decide, by decide, by decide, by decide, by decide,
    by decide, by decide, by decide⟩

/-! ## System manager: lemmas -/

theorem int_add_exact (a b : Int) (h : -2147483648 ≤ a + b ∧ a + b < 2147483648) :
    int_add a b = a + b := by
  unfold int_add
  omega

/-- As long as every offset fits an `int`, the loop of `create_table` makes the
packed columns and ends with the sum of the lengths. -/
theorem create_table_cols_eq (tab_name : String) :
    ∀ (col_defs : List ColDef) (acc : List ColMeta) (off : Int),
      (∀ i : Nat, i ≤ col_defs.length →
        -2147483648 ≤ off + ((col_defs.take i).map (fun d => d.len)).sum ∧
          off + ((col_defs.take i).map (fun d => d.len)).sum < 2147483648) →
      create_table_cols tab_name col_defs (acc, off) =
        (acc ++ packed_cols tab_name off col_defs, off + (col_defs.map (fun d => d.len)).sum) := by
  intro col_defs
  induction col_defs with
  | nil =>
    intro acc off _
    simp [create_table_cols, packed_cols]
  | cons d ds ih =>
    intro acc off hfit
    have h1 := hfit 1 (by simp)
    simp only [List.take_succ_cons, List.take_zero, List.map_cons, List.map_nil, List.sum_cons,
      List.sum_nil, add_zero] at h1
    have hadd : int_add off d.len = off + d.len := int_add_exact off d.len h1
    have h := ih (acc ++ [(⟨tab_name, d.name, d.type, d.len, off, false⟩ : ColMeta)])
      (off + d.len) (by
        intro i hi
        have h2 := hfit (i + 1) (by simp only [List.length_cons]; omega)
        simp only [List.take_succ_cons, List.map_cons, List.sum_cons] at h2
        omega)
    unfold create_table_cols at h ⊢
    rw [List.foldl_cons]
    simp only [hadd]
    rw [h]
    simp only [packed_cols, List.append_assoc, List.singleton_append, List.map_cons,
      List.sum_cons, Prod.mk.injEq, true_and]
    omega

theorem packed_cols_length (tab_name : String) :
    ∀ (col_defs : List ColDef) (off : Int),
      (packed_cols tab_name off col_defs).length = col_defs.length := by
  intro col_defs
  induction col_defs with
  | nil => intro off; rfl
  | cons d ds ih =>
    intro off
    simp only [packed_cols, List.length_cons, ih]

/-- The `i`-th packed column has the name, type and length of the `i`-th
definition and starts where the lengths of the definitions before it end. -/
theorem packed_cols_getElem (tab_name : String) :
    ∀ (col_defs : List ColDef) (off : Int) (i : Nat),
      (packed_cols tab_name off col_defs)[i]? =
        (col_defs[i]?).map (fun d =>
          { tab_name := tab_name, name := d.name, type := d.type, len := d.len,
            offset := off + ((col_defs.take i).map (fun d => d.len)).sum, index := false }) := by
  intro col_defs
  induction col_defs with
  | nil => intro off i; simp [packed_cols]
  | cons d ds ih =>
    intro off i
    cases i with
    | zero => simp [packed_cols]
    | succ i =>
      simp only [packed_cols, List.getElem?_cons_succ, ih, List.take_succ_cons, List.map_cons,
        List.sum_cons]
      cases ds[i]? with
      | none => rfl
      | some d1 =>
        simp only [Option.map_some', Option.some.injEq, ColMeta.mk.injEq, true_and, and_true]
        omega

/-- A call of `create_index` that returns or throws leaves the catalog as it
is. -/
theorem create_index_db (ix_manager_ : String → List ColMeta → Except SmError IxIndexHandle)
    (sm : SmManager) (tab_name : String) (col_names : List String)
    (r : SmManager × Except SmError Unit)
    (h : create_index ix_manager_ sm tab_name col_names = some r) : r.1.db_ = sm.db_ := by
  unfold create_index at h
  cases ht : sm.db_.tabs_ tab_name with
  | none =>
    simp only [ht, Option.some.injEq] at h
    subst h; rfl
  | some tab =>
    simp only [ht] at h
    cases hv : verify_cols true tab_name tab col_names with
    | error e =>
      simp only [hv, Option.some.injEq] at h
      subst h; rfl
    | ok cols =>
      simp only [hv] at h
      cases hx : ix_manager_ tab_name cols with
      | error e =>
        simp only [hx, Option.some.injEq] at h
        subst h; rfl
      | ok ih =>
        simp only [hx] at h
        cases hf : sm.fhs_ tab_name with
        | none =>
          simp only [hf, Option.some.injEq] at h
          subst h; rfl
        | some fh =>
          simp only [hf] at h
          cases hi : index_records fh cols (scan_rids fh) ih with
          | none => simp [hi] at h
          | some o =>
            cases o with
            | error e =>
              simp only [hi, Option.some.injEq] at h
              subst h; rfl
            | ok ih1 =>
              simp only [hi, Option.some.injEq] at h
              subst h; rfl

/-- A call of `create_index` that returns has passed the check of the flags: the
table is in the catalog and none of the named columns has its flag set. -/
theorem create_index_ok (ix_manager_ : String → List ColMeta → Except SmError IxIndexHandle)
    (sm sm1 : SmManager) (tab_name : String) (col_names : List String)
    (h : create_index ix_manager_ sm tab_name col_names = some (sm1, .ok ())) :
    ∃ tab cols, sm.db_.tabs_ tab_name = some tab ∧
      verify_cols true tab_name tab col_names = .ok cols := by
  unfold create_index at h
  cases ht : sm.db_.tabs_ tab_name with
  | none => simp [ht] at h
  | some tab =>
    simp only [ht] at h
    cases hv : verify_cols true tab_name tab col_names with
    | error e => simp [hv] at h
    | ok cols => exact ⟨tab, cols, rfl, hv⟩

theorem drop_index_db (sm : SmManager) (tab_name : String) (col_names : List String) :
    (drop_index sm tab_name col_names).1.db_ = sm.db_ := by
  unfold drop_index
  cases sm.db_.tabs_ tab_name with
  | none => rfl
  | some tab =>
    simp only
    cases verify_cols false tab_name tab col_names with
    | error e => rfl
    | ok cols =>
      simp only
      cases sm.ihs_ (get_index_name tab_name col_names) with
      | none => rfl
      | some ih => rfl

/-- After the check of `create_index` has passed for the column `c`, the check of
`drop_index` throws `IndexNotFoundError` for it. -/
theorem verify_cols_flip (tab_name : String) (tab : TabMeta) (c : String) (cs : List String)
    (cols : List ColMeta) (h : verify_cols true tab_name tab (c :: cs) = .ok cols) :
    verify_cols false tab_name tab (c :: cs) = .error (.IndexNotFoundError tab_name [c]) := by
  unfold verify_cols at h ⊢
  cases hg : tab.get_col c with
  | error e => simp [hg] at h
  | ok col =>
    simp only [hg] at h ⊢
    by_cases hi : col.index = true
    · simp [hi] at h
    · have hf : col.index = false := by simpa using hi
      simp [hf]

/-! ## System manager: the claims -/

/-- C37 fails on the code where a sum of lengths leaves the range of `int`, the
type of `curr_offset` and `record_size`: with three columns of the lengths
2147483647, 1 and 1 the third column gets the offset -2147483648, where the sum
of the lengths before it is 2147483648, and the record size is -2147483647.  And
when the file manager throws in `create_file` the table is not registered. -/
theorem C37_offset_leaves_int_range :
    (create_table rmAny emptySm "t" colsBig).2 = .ok () ∧
    ((create_table rmAny emptySm "t" colsBig).1.db_.tabs_ "t").map
        (fun tab => tab.cols.map (fun col => col.offset)) =
      some [0, 2147483647, -2147483648] ∧
    ((colsBig.take 2).map (fun d => d.len)).sum = 2147483648 ∧
    (create_table_cols "t" colsBig ([], 0)).2 = -2147483647 ∧
    (colsBig.map (fun d => d.len)).sum = 2147483649 ∧
    (create_table rmNone emptySm "t" colsC37).2 = .error (.FileError 1) ∧
    (create_table rmNone emptySm "t" colsC37).1.db_.tabs_ "t" = none := by
  refine ⟨by decide, by decide, by decide, by decide, by decide, by decide, by decide⟩

/-- C37 (amended): `create_table` lays the columns out packed.  For every file
manager, state of the system manager, table name and list of column definitions:
when the name is in the catalog the call throws `TableExistsError` and leaves the
whole state as it is.  When it is not, and the sums `l0 + ... + l(i-1)` of the
lengths, up to the sum of all of them, lie in the range of `int`: `create_file` is
called for the record size `l0 + ... + l(n-1)`; when it throws, the exception
goes through and the state is as before; when it returns, the catalog has the
table under its name, with as many columns as definitions, the `i`-th with the
name, type and length of the `i`-th definition, the offset `l0 + ... + l(i-1)`
and `index = false`, and the other tables are as before; when `open_file` then
returns a handle the call returns and the handle is stored under the table
name, and when `open_file` throws, the exception goes through, with the table in
the catalog. -/
theorem C37_create_table_packs_columns
    (rm_manager_ : RmManager) (sm : SmManager) (tab_name : String) (col_defs : List ColDef) :
    ((sm.db_.tabs_ tab_name).isSome = true →
      create_table rm_manager_ sm tab_name col_defs =
        (sm, .error (.TableExistsError tab_name))) ∧
    (sm.db_.tabs_ tab_name = none → OffsetsFit col_defs →
      rm_manager_.create_file tab_name (col_defs.map (fun d => d.len)).sum = .ok () →
        (∃ tab, (create_table rm_manager_ sm tab_name col_defs).1.db_.tabs_ tab_name =
            some tab ∧
          tab.name = tab_name ∧ tab.indexes = [] ∧ tab.cols.length = col_defs.length ∧
          ∀ i : Nat, tab.cols[i]? = (col_defs[i]?).map (fun d =>
            { tab_name := tab_name, name := d.name, type := d.type, len := d.len,
              offset := ((col_defs.take i).map (fun d => d.len)).sum, index := false })) ∧
        (∀ other, other ≠ tab_name →
          (create_table rm_manager_ sm tab_name col_defs).1.db_.tabs_ other =
            sm.db_.tabs_ other) ∧
        (create_table rm_manager_ sm tab_name col_defs).1.ihs_ = sm.ihs_ ∧
        (∀ fh, rm_manager_.open_file tab_name = .ok fh →
          (create_table rm_manager_ sm tab_name col_defs).2 = .ok () ∧
          (sm.fhs_ tab_name = none →
            (create_table rm_manager_ sm tab_name col_defs).1.fhs_ tab_name = some fh)) ∧
        (∀ e, rm_manager_.open_file tab_name = .error e →
          (create_table rm_manager_ sm tab_name col_defs).2 = .error e ∧
          (create_table rm_manager_ sm tab_name col_defs).1.fhs_ = sm.fhs_)) ∧
    (sm.db_.tabs_ tab_name = none → OffsetsFit col_defs →
      ∀ e, rm_manager_.create_file tab_name (col_defs.map (fun d => d.len)).sum = .error e →
        create_table rm_manager_ sm tab_name col_defs = (sm, .error e)) := by
  refine ⟨?_, ?_, ?_⟩
  · intro h
    unfold create_table
    rw [if_pos h]
  · intro hnone hfit hcf
    have hcols := create_table_cols_eq tab_name col_defs [] 0 (by
      intro i hi
      have := hfit i hi
      omega)
    simp only [List.nil_append, zero_add] at hcols
    have hn : ¬ (sm.db_.tabs_ tab_name).isSome = true := by simp [hnone]
    have hcat : ∀ r : SmManager × Except SmError Unit,
        r = create_table rm_manager_ sm tab_name col_defs →
        r.1.db_.tabs_ =
          Function.update sm.db_.tabs_ tab_name
            (some { name := tab_name, cols := packed_cols tab_name 0 col_defs, indexes := [] }) ∧
        r.1.ihs_ = sm.ihs_ := by
      intro r hr
      subst hr
      unfold create_table
      simp only [hn, if_false, hcols, hcf]
      cases rm_manager_.open_file tab_name with
      | error e => exact ⟨rfl, rfl⟩
      | ok fh => exact ⟨rfl, rfl⟩
    obtain ⟨htabs, hihs⟩ := hcat _ rfl
    refine ⟨⟨{ name := tab_name, cols := packed_cols tab_name 0 col_defs, indexes := [] }, ?_,
      rfl, rfl, packed_cols_length _ _ _, ?_⟩, ?_, hihs, ?_, ?_⟩
    · rw [htabs]
      simp
    · intro i
      rw [packed_cols_getElem]
      simp
    · intro other ho
      rw [htabs, Function.update_noteq ho]
    · intro fh hfh
      unfold create_table
      simp only [hn, if_false, hcols, hcf, hfh]
      refine ⟨rfl, ?_⟩
      intro hf
      simp [hf]
    · intro e he
      unfold create_table
      simp only [hn, if_false, hcols, hcf, he]
      exact ⟨rfl, rfl⟩
  · intro hnone hfit e he
    have hcols := create_table_cols_eq tab_name col_defs [] 0 (by
      intro i hi
      have := hfit i hi
      omega)
    simp only [List.nil_append, zero_add] at hcols
    unfold create_table
    simp [hnone, hcols, he]

/-- Witness of the amended C37: on the empty catalog, `create_table` of `t` with
the columns `a INT`, `b CHAR(10)`, `c FLOAT`, whose lengths sum up to 18, with a
file manager that makes a file of record size 18 only: the call returns and
registers `t` with the offsets 0, 4 and 14, and the handle of the file is stored
under `t`; a second `create_table` of `t` throws `TableExistsError` and changes
nothing. -/
theorem C37_create_table_packs_columns_witness :
    (create_table rmC37 emptySm "t" colsC37).2 = .ok () ∧
    (create_table rmC37 emptySm "t" colsC37).1.db_.tabs_ "t" =
      some { name := "t"
             cols := [⟨"t", "a", .TYPE_INT, 4, 0, false⟩, ⟨"t", "b", .TYPE_STRING, 10, 4, false⟩,
               ⟨"t", "c", .TYPE_FLOAT, 4, 14, false⟩]
             indexes := [] } ∧
    ((create_table rmC37 emptySm "t" colsC37).1.fhs_ "t").map
      (fun fh => fh.file_hdr_.record_size) = some 18 ∧
    create_table rmC37 (create_table rmC37 emptySm "t" colsC37).1 "t" colsC37 =
      ((create_table rmC37 emptySm "t" colsC37).1, .error (.TableExistsError "t")) :=
  ⟨(((C37_create_table_packs_columns rmC37 emptySm "t" colsC37).2.1 rfl
        (fun i hi => by
          have h3 : i ≤ 3 := hi
          interval_cases i <;> decide)
        rfl).2.2.2.1 (emptyHeap 18 4) rfl).1,
    by decide,
    by decide,
    (C37_create_table_packs_columns rmC37 (create_table rmC37 emptySm "t" colsC37).1 "t"
      colsC37).1 (by decide)⟩

/-- C39 fails on the code.  The closing loops of `create_index` and `drop_index`,
`for (auto col : cols) col.index = ...`, write a copy of each element of the local
list `cols`: a call of either function that returns or throws leaves the catalog
as it is.  So after a `create_index` that has returned, on a table and a nonempty
list of columns, the flags are still false: a following `drop_index` on the same
columns throws `IndexNotFoundError` for the first of them, and a second
`create_index` passes its check of the flags.  On table `t` with the rows 1, 2, 3
and the column `a`: `create_index(t, [a])` returns and has built the index, the
flag of `a` is false, `drop_index(t, [a])` throws `IndexNotFoundError`, and a
second `create_index(t, [a])` returns. -/
theorem C39_index_flag_never_set :
    (∀ (ix_manager_ : String → List ColMeta → Except SmError IxIndexHandle) (sm : SmManager)
        (tab_name : String) (col_names : List String) (r : SmManager × Except SmError Unit),
      create_index ix_manager_ sm tab_name col_names = some r → r.1.db_ = sm.db_) ∧
    (∀ (sm : SmManager) (tab_name : String) (col_names : List String),
      (drop_index sm tab_name col_names).1.db_ = sm.db_) ∧
    (∀ (ix_manager_ : String → List ColMeta → Except SmError IxIndexHandle)
        (sm sm1 : SmManager) (tab_name c : String) (cs : List String),
      create_index ix_manager_ sm tab_name (c :: cs) = some (sm1, .ok ()) →
      drop_index sm1 tab_name (c :: cs) =
        (sm1, .error (.IndexNotFoundError tab_name [c]))) ∧
    (∀ (ix_manager_ : String → List ColMeta → Except SmError IxIndexHandle)
        (sm sm1 : SmManager) (tab_name : String) (col_names : List String),
      create_index ix_manager_ sm tab_name col_names = some (sm1, .ok ()) →
      ∃ tab cols, sm1.db_.tabs_ tab_name = some tab ∧
        verify_cols true tab_name tab col_names = .ok cols) ∧
    (create_index ixC39 (smHeap heapC36) "t" ["a"]).map (fun r => (r.2, r.1.db_.tabs_ "t",
        index_entries r.1)) =
      some (.ok (), some (tabT []), [([1], ⟨1, 0⟩), ([2], ⟨1, 1⟩), ([3], ⟨1, 2⟩)]) ∧
    (create_index ixC39 (smHeap heapC36) "t" ["a"]).map
        (fun r => (drop_index r.1 "t" ["a"]).2) =
      some (.error (.IndexNotFoundError "t" ["a"])) ∧
    (create_index ixC39 (smHeap heapC36) "t" ["a"]).bind
        (fun r => (create_index ixC39 r.1 "t" ["a"]).map (fun r1 => r1.2)) =
      some (.ok ()) := by
  refine ⟨?_, ?_, ?_, ?_, by decide, by decide, by decide⟩
  · intro ix_manager_ sm tab_name col_names r h
    exact create_index_db ix_manager_ sm tab_name col_names r h
  · intro sm tab_name col_names
    exact drop_index_db sm tab_name col_names
  · intro ix_manager_ sm sm1 tab_name c cs h
    obtain ⟨tab, cols, ht, hv⟩ := create_index_ok ix_manager_ sm sm1 tab_name (c :: cs) h
    have hdb : sm1.db_ = sm.db_ := create_index_db ix_manager_ sm tab_name (c :: cs) _ h
    unfold drop_index
    rw [hdb, ht]
    simp only [verify_cols_flip tab_name tab c cs cols hv]
  · intro ix_manager_ sm sm1 tab_name col_names h
    obtain ⟨tab, cols, ht, hv⟩ := create_index_ok ix_manager_ sm sm1 tab_name col_names h
    have hdb : sm1.db_ = sm.db_ := create_index_db ix_manager_ sm tab_name col_names _ h
    exact ⟨tab, cols, by rw [hdb, ht], hv⟩

/-! ## B+-tree index: the claims on erase_pair and erase_leaf -/

/-- C38 fails on the code, on the Rids.  For `pos` outside `[0, num_key)` the node
is unchanged, and for `pos` inside it `num_key` is one less and the keys are the
old ones without the key of slot `pos`, as claimed.  The Rids behind `pos` are not
the old ones moved down by one: they come from `sizeof(Rid)` = 8 slots further on.
In a zero-filled node with the pairs 10 -> (1,0), 20 -> (1,1), 30 -> (1,2),
`erase_pair(0)` leaves 20 -> (0,0), 30 -> (0,0); in the node with the keys 1 to 10
and the Rids (1,0) to (1,9) it leaves 2 -> (1,8), 3 -> (1,9) and (0,0) behind
them.  Only the last slot is removed with the pairing intact. -/
theorem C38_erase_pair_takes_rids_from_eight_slots_on :
    (∀ (nd : IxPage) (pos : Int), pos ≥ nd.page_hdr.num_key ∨ pos < 0 →
      erase_pair nd pos = nd) ∧
    (∀ (nd : IxPage) (pos : Int), 0 ≤ pos → pos < nd.page_hdr.num_key →
      (erase_pair nd pos).page_hdr.num_key = nd.page_hdr.num_key - 1 ∧
        leaf_keys (erase_pair nd pos) = (leaf_keys nd).eraseIdx pos.toNat) ∧
    node_pairs (erase_pair (nodeOf true [([10], ⟨1, 0⟩), ([20], ⟨1, 1⟩), ([30], ⟨1, 2⟩)]) 0) =
      [([20], ⟨0, 0⟩), ([30], ⟨0, 0⟩)] ∧
    leaf_keys (erase_pair nodeC38 0) = [[2], [3], [4], [5], [6], [7], [8], [9], [10]] ∧
    node_rids (erase_pair nodeC38 0) =
      [⟨1, 8⟩, ⟨1, 9⟩, ⟨0, 0⟩, ⟨0, 0⟩, ⟨0, 0⟩, ⟨0, 0⟩, ⟨0, 0⟩, ⟨0, 0⟩, ⟨0, 0⟩] ∧
    node_rids nodeC38 =
      [⟨1, 0⟩, ⟨1, 1⟩, ⟨1, 2⟩, ⟨1, 3⟩, ⟨1, 4⟩, ⟨1, 5⟩, ⟨1, 6⟩, ⟨1, 7⟩, ⟨1, 8⟩, ⟨1, 9⟩] ∧
    node_rids (erase_pair nodeC38 9) =
      [⟨1, 0⟩, ⟨1, 1⟩, ⟨1, 2⟩, ⟨1, 3⟩, ⟨1, 4⟩, ⟨1, 5⟩, ⟨1, 6⟩, ⟨1, 7⟩, ⟨1, 8⟩] := by
  refine ⟨?_, ?_, by decide, by decide, by decide, by decide, by decide⟩
  · intro nd pos h
    unfold erase_pair
    rw [if_pos h]
  · intro nd pos h0 h1
    exact erase_pair_keys nd pos h0 h1

/-- C40 fails on the code.  `coalesce` calls `erase_leaf(*node)` for every kind of
node, and with two internal participants the assertion `leaf->is_leaf_page()`
fails: the call has no result, whatever the state.  In the index with the keys
10 to 80 the root, page 8, is over the internal nodes 4 and 7; `delete_entry` of
30 merges leaf 3 into leaf 2 and leaves node 4 with one entry, its sibling 7 has
two, and the recursive step on node 4 coalesces the two internal nodes: the call
has no result.  And `erase_leaf` fetches the `prev_leaf` and the `next_leaf`
neighbour without a test: for a leaf whose link is the sentinel the fetch names no
page.  `delete_entry` of 70 merges the last leaf, page 6, whose `next_leaf` is the
sentinel, into leaf 5: the call has no result. -/
theorem C40_erase_leaf_precondition_fails :
    (∀ (recurse : IxIndexHandle → Int → Option (IxIndexHandle × Bool)) (t : IxIndexHandle)
        (neighbor_node node parent index : Int),
      (t.pages node).page_hdr.is_leaf = false →
      (t.pages neighbor_node).page_hdr.is_leaf = false →
      coalesce recurse t neighbor_node node parent index = none) ∧
    (∀ (t : IxIndexHandle) (leaf : Int),
      (t.pages leaf).page_hdr.prev_leaf = INVALID_PAGE_ID ∨
        (t.pages leaf).page_hdr.next_leaf = INVALID_PAGE_ID →
      erase_leaf t leaf = none) ∧
    ixC40.map (fun t => (t.file_hdr_.root_page_, leaf_keys (t.pages 8),
        (node_rids (t.pages 8)).map (fun r => r.page_no))) =
      some (8, [[10, 0, 0, 0], [50, 0, 0, 0]], [4, 7]) ∧
    ixC40.map (fun t => ((t.pages 4).page_hdr.is_leaf, (t.pages 7).page_hdr.is_leaf,
        (node_rids (t.pages 4)).map (fun r => r.page_no),
        (node_rids (t.pages 7)).map (fun r => r.page_no))) =
      some (false, false, [2, 3], [5, 6]) ∧
    ixC40.bind (fun t => find_leaf_page t [30, 0, 0, 0]) = some 3 ∧
    ixC40.bind (fun t => ((t.pages 3).remove t.file_hdr_ [30, 0, 0, 0]).bind (fun r =>
      (coalesce (fun t1 _ => some (t1, true)) (t.setPage 3 r.1) 2 3 4 1).map (fun r =>
        ((r.1.pages 4).page_hdr.is_leaf, (r.1.pages 4).page_hdr.num_key,
          find_child (r.1.pages 8) 4, ((r.1.pages 8).rids 1).page_no)))) =
      some (false, 1, some 0, 7) ∧
    (ixC40.bind (fun t => delete_entry t [30, 0, 0, 0])).isNone = true ∧
    ixC40.bind (fun t => find_leaf_page t [70, 0, 0, 0]) = some 6 ∧
    ixC40.map (fun t => ((t.pages 6).page_hdr.is_leaf, (t.pages 6).page_hdr.next_leaf,
        t.file_hdr_.last_leaf_)) = some (true, -1, 6) ∧
    (ixC40.bind (fun t => delete_entry t [70, 0, 0, 0])).isNone = true := by
  refine ⟨?_, ?_, by decide!, by decide!, by decide!, by decide!, by decide!, by decide!,
    by decide!, by decide!⟩
  · intro recurse t neighbor_node node parent index hn hb
    exact coalesce_internal_none recurse t neighbor_node node parent index hn hb
  · intro t leaf h
    exact erase_leaf_sentinel_none t leaf h

end UniBase
